import Mathlib

/-!
go-srv: listener descriptors and the server lifecycle manager.

A shallow embedding of `srv/schema` (listener descriptors `HTTPFlg`, `TLSFlg`)
and of `srv/server.go`, `srv/options.go` (the lifecycle manager).

Conventions of the embedding.

* A Go `error` is an `Option String` (`none` is `nil`); a call that returns
  `(value, error)` returns an `Except String value`.
* Go `int` and `time.Duration` values are `Int`.
* Everything the code obtains from outside the repository (the Go standard
  library and the operating system) is collected in `Env`; the theorems hold
  for every `Env`.
* Effects on the outside are recorded in `schema.Net` and `srv.World`.
-/

namespace GoSrv

/-! ## Values of the standard library -/

/-- A `time.Duration`: a number of nanoseconds. -/
abbrev Duration := Int

/-- One second as a `time.Duration`. -/
def Second : Duration := 1000000000

/-- Values of the interface type `http.Handler`: `nil`, a handler supplied by
the application, or the wrapper built by `hsts.NewHandler`. -/
inductive Handler where
  | nil : Handler
  | user (id : Nat) : Handler
  | hsts (next : Handler) (MaxAge : Duration) (SendPreloadDirective : Bool) : Handler
  deriving DecidableEq, Repr

/-- A TCP socket returned by `net.Listen`: `id` tells sockets apart, `addr` is
what `Addr().String()` returns. -/
structure Sock where
  id : Nat
  addr : String
  deriving DecidableEq, Repr

/-- Values of `net.Listener` the descriptors handle: the socket itself or the
wrapper of `netutil.LimitListener`. -/
inductive Listener where
  | tcp (sock : Sock) : Listener
  | limited (inner : Listener) (n : Int) : Listener
  deriving DecidableEq, Repr

/-- The `Addr().String()` of a listener; the limiting wrapper forwards it. -/
def Listener.Addr : Listener → String
  | .tcp s => s.addr
  | .limited l _ => l.Addr

/-- The socket under a listener. -/
def Listener.sock : Listener → Sock
  | .tcp s => s
  | .limited l _ => l.sock

/-- The fields of `tls.Config` the code touches. `GetCertificate` is `none`
for a nil callback. -/
structure TLSConfig where
  PreferServerCipherSuites : Bool := false
  CurvePreferences : List Nat := []
  NextProtos : List String := []
  MinVersion : Nat := 0
  CipherSuites : List Nat := []
  Certificates : List String := []
  GetCertificate : Option Nat := none
  ClientCAs : Option (List String) := none
  ClientAuth : Nat := 0
  deriving DecidableEq, Repr

/-- The fields of `http.Server` the code touches. -/
structure HttpServer where
  Addr : String := ""
  MaxHeaderBytes : Int := 0
  ReadTimeout : Duration := 0
  WriteTimeout : Duration := 0
  IdleTimeout : Duration := 0
  Handler : Handler := Handler.nil
  TLSConfig : Option TLSConfig := none
  keepAlivesEnabled : Bool := true
  deriving DecidableEq, Repr

/-- A `log.Logger` of the repository (`Printf`, `Fatalf`). `fatalfExits` tells
whether `Fatalf` ends the process, as the one of Go's standard logger does. -/
structure Logger where
  name : String
  fatalfExits : Bool
  deriving DecidableEq, Repr

/-- The logger `log.New(os.Stderr, "[go-http]", 0)` of the standard library:
its `Fatalf` prints and then calls `os.Exit(1)`. -/
def stdLogger : Logger := ⟨"[go-http]", true⟩

/-- What the code obtains from the standard library and the operating system. -/
structure Env where
  /-- `net.Listen("tcp", addr)`, given the addresses of the earlier calls:
  an error message or the address of the new socket. -/
  netListen : List String → String → Except String String
  /-- `net.SplitHostPort`. -/
  netSplitHostPort : String → Except String (String × String)
  /-- `strconv.Atoi`. -/
  atoi : String → Except String Int
  /-- `tls.LoadX509KeyPair`. -/
  loadX509KeyPair : String → String → Except String String
  /-- `os.ReadFile`. -/
  readFile : String → Except String String
  /-- The `%q` verb of `fmt`. -/
  quote : String → String

/-- A serve task handed to `errgroup.Group.Go`. -/
structure Task where
  server : HttpServer
  listener : Listener
  tls : Bool
  deriving DecidableEq, Repr

/-- A line written through a logger. -/
structure LogLine where
  logger : Logger
  fatal : Bool
  text : String
  deriving DecidableEq, Repr

/-- `strconv.Itoa`. -/
def Itoa (n : Int) : String := toString n

/-- `net.JoinHostPort`. -/
def JoinHostPort (host port : String) : String :=
  if ':' ∈ host.toList then "[" ++ host ++ "]:" ++ port else host ++ ":" ++ port

/-! ## srv/schema/common.go -/

namespace schema

def SchemeHTTP : String := "http"

def SchemeHTTPS : String := "https"

/-- `prefixer(prefix, flagName)`. -/
def prefixer (pfx flagName : String) : String :=
  if pfx = "" then flagName else pfx ++ "-" ++ flagName

/-- `SplitHostPort(addr)`: host and numeric port of an address. -/
def SplitHostPort (env : Env) (addr : String) : Except String (String × Int) :=
  match env.netSplitHostPort addr with
  | .error err => .error err
  | .ok (host, portStr) =>
    if portStr = "" then .error ("missing port in address: " ++ addr)
    else
      match env.atoi portStr with
      | .error err => .error err
      | .ok port => .ok (host, port)

/-! ## srv/schema/iface.go -/

/-- The interface `Hook`. Each method changes the value it is handed through
a pointer, so it is a function from the value before to the value after. -/
structure Hook where
  ConfigureTLS : TLSConfig → TLSConfig
  ConfigureListener : HttpServer → String → String → HttpServer

structure ServerConfig where
  MaxHeaderSize : Int
  Logger : Logger
  Handler : Handler
  Callbacks : Option Hook
  CleanupTimeout : Duration

/-! ## srv/schema/http.go -/

/-- A `sync.Once`. -/
structure Once where
  done : Bool := false
  deriving DecidableEq, Repr

structure HTTPFlg where
  Prefix : String := ""
  Host : String := ""
  Port : Int := 0
  ListenLimit : Int := 0
  KeepAlive : Duration := 0
  ReadTimeout : Duration := 0
  WriteTimeout : Duration := 0
  Handler : Handler := Handler.nil
  listenOnce : Once := {}
  listener : Option Listener := none
  deriving DecidableEq, Repr

/-- The effects of the descriptors on the outside. -/
structure Net where
  /-- The addresses handed to `net.Listen`, in call order. -/
  listenCalls : List String := []
  /-- The sockets closed with `Close()`. -/
  closed : List Sock := []
  /-- The lines written through loggers. -/
  logs : List LogLine := []
  /-- The tasks registered with `eg.Go`. -/
  tasks : List Task := []
  deriving DecidableEq, Repr

/-- `HTTPFlg.Listener()`: binds the socket under the once-guard, or returns
the stored listener. -/
def HTTPFlg.Listener (env : Env) (h : HTTPFlg) (w : Net) :
    HTTPFlg × Net × Except String Listener :=
  -- h.listenOnce.Do(func() { ... })
  let r : HTTPFlg × Net × String :=
    if h.listenOnce.done then (h, w, "")
    else
      let addr := JoinHostPort h.Host (Itoa h.Port)
      let w1 := { w with listenCalls := w.listenCalls ++ [addr] }
      match env.netListen w.listenCalls addr with
      | .error err => ({ h with listener := none, listenOnce := ⟨true⟩ }, w1, err)
      | .ok a =>
        let l : Sock := ⟨w.listenCalls.length, a⟩
        match SplitHostPort env (Listener.tcp l).Addr with
        | .error err =>
          ({ h with listener := none, listenOnce := ⟨true⟩ },
            { w1 with closed := w1.closed ++ [l] }, err)
        | .ok (hh, p) =>
          let l1 := if h.ListenLimit > 0 then Listener.limited (.tcp l) h.ListenLimit
            else Listener.tcp l
          ({ h with Host := hh, Port := p, listener := some l1, listenOnce := ⟨true⟩ }, w1, "")
  match r.1.listener with
  | none => ({ r.1 with listenOnce := {} }, r.2.1, .error r.2.2)
  | some l => (r.1, r.2.1, .ok l)

def HTTPFlg.Scheme (_h : HTTPFlg) : String := SchemeHTTP

/-- `HTTPFlg.Serve(s, eg)`. -/
def HTTPFlg.Serve (env : Env) (h : HTTPFlg) (s : ServerConfig) (w : Net) :
    HTTPFlg × Net × Except String HttpServer :=
  match HTTPFlg.Listener env h w with
  | (h1, w1, .error err) => (h1, w1, .error err)
  | (h1, w1, .ok listener) =>
    let httpSrv : HttpServer :=
      { MaxHeaderBytes := s.MaxHeaderSize
        ReadTimeout := h1.ReadTimeout
        WriteTimeout := h1.WriteTimeout
        Handler := s.Handler }
    let httpSrv := if s.CleanupTimeout > 0 then { httpSrv with IdleTimeout := s.CleanupTimeout }
      else httpSrv
    let httpSrv := if h1.KeepAlive > 0 then { httpSrv with keepAlivesEnabled := true } else httpSrv
    let httpSrv := if h1.Handler ≠ Handler.nil then { httpSrv with Handler := s.Handler }
      else httpSrv
    let httpSrv := match s.Callbacks with
      | some cb => cb.ConfigureListener httpSrv h1.Scheme listener.Addr
      | none => httpSrv
    let address := listener.Addr
    let p := if h1.Prefix = "" then h1.Scheme else h1.Prefix
    let w2 := { w1 with
      logs := w1.logs ++ [⟨s.Logger, false, "Serving at " ++ p ++ "://" ++ address⟩]
      tasks := w1.tasks ++ [⟨httpSrv, listener, false⟩] }
    (h1, w2, .ok httpSrv)

/-! ## srv/schema/https.go -/

structure TLSFlg extends HTTPFlg where
  Cert : String := ""
  CertKey : String := ""
  CACert : String := ""
  deriving DecidableEq, Repr

/-- `TLSFlg.ApplyDefaults(values)`; `none` is a nil pointer. -/
def TLSFlg.ApplyDefaults (t : TLSFlg) (values : Option HTTPFlg) : TLSFlg :=
  match values with
  | none => t
  | some values =>
    let t := if t.Host = "" then { t with Host := values.Host } else t
    let t := if t.ListenLimit = 0 then { t with ListenLimit := values.ListenLimit } else t
    let t := if t.KeepAlive = 0 then { t with KeepAlive := values.KeepAlive } else t
    let t := if t.ReadTimeout = 0 then { t with ReadTimeout := values.ReadTimeout } else t
    let t := if t.WriteTimeout = 0 then { t with WriteTimeout := values.WriteTimeout } else t
    t

/-- `TLSFlg.Listener()`: the same steps as `HTTPFlg.Listener`, on the embedded
fields. -/
def TLSFlg.Listener (env : Env) (t : TLSFlg) (w : Net) :
    TLSFlg × Net × Except String Listener :=
  -- t.listenOnce.Do(func() { ... })
  let r : TLSFlg × Net × String :=
    if t.listenOnce.done then (t, w, "")
    else
      let addr := JoinHostPort t.Host (Itoa t.Port)
      let w1 := { w with listenCalls := w.listenCalls ++ [addr] }
      match env.netListen w.listenCalls addr with
      | .error err => ({ t with listener := none, listenOnce := ⟨true⟩ }, w1, err)
      | .ok a =>
        let l : Sock := ⟨w.listenCalls.length, a⟩
        match SplitHostPort env (Listener.tcp l).Addr with
        | .error err =>
          ({ t with listener := none, listenOnce := ⟨true⟩ },
            { w1 with closed := w1.closed ++ [l] }, err)
        | .ok (hh, p) =>
          let l1 := if t.ListenLimit > 0 then Listener.limited (.tcp l) t.ListenLimit
            else Listener.tcp l
          ({ t with Host := hh, Port := p, listener := some l1, listenOnce := ⟨true⟩ }, w1, "")
  match r.1.listener with
  | none => ({ r.1 with listenOnce := {} }, r.2.1, .error r.2.2)
  | some l => (r.1, r.2.1, .ok l)

def TLSFlg.Scheme (_t : TLSFlg) : String := SchemeHTTPS

/-- The `tls.Config` literal of `TLSFlg.Serve`. -/
def defaultTLSConfig : TLSConfig :=
  { PreferServerCipherSuites := true
    CurvePreferences := [23, 29, 24]
    NextProtos := ["h2", "http/1.1"]
    MinVersion := 0x0303
    CipherSuites := [0x1301, 0x1302, 0x1303, 0xcca9, 0xc02c, 0xc02b, 0xcca8, 0xc030, 0xc02f] }

/-- The value `tls.RequireAndVerifyClientCert`. -/
def RequireAndVerifyClientCert : Nat := 4

/-- `TLSFlg.Serve(s, eg)`. -/
def TLSFlg.Serve (env : Env) (t : TLSFlg) (s : ServerConfig) (w : Net) :
    TLSFlg × Net × Except String HttpServer :=
  match TLSFlg.Listener env t w with
  | (t1, w1, .error err) => (t1, w1, .error ("failed to create listener: " ++ err))
  | (t1, w1, .ok listener) =>
    let pfx := t1.Prefix
    let httpsServer : HttpServer :=
      { Addr := listener.Addr
        MaxHeaderBytes := s.MaxHeaderSize
        ReadTimeout := t1.ReadTimeout
        WriteTimeout := t1.WriteTimeout
        Handler := s.Handler }
    let httpsServer := if s.CleanupTimeout > 0 then
      { httpsServer with IdleTimeout := s.CleanupTimeout } else httpsServer
    -- local values take precedence over the default
    let httpsServer := if t1.Handler ≠ Handler.nil then { httpsServer with Handler := t1.Handler }
      else httpsServer
    let cfg := defaultTLSConfig
    let loaded : Except String TLSConfig :=
      if t1.Cert ≠ "" ∧ t1.CertKey ≠ "" then
        match env.loadX509KeyPair t1.Cert t1.CertKey with
        | .error err => .error ("failed to load TLS certificate and key: " ++ err)
        | .ok c => .ok { cfg with Certificates := [c] }
      else .ok cfg
    match loaded with
    | .error err => (t1, w1, .error err)
    | .ok cfg =>
      let withCA : Except String TLSConfig :=
        if t1.CACert ≠ "" then
          match env.readFile t1.CACert with
          | .error err => .error ("failed to read CA certificate: " ++ err)
          | .ok caCert =>
            .ok { cfg with ClientCAs := some [caCert], ClientAuth := RequireAndVerifyClientCert }
        else .ok cfg
      match withCA with
      | .error err => (t1, w1, .error err)
      | .ok cfg =>
        let cfg := match s.Callbacks with
          | some cb => cb.ConfigureTLS cfg
          | none => cfg
        let httpsServer1 := { httpsServer with TLSConfig := some cfg }
        let httpsServer1 := match s.Callbacks with
          | some cb => cb.ConfigureListener httpsServer1 t1.Scheme listener.Addr
          | none => httpsServer1
        let address := listener.Addr
        let p := if t1.Prefix = "" then t1.Scheme else t1.Prefix
        let w2 := { w1 with
          logs := w1.logs ++ [⟨s.Logger, false, "Serving at " ++ p ++ "://" ++ address⟩]
          tasks := w1.tasks ++ [⟨httpsServer1, listener, true⟩] }
        if cfg.Certificates.length = 0 ∧ cfg.GetCertificate = none then
          if t1.Cert = "" then
            (t1, w1, .error ("the required flag " ++ env.quote (prefixer pfx "tls-certificate")
              ++ " was not specified"))
          else if t1.CertKey = "" then
            (t1, w1, .error ("the required flag " ++ env.quote (prefixer pfx "tls-key")
              ++ " was not specified"))
          else (t1, w2, .ok httpsServer1)
        else (t1, w2, .ok httpsServer1)

/-- The client-CA step of `TLSFlg.Serve` on a configuration, when the CA file
(if one is configured) can be read. -/
def caConfig (env : Env) (t : TLSFlg) (cfg : TLSConfig) : TLSConfig :=
  if t.CACert ≠ "" then
    match env.readFile t.CACert with
    | .ok caCert => { cfg with ClientCAs := some [caCert], ClientAuth := RequireAndVerifyClientCert }
    | .error _ => cfg
  else cfg

/-- The step `s.Callbacks.ConfigureTLS(cfg)` of `TLSFlg.Serve`, skipped for a
nil hook. -/
def runTLSHooks (s : ServerConfig) (cfg : TLSConfig) : TLSConfig :=
  match s.Callbacks with
  | some cb => cb.ConfigureTLS cfg
  | none => cfg

/-- The error message of `TLSFlg.Serve` for a required flag that was not
given. -/
def missingFlag (env : Env) (flag : String) : String :=
  "the required flag " ++ env.quote flag ++ " was not specified"

end schema

/-! ## srv/bytesize.go -/

namespace srv

open schema

/-- A `ByteSize`; `Value` is a `uint64`. -/
structure ByteSize where
  Value : Nat
  deriving DecidableEq, Repr

def NewByteSize (value : Nat) : ByteSize := ⟨value % 2 ^ 64⟩

def ByteSize.Get (b : ByteSize) : Nat := b.Value

/-- The conversion `int(x)` of a `uint64` on a 64-bit platform. -/
def goInt (x : Nat) : Int :=
  if x % 2 ^ 64 < 2 ^ 63 then (x % 2 ^ 64 : Nat) else ((x % 2 ^ 64 : Nat) : Int) - 2 ^ 64

/-! ## srv/options.go, srv/server.go: data -/

/-- A pointer to a listener descriptor. -/
abbrev Ptr := Nat

/-- What a `schema.ServerListener` of this repository points to: an `HTTPFlg`
or a `TLSFlg`. -/
inductive ServerListener where
  | http (h : HTTPFlg) : ServerListener
  | tls (t : TLSFlg) : ServerListener
  deriving DecidableEq, Repr

/-- The method `Scheme()` of the interface. -/
def ServerListener.Scheme : ServerListener → String
  | .http h => h.Scheme
  | .tls t => t.Scheme

/-- The method `Listener()` of the interface. -/
def ServerListener.Listener (env : Env) (d : ServerListener) (w : Net) :
    ServerListener × Net × Except String Listener :=
  match d with
  | .http h => let r := h.Listener env w; (.http r.1, r.2.1, r.2.2)
  | .tls t => let r := t.Listener env w; (.tls r.1, r.2.1, r.2.2)

/-- The method `Serve(config, group)` of the interface. -/
def ServerListener.Serve (env : Env) (d : ServerListener) (sc : ServerConfig) (w : Net) :
    ServerListener × Net × Except String HttpServer :=
  match d with
  | .http h => let r := h.Serve env sc w; (.http r.1, r.2.1, r.2.2)
  | .tls t => let r := t.Serve env sc w; (.tls r.1, r.2.1, r.2.2)

/-- The fields a descriptor shares with `HTTPFlg` (for a `TLSFlg`, the
embedded struct). -/
def ServerListener.toHTTPFlg : ServerListener → HTTPFlg
  | .http h => h
  | .tls t => t.toHTTPFlg

/-- The descriptor with its shared fields replaced. -/
def ServerListener.setHTTPFlg : ServerListener → HTTPFlg → ServerListener
  | .http _, h => .http h
  | .tls t, h => .tls { t with toHTTPFlg := h }

/-- `Listener()` called `n` times in sequence on a descriptor: the descriptor
and the outside after the last call, and the results in call order. -/
def ServerListener.listenerTimes (env : Env) :
    Nat → ServerListener → Net → ServerListener × Net × List (Except String GoSrv.Listener)
  | 0, d, w => (d, w, [])
  | n + 1, d, w =>
    let r := d.Listener env w
    let rest := ServerListener.listenerTimes env n r.1 r.2.1
    (rest.1, rest.2.1, r.2.2 :: rest.2.2)

/-- The stored listener of a descriptor. -/
def ServerListener.listener : ServerListener → Option GoSrv.Listener
  | .http h => h.listener
  | .tls t => t.listener

structure hstsConfig where
  MaxAge : Duration
  SendPreload : Bool
  deriving DecidableEq, Repr

/-- The struct `options`. `onShutdown` is `none` for a nil function and
otherwise lists the functions the callback runs, in order. -/
structure options where
  EnabledListeners : List String := []
  handler : Handler := Handler.nil
  systemHandler : Handler := Handler.nil
  callbacks : Option Hook := none
  logger : Logger := stdLogger
  hsts : Option hstsConfig := none
  onShutdown : Option (List Nat) := none
  listeners : List Ptr := []
  systemListeners : List Ptr := []

/-- A `chan struct{}` nothing is sent on. -/
inductive Chan where
  | opened : Chan
  | closed : Chan
  deriving DecidableEq, Repr

/-- The struct `defaultServer`. `interrupt` holds the signals waiting in the
channel. -/
structure defaultServer where
  opts : options
  CleanupTimeout : Duration := 0
  MaxHeaderSize : ByteSize := ⟨0⟩
  listening : Bool := false
  shutdown : Chan := Chan.opened
  shuttingDown : Int := 0
  interrupted : Bool := false
  interrupt : List Nat := []

/-- A call of a descriptor method made by the manager. -/
inductive Call where
  | listener (p : Ptr) : Call
  | serve (p : Ptr) (sc : ServerConfig) : Call

/-- A goroutine the manager starts. -/
inductive Spawn where
  | handleInterrupt : Spawn
  | handleShutdown : Spawn
  deriving DecidableEq, Repr

/-- The state outside the manager struct: the descriptors behind the pointers,
the effects of the descriptors, and a record of what the manager did. -/
structure World where
  heap : Ptr → ServerListener
  net : Net := {}
  /-- The descriptor methods the manager called, in call order. -/
  calls : List Call := []
  /-- Whether `signal.Notify` was called. -/
  signalNotified : Bool := false
  /-- The goroutines started, in order. -/
  spawned : List Spawn := []
  /-- The `Shutdown(ctx)` calls on protocol servers: the server and the
  timeout of the context. -/
  srvShutdowns : List (HttpServer × Duration) := []
  /-- How many times the `onShutdown` callback was invoked. -/
  onShutdownCalls : Nat := 0
  /-- The functions run by the `onShutdown` callback, in order. -/
  handlersRun : List Nat := []

/-- How a call ends. -/
inductive Ending (α : Type) where
  | returned (a : α) : Ending α
  | panicked (msg : String) : Ending α
  | exited (code : Int) : Ending α
  | blocked : Ending α
  deriving DecidableEq, Repr

/-! ## srv/server.go -/

def defaultSchemes : List String := [SchemeHTTP]

/-- `hasScheme(scheme)`: the map of enabled schemes is a function that is
`false` (the zero value) where no entry was stored. -/
def defaultServer.hasScheme (s : defaultServer) (scheme : String) : Bool :=
  let schemes := s.opts.EnabledListeners
  let schemes := if schemes.length = 0 then defaultSchemes else schemes
  let enabledSchemes : String → Bool :=
    schemes.foldl (fun m v => Function.update m v true) (fun _ => false)
  enabledSchemes scheme

/-- The loop of `Listen()` from the descriptor list `ps` on: the world after
and the error returned from inside the loop, if any. -/
def defaultServer.listenLoop (env : Env) (s : defaultServer) :
    List Ptr → World → World × Option String
  | [], w => (w, none)
  | server :: ps, w =>
    if !s.hasScheme (w.heap server).Scheme then defaultServer.listenLoop env s ps w
    else
      let r := (w.heap server).Listener env w.net
      let w1 := { w with
        heap := Function.update w.heap server r.1
        net := r.2.1
        calls := w.calls ++ [Call.listener server] }
      match r.2.2 with
      | .error err => (w1, some err)
      | .ok _ => defaultServer.listenLoop env s ps w1

/-- `Listen()`. -/
def defaultServer.Listen (env : Env) (s : defaultServer) (w : World) :
    defaultServer × World × Option String :=
  match s.listenLoop env (s.opts.listeners ++ s.opts.systemListeners) w with
  | (w1, some err) => (s, w1, some err)
  | (w1, none) => ({ s with listening := true }, w1, none)

/-- `Shutdown()`. Closing a closed channel panics. -/
def defaultServer.Shutdown (s : defaultServer) : defaultServer × Ending (Option String) :=
  -- atomic.CompareAndSwapInt32(&s.shuttingDown, 0, 1)
  if s.shuttingDown = 0 then
    let s1 := { s with shuttingDown := 1 }
    match s1.shutdown with
    | .opened => ({ s1 with shutdown := Chan.closed }, .returned none)
    | .closed => (s1, .panicked "close of closed channel")
  else (s, .returned none)

/-- `Shutdown()` called `n` times in sequence: the manager after the last
call and the values returned, in call order; a call that does not return ends
the sequence. -/
def defaultServer.shutdownTimes : Nat → defaultServer → defaultServer × Ending (List (Option String))
  | 0, s => (s, .returned [])
  | n + 1, s =>
    match s.Shutdown with
    | (s1, .returned err) =>
      match defaultServer.shutdownTimes n s1 with
      | (s2, .returned errs) => (s2, .returned (err :: errs))
      | (s2, .panicked msg) => (s2, .panicked msg)
      | (s2, .exited code) => (s2, .exited code)
      | (s2, .blocked) => (s2, .blocked)
    | (s1, .panicked msg) => (s1, .panicked msg)
    | (s1, .exited code) => (s1, .exited code)
    | (s1, .blocked) => (s1, .blocked)

/-- How many of `n` calls of `Shutdown()` in sequence close the shutdown
channel, that is, find it open and leave it closed. -/
def defaultServer.closeCount : Nat → defaultServer → Nat
  | 0, _ => 0
  | n + 1, s =>
    (if s.shutdown = Chan.opened ∧ s.Shutdown.1.shutdown = Chan.closed then 1 else 0)
      + defaultServer.closeCount n s.Shutdown.1

/-- The `ServerConfig` of a regular listener in `Serve()`. -/
def defaultServer.regularConfig (s : defaultServer) : ServerConfig :=
  { Callbacks := s.opts.callbacks
    CleanupTimeout := s.CleanupTimeout
    MaxHeaderSize := goInt s.MaxHeaderSize.Get
    Handler := s.opts.handler
    Logger := s.opts.logger }

/-- The `ServerConfig` of a system listener in `Serve()`. -/
def defaultServer.systemConfig (s : defaultServer) : ServerConfig :=
  { Callbacks := none
    CleanupTimeout := s.CleanupTimeout
    MaxHeaderSize := goInt s.MaxHeaderSize.Get
    Handler := s.opts.systemHandler
    Logger := s.opts.logger }

/-- The loop "Start regular listeners" of `Serve()` from the descriptor list
`ps` on, `servers` being the handles collected so far. -/
def defaultServer.serveRegular (env : Env) (s : defaultServer) :
    List Ptr → World → List HttpServer → World × List HttpServer × Option String
  | [], w, servers => (w, servers, none)
  | server :: ps, w, servers =>
    if s.hasScheme (w.heap server).Scheme then
      let sc := s.regularConfig
      let r := (w.heap server).Serve env sc w.net
      let w1 := { w with
        heap := Function.update w.heap server r.1
        net := r.2.1
        calls := w.calls ++ [Call.serve server sc] }
      match r.2.2 with
      | .ok hs => defaultServer.serveRegular env s ps w1 (servers ++ [hs])
      | .error err => (w1, servers, some err)
    else defaultServer.serveRegular env s ps w servers

/-- The loop "Start system listeners" of `Serve()`. -/
def defaultServer.serveSystem (env : Env) (s : defaultServer) :
    List Ptr → World → List HttpServer → World × List HttpServer × Option String
  | [], w, servers => (w, servers, none)
  | server :: ps, w, servers =>
    let sc := s.systemConfig
    let r := (w.heap server).Serve env sc w.net
    let w1 := { w with
      heap := Function.update w.heap server r.1
      net := r.2.1
      calls := w.calls ++ [Call.serve server sc] }
    match r.2.2 with
    | .ok hs => defaultServer.serveSystem env s ps w1 (servers ++ [hs])
    | .error err => (w1, servers, some err)

/-- What `Serve()` leaves behind: the manager, the world, the server handles
collected and the error returned. -/
structure ServeResult where
  s : defaultServer
  w : World
  servers : List HttpServer
  err : Option String

/-- `Serve()`. `waitErr` is what `serveGroup.Wait()` returns once every task
of the group has ended. -/
def defaultServer.Serve (env : Env) (s : defaultServer) (w : World) (waitErr : Option String) :
    ServeResult :=
  let l : defaultServer × World × Option String :=
    if !s.listening then s.Listen env w else (s, w, none)
  match l with
  | (s1, w1, some err) => ⟨s1, w1, [], some err⟩
  | (s1, w1, none) =>
    let w2 := { w1 with
      signalNotified := true
      spawned := w1.spawned ++ [Spawn.handleInterrupt, Spawn.handleShutdown] }
    match s1.serveRegular env s1.opts.listeners w2 [] with
    | (w3, servers, some err) => ⟨s1, w3, servers, some err⟩
    | (w3, servers, none) =>
      match s1.serveSystem env s1.opts.systemListeners w3 servers with
      | (w4, servers, some err) => ⟨s1, w4, servers, some err⟩
      | (w4, servers, none) => ⟨s1, w4, servers, waitErr⟩

/-- What `errgroup.Group.Wait` returns for goroutines that returned `results`:
nil if none failed, else the error of the one that failed first, which
`first` selects among the errors. -/
def errgroupWait (first : Nat → Nat) (results : List (Option String)) : Option String :=
  let errs := results.filterMap id
  errs[first errs.length % errs.length]?

/-- The shutdown grace period of `handleShutdown`: `15*time.Second`. -/
def shutdownTimeout : Duration := 15 * Second

/-- `handleShutdown(&servers)`. `srvShutdown i srv` is what `Shutdown(stCtx)`
returns for the server `srv` at position `i`. -/
def defaultServer.handleShutdown (s : defaultServer) (w : World) (servers : List HttpServer)
    (srvShutdown : Nat → HttpServer → Option String) (first : Nat → Nat) :
    World × Ending (Option String) :=
  match s.shutdown with
  | .opened => (w, .blocked)
  | .closed =>
    let w1 := { w with srvShutdowns := w.srvShutdowns ++ servers.map (fun x => (x, shutdownTimeout)) }
    let results := servers.enum.map (fun x => srvShutdown x.1 x.2)
    match errgroupWait first results with
    | some err =>
      let w2 := { w1 with net := { w1.net with
        logs := w1.net.logs ++ [⟨s.opts.logger, true, "HTTP server Shutdown: " ++ err⟩] } }
      if s.opts.logger.fatalfExits then (w2, .exited 1)
      else (w2, .returned (some err))
    | none =>
      match s.opts.onShutdown with
      | some handlers =>
        ({ w1 with onShutdownCalls := w1.onShutdownCalls + 1
                   handlersRun := w1.handlersRun ++ handlers }, .returned none)
      | none => (w1, .returned none)

/-! ## srv/options.go -/

/-- One hour as a `time.Duration`. -/
def Hour : Duration := 3600 * Second

/-- The package variables `New` and `newDefaultWithOptions` read. -/
structure Globals where
  enabledListeners : List String := []
  cleanupTimout : Duration := 0
  maxHeaderSize : ByteSize := ⟨1000000⟩

/-- The type `Option` of the package: a function applied to the options
through a pointer. -/
abbrev ServerOption := options → options

/-- The default system handler of `newDefaultWithOptions`, which answers
`OK`. -/
def okHandler : Handler := Handler.user 0

/-- `newDefaultWithOptions(opts...)`. -/
def newDefaultWithOptions (g : Globals) (opts : List ServerOption) : options :=
  let o : options :=
    { EnabledListeners := g.enabledListeners
      onShutdown := some []
      systemHandler := okHandler
      logger := stdLogger }
  opts.foldl (fun o apply => apply o) o

/-- `LogsWith(l)`. -/
def LogsWith (l : Logger) : ServerOption := fun s => { s with logger := l }

/-- `EnablesSchemes(schemes...)`. -/
def EnablesSchemes (schemes : List String) : ServerOption :=
  fun s => { s with EnabledListeners := schemes }

/-- `OnShutdown(handlers...)`. -/
def OnShutdown (handlers : List Nat) : ServerOption := fun s =>
  if handlers.length = 0 then s else { s with onShutdown := some handlers }

/-- `WithListeners(listener, extra...)`. -/
def WithListeners (listener : Ptr) (extra : List Ptr) : ServerOption :=
  let all := [listener] ++ extra
  fun s => { s with listeners := all }

/-- `WithExtraListeners(listener, extra...)`. -/
def WithExtraListeners (listener : Ptr) (extra : List Ptr) : ServerOption :=
  let all := [listener] ++ extra
  fun s => { s with listeners := s.listeners ++ all }

/-- `WithSystemListeners(listener, extra...)`. -/
def WithSystemListeners (listener : Ptr) (_extra : List Ptr) : ServerOption :=
  fun s => { s with systemListeners := [listener] }

/-- `HandlesSystemWith(handler)`. -/
def HandlesSystemWith (handler : Handler) : ServerOption :=
  fun s => { s with systemHandler := handler }

/-- `WithSystem(handler, listener, extra...)`. -/
def WithSystem (handler : Handler) (listener : Ptr) (extra : List Ptr) : ServerOption :=
  let all := [listener] ++ extra
  fun s => { s with systemListeners := s.systemListeners ++ all, systemHandler := handler }

/-- `EnableHSTS(maxAge, sendPreload)`. -/
def EnableHSTS (maxAge : Duration) (sendPreload : Bool) : ServerOption :=
  let maxAge := if maxAge = 0 then Hour * 24 * 126 else maxAge
  fun s => { s with hsts := some { MaxAge := maxAge, SendPreload := sendPreload } }

/-- The struct `compositeHook`. -/
structure compositeHook where
  hooks : List Hook

/-- The loop of `compositeHook.ConfigureTLS` from the members `hs` on, the
first of which has position `i`: the configuration after, and the members
invoked so far, each with its position and the configuration it was handed. -/
def configureTLSLoop : List Hook → Nat → TLSConfig → List (Nat × TLSConfig) →
    TLSConfig × List (Nat × TLSConfig)
  | [], _, cfg, log => (cfg, log)
  | h :: hs, i, cfg, log => configureTLSLoop hs (i + 1) (h.ConfigureTLS cfg) (log ++ [(i, cfg)])

/-- The loop of `compositeHook.ConfigureListener`: the server after, and the
members invoked so far, each with its position and the arguments it was
handed. -/
def configureListenerLoop : List Hook → Nat → HttpServer → String → String →
    List (Nat × HttpServer × String × String) →
    HttpServer × List (Nat × HttpServer × String × String)
  | [], _, srv, _, _, log => (srv, log)
  | h :: hs, i, srv, scheme, addr, log =>
    configureListenerLoop hs (i + 1) (h.ConfigureListener srv scheme addr) scheme addr
      (log ++ [(i, srv, scheme, addr)])

/-- `compositeHook.ConfigureTLS(cfg)`. -/
def compositeHook.ConfigureTLS (c : compositeHook) (cfg : TLSConfig) : TLSConfig :=
  (configureTLSLoop c.hooks 0 cfg []).1

/-- `compositeHook.ConfigureListener(s, scheme, addr)`. -/
def compositeHook.ConfigureListener (c : compositeHook) (srv : HttpServer)
    (scheme addr : String) : HttpServer :=
  (configureListenerLoop c.hooks 0 srv scheme addr []).1

/-- A `*compositeHook` as a value of the interface `schema.Hook`. -/
def compositeHook.toHook (c : compositeHook) : Hook :=
  { ConfigureTLS := c.ConfigureTLS, ConfigureListener := c.ConfigureListener }

/-- `Hooks(hook, extra...)`. -/
def Hooks (hook : Hook) (extra : List Hook) : ServerOption :=
  let h : compositeHook := { hooks := [hook] ++ extra }
  fun s => { s with callbacks := some h.toHook }

/-- `HandlesRequestsWith(h)`. -/
def HandlesRequestsWith (h : Handler) : ServerOption := fun s => { s with handler := h }

/-- A call of one of the option constructors of the package, with its
arguments. -/
inductive OptionCall where
  | LogsWith (l : Logger) : OptionCall
  | EnablesSchemes (schemes : List String) : OptionCall
  | OnShutdown (handlers : List Nat) : OptionCall
  | WithListeners (listener : Ptr) (extra : List Ptr) : OptionCall
  | WithExtraListeners (listener : Ptr) (extra : List Ptr) : OptionCall
  | WithSystemListeners (listener : Ptr) (extra : List Ptr) : OptionCall
  | HandlesSystemWith (handler : Handler) : OptionCall
  | WithSystem (handler : Handler) (listener : Ptr) (extra : List Ptr) : OptionCall
  | EnableHSTS (maxAge : Duration) (sendPreload : Bool) : OptionCall
  | Hooks (hook : Hook) (extra : List Hook) : OptionCall
  | HandlesRequestsWith (h : Handler) : OptionCall

/-- The option a constructor call returns. -/
def OptionCall.toOption : OptionCall → ServerOption
  | .LogsWith l => srv.LogsWith l
  | .EnablesSchemes schemes => srv.EnablesSchemes schemes
  | .OnShutdown handlers => srv.OnShutdown handlers
  | .WithListeners listener extra => srv.WithListeners listener extra
  | .WithExtraListeners listener extra => srv.WithExtraListeners listener extra
  | .WithSystemListeners listener extra => srv.WithSystemListeners listener extra
  | .HandlesSystemWith handler => srv.HandlesSystemWith handler
  | .WithSystem handler listener extra => srv.WithSystem handler listener extra
  | .EnableHSTS maxAge sendPreload => srv.EnableHSTS maxAge sendPreload
  | .Hooks hook extra => srv.Hooks hook extra
  | .HandlesRequestsWith h => srv.HandlesRequestsWith h

/-- Whether a constructor call is a call of `EnableHSTS`. -/
def OptionCall.isEnableHSTS : OptionCall → Bool
  | .EnableHSTS _ _ => true
  | _ => false

/-- `New(opts...)`. -/
def New (g : Globals) (opts : List ServerOption) : defaultServer :=
  let s : defaultServer :=
    { opts := newDefaultWithOptions g opts
      CleanupTimeout := g.cleanupTimout
      MaxHeaderSize := g.maxHeaderSize
      shutdown := Chan.opened
      interrupt := [] }
  match s.opts.hsts with
  | some c =>
    { s with opts := { s.opts with handler := Handler.hsts s.opts.handler c.MaxAge c.SendPreload } }
  | none => s

/-! ## srv/server.go: the interrupt handler -/

/-- The state of the goroutine `handleInterrupt`: the manager, the world, how
many times it has called `Shutdown()`, and the panic that ended it, if any. -/
structure InterruptState where
  s : defaultServer
  w : World
  shutdownCalls : Nat := 0
  panicked : Option String := none

/-- One round of the loop `for range s.interrupt` of `handleInterrupt`, for
one signal received from the channel. -/
def interruptStep (r : InterruptState) (_signal : Nat) : InterruptState :=
  match r.panicked with
  | some _ => r
  | none =>
    if r.s.interrupted then r
    else
      let w1 := { r.w with net := { r.w.net with
        logs := r.w.net.logs ++ [⟨r.s.opts.logger, false, "Shutting down... "⟩] } }
      let s1 := { r.s with interrupted := true }
      match s1.Shutdown with
      | (s2, .returned none) => { r with s := s2, w := w1, shutdownCalls := r.shutdownCalls + 1 }
      | (s2, .returned (some err)) =>
        { r with
          s := s2
          w := { w1 with net := { w1.net with
            logs := w1.net.logs
              ++ [⟨r.s.opts.logger, false, "error during server shutdown: " ++ err⟩] } }
          shutdownCalls := r.shutdownCalls + 1 }
      | (s2, .panicked msg) =>
        { r with s := s2, w := w1, shutdownCalls := r.shutdownCalls + 1, panicked := some msg }
      | (s2, _) => { r with s := s2, w := w1, shutdownCalls := r.shutdownCalls + 1 }

/-- `handleInterrupt(once, s)` after it has received `signals` from the
interrupt channel, in this order. -/
def handleInterrupt (once : Once) (s : defaultServer) (w : World) (signals : List Nat) :
    InterruptState :=
  if once.done then { s := s, w := w }
  else signals.foldl interruptStep { s := s, w := w }

/-! ## Concurrent calls of Shutdown -/

/-- Where a goroutine is in `Shutdown()`: before the compare-and-swap, after
winning it and before `close`, returned, or panicked in `close`. -/
inductive CallerPc where
  | start : CallerPc
  | won : CallerPc
  | returned : CallerPc
  | panicked : CallerPc
  deriving DecidableEq, Repr

/-- Goroutines that call `Shutdown()` on one manager, and the coordinator
`handleShutdown`: the manager, the world, where each caller is, how many times
the channel was closed, and how the coordinator ended, if it has. -/
structure Race where
  s : defaultServer
  w : World
  callers : List CallerPc
  closes : Nat := 0
  coordinator : Option (Ending (Option String)) := none

/-- The next atomic step of caller `i` in `Shutdown()`: the compare-and-swap,
then, for the winner, `close(s.shutdown)`. -/
def Race.stepCaller (r : Race) (i : Nat) : Race :=
  match r.callers[i]? with
  | some .start =>
    if r.s.shuttingDown = 0 then
      { r with s := { r.s with shuttingDown := 1 }, callers := r.callers.set i .won }
    else { r with callers := r.callers.set i .returned }
  | some .won =>
    match r.s.shutdown with
    | .opened =>
      { r with
        s := { r.s with shutdown := Chan.closed }
        closes := r.closes + 1
        callers := r.callers.set i .returned }
    | .closed => { r with callers := r.callers.set i .panicked }
  | _ => r

/-- A step of the coordinator: it stays blocked while the channel is open,
and runs `handleShutdown` to its end once the channel is closed. -/
def Race.stepCoordinator (r : Race) (servers : List HttpServer)
    (srvShutdown : Nat → HttpServer → Option String) (first : Nat → Nat) : Race :=
  match r.coordinator with
  | some _ => r
  | none =>
    match r.s.handleShutdown r.w servers srvShutdown first with
    | (_, .blocked) => r
    | (w1, e) => { r with w := w1, coordinator := some e }

/-- Whose turn it is: a caller of `Shutdown()` or the coordinator. -/
inductive Turn where
  | caller (i : Nat) : Turn
  | coordinator : Turn
  deriving DecidableEq, Repr

/-- One step of the goroutine whose turn it is. -/
def Race.step (servers : List HttpServer) (srvShutdown : Nat → HttpServer → Option String)
    (first : Nat → Nat) (r : Race) : Turn → Race
  | .caller i => r.stepCaller i
  | .coordinator => r.stepCoordinator servers srvShutdown first

/-- The race after the turns of an interleaving. -/
def Race.run (servers : List HttpServer) (srvShutdown : Nat → HttpServer → Option String)
    (first : Nat → Nat) (r : Race) (turns : List Turn) : Race :=
  turns.foldl (Race.step servers srvShutdown first) r

/-- The start of a race: `n` goroutines about to call `Shutdown()`, the
coordinator waiting. -/
def Race.init (s : defaultServer) (w : World) (n : Nat) : Race :=
  { s := s, w := w, callers := List.replicate n CallerPc.start }

/-- How far a caller is: 0 before the compare-and-swap, 1 between it and
`close`, 2 once it has ended. -/
def CallerPc.rank : CallerPc → Nat
  | .start => 0
  | .won => 1
  | .returned => 2
  | .panicked => 2

/-- How far caller `i` of a race is. -/
def Race.rankAt (r : Race) (i : Nat) : Nat :=
  match r.callers[i]? with
  | some pc => pc.rank
  | none => 0

/-- The phases of a race: no caller has panicked, and either no caller has
passed the compare-and-swap and the channel is open; or one caller has won it
and not closed the channel yet; or the channel was closed, once, and no caller
is about to close it. -/
def Race.Inv (r : Race) : Prop :=
  CallerPc.panicked ∉ r.callers
    ∧ ((r.s.shuttingDown = 0 ∧ (∀ pc ∈ r.callers, pc = CallerPc.start) ∧ r.closes = 0
          ∧ r.s.shutdown = Chan.opened)
      ∨ (r.s.shuttingDown ≠ 0 ∧ r.callers.count CallerPc.won = 1 ∧ r.closes = 0
          ∧ r.s.shutdown = Chan.opened)
      ∨ (r.s.shuttingDown ≠ 0 ∧ r.callers.count CallerPc.won = 0 ∧ r.closes = 1
          ∧ r.s.shutdown = Chan.closed))

/-- The callback was invoked at most once more than `c0` times, and not yet
while the coordinator waits. -/
def Race.CoordInv (c0 : Nat) (r : Race) : Prop :=
  (r.coordinator = none → r.w.onShutdownCalls = c0) ∧ r.w.onShutdownCalls ≤ c0 + 1

/-! ## The manager's loops, step by step -/

/-- The world after the manager has called `Listener()` on the descriptor
behind `p`. -/
def bindStep (env : Env) (w : World) (p : Ptr) : World :=
  { w with
    heap := Function.update w.heap p ((w.heap p).Listener env w.net).1
    net := ((w.heap p).Listener env w.net).2.1
    calls := w.calls ++ [Call.listener p] }

/-- What `Listener()` returns when the manager calls it on the descriptor
behind `p` in the world `w`. -/
def bindResult (env : Env) (w : World) (p : Ptr) : Except String Listener :=
  ((w.heap p).Listener env w.net).2.2

/-- The world after the manager has called `Serve(sc, group)` on the
descriptor behind `p`. -/
def serveStep (env : Env) (w : World) (x : Ptr × ServerConfig) : World :=
  { w with
    heap := Function.update w.heap x.1 ((w.heap x.1).Serve env x.2 w.net).1
    net := ((w.heap x.1).Serve env x.2 w.net).2.1
    calls := w.calls ++ [Call.serve x.1 x.2] }

/-- What `Serve(sc, group)` returns when the manager calls it on the
descriptor behind `p` in the world `w`. -/
def serveResult (env : Env) (w : World) (x : Ptr × ServerConfig) : Except String HttpServer :=
  ((w.heap x.1).Serve env x.2 w.net).2.2

/-- A loop that makes one call per element and returns at the first call that
fails: the state after, the values collected, and the error. -/
def failFast {σ α β : Type} (step : σ → α → σ) (res : σ → α → Except String β) :
    List α → σ → List β → σ × List β × Option String
  | [], w, acc => (w, acc, none)
  | x :: xs, w, acc =>
    match res w x with
    | .ok b => failFast step res xs (step w x) (acc ++ [b])
    | .error err => (step w x, acc, some err)

/-- Whether the scheme of the descriptor behind `p` is enabled. -/
def defaultServer.enabled (s : defaultServer) (w : World) (p : Ptr) : Bool :=
  s.hasScheme (w.heap p).Scheme

/-- The descriptors `Listen()` iterates over without skipping them. -/
def defaultServer.listenTargets (s : defaultServer) (w : World) : List Ptr :=
  (s.opts.listeners ++ s.opts.systemListeners).filter (s.enabled w)

/-- The descriptors `Serve()` is to start, each with its configuration: the
enabled regular ones, then the system ones. -/
def defaultServer.servePlan (s : defaultServer) (w : World) : List (Ptr × ServerConfig) :=
  (s.opts.listeners.filter (s.enabled w)).map (fun p => (p, s.regularConfig))
    ++ s.opts.systemListeners.map (fun p => (p, s.systemConfig))

/-- The world in which `Serve()` starts the descriptors: after `Listen()`, if
the manager was not listening, the signal handler installed and the two
goroutines started. -/
def defaultServer.serveStart (env : Env) (s : defaultServer) (w : World) : World :=
  let w1 := if s.listening then w else (s.Listen env w).2.1
  { w1 with
    signalNotified := true
    spawned := w1.spawned ++ [Spawn.handleInterrupt, Spawn.handleShutdown] }

/-- The descriptor a call was made on. -/
def Call.ptr : Call → Ptr
  | .listener p => p
  | .serve p _ => p

/-- Whether a call is a call of `Serve`. -/
def Call.isServe : Call → Bool
  | .listener _ => false
  | .serve _ _ => true

/-- The sockets are numbered by the `net.Listen` call that made them: every
closed socket and every stored listener's socket has a number below the count
of calls, and no stored listener's socket is closed. -/
def World.Sound (w : World) : Prop :=
  (∀ c ∈ w.net.closed, c.id < w.net.listenCalls.length)
    ∧ ∀ p l, (w.heap p).listener = some l →
        l.sock.id < w.net.listenCalls.length ∧ l.sock ∉ w.net.closed

/-! ## Concrete inputs -/

/-- An outside where the first `net.Listen` finds the address in use and every
later one yields a socket at `127.0.0.1:8080`, and no file can be read. -/
def busyOnceEnv : Env where
  netListen calls _ :=
    if calls.length = 0 then .error "bind: address already in use" else .ok "127.0.0.1:8080"
  netSplitHostPort _ := .ok ("127.0.0.1", "8080")
  atoi _ := .ok 8080
  loadX509KeyPair _ _ := .error "open: no such file or directory"
  readFile _ := .error "open: no such file or directory"
  quote x := "\"" ++ x ++ "\""

/-- An outside where every `net.Listen` yields a socket at `127.0.0.1:8080`
and every key pair loads. -/
def freeEnv : Env where
  netListen _ _ := .ok "127.0.0.1:8080"
  netSplitHostPort _ := .ok ("127.0.0.1", "8080")
  atoi _ := .ok 8080
  loadX509KeyPair c _ := .ok c
  readFile _ := .error "open: no such file or directory"
  quote x := "\"" ++ x ++ "\""

/-- A manager with one regular plain descriptor and one system TLS descriptor,
and no scheme enabled explicitly. -/
def tlsSystemServer : defaultServer :=
  { opts := { listeners := [0], systemListeners := [1], onShutdown := some [] } }

/-- The world of `tlsSystemServer`: descriptor 0 is plain, descriptor 1 is
TLS. -/
def tlsSystemWorld : World :=
  { heap := fun p =>
      if p = 0 then .http { Host := "localhost", Port := 8080 }
      else .tls { Host := "localhost", Port := 8443, Cert := "c", CertKey := "k" } }

/-- A manager with two regular plain descriptors. -/
def twoPlainServer : defaultServer :=
  { opts := { listeners := [0, 1], onShutdown := some [] } }

/-- The world of `twoPlainServer`. -/
def twoPlainWorld : World :=
  { heap := fun p => .http { Host := "localhost", Port := 8080 + p } }

/-- An outside where the first `net.Listen` yields a socket and every later
one finds the address in use. -/
def busyAfterFirstEnv : Env where
  netListen calls _ :=
    if calls.length = 0 then .ok "127.0.0.1:8080" else .error "bind: address already in use"
  netSplitHostPort _ := .ok ("127.0.0.1", "8080")
  atoi _ := .ok 8080
  loadX509KeyPair _ _ := .error "open: no such file or directory"
  readFile _ := .error "open: no such file or directory"
  quote x := "\"" ++ x ++ "\""

/-- A manager with a regular plain descriptor 0 and a regular TLS descriptor
1, no system descriptor, and no scheme enabled explicitly. -/
def mixedServer : defaultServer :=
  { opts := { listeners := [0, 1], onShutdown := some [] } }

/-- A manager built with the default options whose shutdown trigger has
fired. Its logger is the standard logger. -/
def firedServer : defaultServer :=
  { opts := { onShutdown := some [] }, shutdown := Chan.closed, shuttingDown := 1 }

end srv

/-! # Theorems -/

namespace schema

/-! ## What one call of `Listener()` does -/

theorem httpListener_bound (env : Env) (h : HTTPFlg) (w : Net) (l : Listener)
    (hd : h.listenOnce.done = true) (hl : h.listener = some l) :
    h.Listener env w = (h, w, .ok l) := by
  simp [HTTPFlg.Listener, hd, hl]

theorem httpListener_listenFails (env : Env) (h : HTTPFlg) (w : Net) (e : String)
    (hd : h.listenOnce.done = false)
    (hn : env.netListen w.listenCalls (JoinHostPort h.Host (Itoa h.Port)) = .error e) :
    h.Listener env w
      = ({ h with listener := none, listenOnce := {} },
          { w with listenCalls := w.listenCalls ++ [JoinHostPort h.Host (Itoa h.Port)] },
          .error e) := by
  simp [HTTPFlg.Listener, hd, hn]

theorem httpListener_splitFails (env : Env) (h : HTTPFlg) (w : Net) (a e : String)
    (hd : h.listenOnce.done = false)
    (hn : env.netListen w.listenCalls (JoinHostPort h.Host (Itoa h.Port)) = .ok a)
    (hs : SplitHostPort env a = .error e) :
    h.Listener env w
      = ({ h with listener := none, listenOnce := {} },
          { w with listenCalls := w.listenCalls ++ [JoinHostPort h.Host (Itoa h.Port)]
                   closed := w.closed ++ [⟨w.listenCalls.length, a⟩] },
          .error e) := by
  simp [HTTPFlg.Listener, hd, hn, hs, Listener.Addr]

theorem httpListener_binds (env : Env) (h : HTTPFlg) (w : Net) (a hh : String) (p : Int)
    (hd : h.listenOnce.done = false)
    (hn : env.netListen w.listenCalls (JoinHostPort h.Host (Itoa h.Port)) = .ok a)
    (hs : SplitHostPort env a = .ok (hh, p)) :
    h.Listener env w
      = ({ h with Host := hh, Port := p, listenOnce := ⟨true⟩
                  listener := some (if h.ListenLimit > 0
                    then Listener.limited (.tcp ⟨w.listenCalls.length, a⟩) h.ListenLimit
                    else Listener.tcp ⟨w.listenCalls.length, a⟩) },
          { w with listenCalls := w.listenCalls ++ [JoinHostPort h.Host (Itoa h.Port)] },
          .ok (if h.ListenLimit > 0
            then Listener.limited (.tcp ⟨w.listenCalls.length, a⟩) h.ListenLimit
            else Listener.tcp ⟨w.listenCalls.length, a⟩)) := by
  simp [HTTPFlg.Listener, hd, hn, hs, Listener.Addr]

/-- `TLSFlg.Listener` is `HTTPFlg.Listener` on the embedded struct. -/
theorem tlsListener_eq (env : Env) (t : TLSFlg) (w : Net) :
    t.Listener env w
      = ({ t with toHTTPFlg := (t.toHTTPFlg.Listener env w).1 },
          (t.toHTTPFlg.Listener env w).2.1, (t.toHTTPFlg.Listener env w).2.2) := by
  unfold TLSFlg.Listener HTTPFlg.Listener
  by_cases hd : t.listenOnce.done = true
  · simp only [hd, if_true]
    cases hl : t.listener <;> simp [hl]
  · simp only [hd]
    cases hn : env.netListen w.listenCalls (JoinHostPort t.Host (Itoa t.Port)) with
    | error e => simp [hn]
    | ok a =>
      cases hs : SplitHostPort env (Listener.tcp ⟨w.listenCalls.length, a⟩).Addr with
      | error e => simp [hn, hs]
      | ok r => simp [hn, hs]

theorem httpListener_unbound_none (env : Env) (h : HTTPFlg) (w : Net)
    (hd : h.listenOnce.done = true) (hl : h.listener = none) :
    h.Listener env w = ({ h with listenOnce := {} }, w, .error "") := by
  simp [HTTPFlg.Listener, hd, hl]

/-- A successful call leaves the once-guard spent and the listener stored. -/
theorem httpListener_ok (env : Env) (h : HTTPFlg) (w : Net) (l : Listener)
    (hr : (h.Listener env w).2.2 = .ok l) :
    (h.Listener env w).1.listenOnce.done = true ∧ (h.Listener env w).1.listener = some l := by
  by_cases hd : h.listenOnce.done = true
  · cases hl : h.listener with
    | none => rw [httpListener_unbound_none env h w hd hl] at hr; simp at hr
    | some l1 =>
      rw [httpListener_bound env h w l1 hd hl] at hr ⊢
      simp at hr; subst hr; exact ⟨hd, hl⟩
  · have hd : h.listenOnce.done = false := by simpa using hd
    cases hn : env.netListen w.listenCalls (JoinHostPort h.Host (Itoa h.Port)) with
    | error e => rw [httpListener_listenFails env h w e hd hn] at hr; simp at hr
    | ok a =>
      cases hs : SplitHostPort env a with
      | error e => rw [httpListener_splitFails env h w a e hd hn hs] at hr; simp at hr
      | ok r =>
        obtain ⟨hh, p⟩ := r
        rw [httpListener_binds env h w a hh p hd hn hs] at hr ⊢
        simp at hr; subst hr; simp

/-- A failed call leaves no listener, a fresh once-guard, and the other fields
as they were. -/
theorem httpListener_error (env : Env) (h : HTTPFlg) (w : Net) (e : String)
    (hr : (h.Listener env w).2.2 = .error e) :
    (h.Listener env w).1 = { h with listener := none, listenOnce := {} } := by
  by_cases hd : h.listenOnce.done = true
  · cases hl : h.listener with
    | none => rw [httpListener_unbound_none env h w hd hl]; simp [hl]
    | some l1 => rw [httpListener_bound env h w l1 hd hl] at hr; simp at hr
  · have hd : h.listenOnce.done = false := by simpa using hd
    cases hn : env.netListen w.listenCalls (JoinHostPort h.Host (Itoa h.Port)) with
    | error e => rw [httpListener_listenFails env h w e hd hn]
    | ok a =>
      cases hs : SplitHostPort env a with
      | error e => rw [httpListener_splitFails env h w a e hd hn hs]
      | ok r =>
        obtain ⟨hh, p⟩ := r
        rw [httpListener_binds env h w a hh p hd hn hs] at hr; simp at hr

/-- With the once-guard fresh, a call hands exactly one address to
`net.Listen`. -/
theorem httpListener_calls (env : Env) (h : HTTPFlg) (w : Net)
    (hd : h.listenOnce.done = false) :
    (h.Listener env w).2.1.listenCalls
      = w.listenCalls ++ [JoinHostPort h.Host (Itoa h.Port)] := by
  cases hn : env.netListen w.listenCalls (JoinHostPort h.Host (Itoa h.Port)) with
  | error e => rw [httpListener_listenFails env h w e hd hn]
  | ok a =>
    cases hs : SplitHostPort env a with
    | error e => rw [httpListener_splitFails env h w a e hd hn hs]
    | ok r =>
      obtain ⟨hh, p⟩ := r
      rw [httpListener_binds env h w a hh p hd hn hs]

/-- A call of `Listener()` changes at most the host, the port, the once-guard
and the stored listener. -/
theorem httpListener_frame (env : Env) (h : HTTPFlg) (w : Net) :
    ∃ hh p lo li, (h.Listener env w).1
      = { h with Host := hh, Port := p, listenOnce := lo, listener := li } := by
  cases hr : (h.Listener env w).2.2 with
  | error e => exact ⟨h.Host, h.Port, {}, none, httpListener_error env h w e hr⟩
  | ok l =>
    by_cases hd : h.listenOnce.done = true
    · cases hl : h.listener with
      | none => rw [httpListener_unbound_none env h w hd hl] at hr; simp at hr
      | some l1 =>
        rw [httpListener_bound env h w l1 hd hl]
        exact ⟨h.Host, h.Port, h.listenOnce, some l1, by rw [← hl]⟩
    · have hd : h.listenOnce.done = false := by simpa using hd
      cases hn : env.netListen w.listenCalls (JoinHostPort h.Host (Itoa h.Port)) with
      | error e => rw [httpListener_listenFails env h w e hd hn] at hr; simp at hr
      | ok a =>
        cases hs : SplitHostPort env a with
        | error e => rw [httpListener_splitFails env h w a e hd hn hs] at hr; simp at hr
        | ok r =>
          obtain ⟨hh, p⟩ := r
          rw [httpListener_binds env h w a hh p hd hn hs]
          exact ⟨hh, p, ⟨true⟩, _, rfl⟩

theorem load_ne_missingFlag (env : Env) (x flag : String) :
    "failed to load TLS certificate and key: " ++ x ≠ missingFlag env flag := by
  intro h
  have := congrArg String.data h
  simp [missingFlag, String.data_append] at this

end schema

namespace srv

open schema

/-! ## Descriptors behind the interface -/

@[simp] theorem toHTTPFlg_setHTTPFlg (d : ServerListener) (h : HTTPFlg) :
    (d.setHTTPFlg h).toHTTPFlg = h := by
  cases d <;> rfl

@[simp] theorem setHTTPFlg_toHTTPFlg (d : ServerListener) : d.setHTTPFlg d.toHTTPFlg = d := by
  cases d <;> rfl

@[simp] theorem Scheme_setHTTPFlg (d : ServerListener) (h : HTTPFlg) :
    (d.setHTTPFlg h).Scheme = d.Scheme := by
  cases d <;> rfl

@[simp] theorem setHTTPFlg_setHTTPFlg (d : ServerListener) (h h1 : HTTPFlg) :
    (d.setHTTPFlg h).setHTTPFlg h1 = d.setHTTPFlg h1 := by
  cases d <;> rfl

theorem listener_eq_toHTTPFlg (d : ServerListener) : d.listener = d.toHTTPFlg.listener := by
  cases d <;> rfl

/-- The interface method `Listener()` runs `HTTPFlg.Listener` on the shared
fields, for both kinds of descriptor. -/
theorem Listener_eq (env : Env) (d : ServerListener) (w : Net) :
    d.Listener env w
      = (d.setHTTPFlg (d.toHTTPFlg.Listener env w).1,
          (d.toHTTPFlg.Listener env w).2.1, (d.toHTTPFlg.Listener env w).2.2) := by
  cases d with
  | http h => rfl
  | tls t => simp [ServerListener.Listener, tlsListener_eq, ServerListener.setHTTPFlg,
      ServerListener.toHTTPFlg]

/-- A descriptor whose once-guard is spent and whose listener is stored
answers `Listener()` from the store. -/
theorem Listener_stored (env : Env) (d : ServerListener) (w : Net) (l : Listener)
    (hd : d.toHTTPFlg.listenOnce.done = true) (hl : d.listener = some l) :
    d.Listener env w = (d, w, .ok l) := by
  rw [listener_eq_toHTTPFlg] at hl
  rw [Listener_eq, httpListener_bound env _ w l hd hl]
  simp

theorem listenerTimes_stored (env : Env) (d : ServerListener) (w : Net) (l : Listener)
    (hd : d.toHTTPFlg.listenOnce.done = true) (hl : d.listener = some l) (n : Nat) :
    d.listenerTimes env n w = (d, w, List.replicate n (.ok l)) := by
  induction n with
  | zero => rfl
  | succ n ih => simp [ServerListener.listenerTimes, Listener_stored env d w l hd hl, ih,
      List.replicate_succ]

/-- C2. With `net.Listen` an oracle, for a plain and a TLS descriptor alike:
once `Listener()` has succeeded, every later call returns the same stored
listener, leaves the descriptor as it is and hands nothing to `net.Listen`;
a failed call returns an error, leaves the stored listener nil and the
once-guard fresh, so the next call hands its address to `net.Listen` again and
succeeds when that call yields a socket (with a host:port address). -/
theorem Listener_binds_at_most_once (env : Env) (d : ServerListener) (w : Net) :
    (∀ l, (d.Listener env w).2.2 = .ok l →
      ∀ w1 : Net,
        (d.Listener env w).1.Listener env w1 = ((d.Listener env w).1, w1, .ok l)
        ∧ ∀ n, (d.Listener env w).1.listenerTimes env n w1
            = ((d.Listener env w).1, w1, List.replicate n (.ok l)))
    ∧ (∀ e, (d.Listener env w).2.2 = .error e →
      (d.Listener env w).1.listener = none
      ∧ (d.Listener env w).1.toHTTPFlg.listenOnce.done = false
      ∧ ∀ w1 : Net,
        ((d.Listener env w).1.Listener env w1).2.1.listenCalls
          = w1.listenCalls ++ [JoinHostPort (d.Listener env w).1.toHTTPFlg.Host
              (Itoa (d.Listener env w).1.toHTTPFlg.Port)]
        ∧ ∀ a hh p,
          env.netListen w1.listenCalls (JoinHostPort (d.Listener env w).1.toHTTPFlg.Host
              (Itoa (d.Listener env w).1.toHTTPFlg.Port)) = .ok a →
          SplitHostPort env a = .ok (hh, p) →
          ∃ l, ((d.Listener env w).1.Listener env w1).2.2 = .ok l
            ∧ l.sock = ⟨w1.listenCalls.length, a⟩
            ∧ ((d.Listener env w).1.Listener env w1).1.listener = some l) := by
  constructor
  · intro l hr w1
    rw [Listener_eq] at hr
    have h := httpListener_ok env d.toHTTPFlg w l hr
    have hd : (d.Listener env w).1.toHTTPFlg.listenOnce.done = true := by
      rw [Listener_eq]; simpa using h.1
    have hl : (d.Listener env w).1.listener = some l := by
      rw [listener_eq_toHTTPFlg, Listener_eq]; simpa using h.2
    exact ⟨Listener_stored env _ w1 l hd hl, listenerTimes_stored env _ w1 l hd hl⟩
  · intro e hr
    rw [Listener_eq] at hr
    have h := httpListener_error env d.toHTTPFlg w e hr
    have hd : (d.Listener env w).1.toHTTPFlg.listenOnce.done = false := by
      rw [Listener_eq]; simp [h]
    refine ⟨?_, hd, ?_⟩
    · rw [listener_eq_toHTTPFlg, Listener_eq]; simp [h]
    · intro w1
      refine ⟨?_, ?_⟩
      · rw [Listener_eq env (d.Listener env w).1 w1]
        exact httpListener_calls env _ w1 hd
      · intro a hh p hn hs
        rw [Listener_eq env (d.Listener env w).1 w1,
          httpListener_binds env _ w1 a hh p hd hn hs]
        by_cases hlim : (d.Listener env w).1.toHTTPFlg.ListenLimit > 0
        · exact ⟨_, rfl, by simp [hlim, Listener.sock], by simp [listener_eq_toHTTPFlg]⟩
        · exact ⟨_, rfl, by simp [hlim, Listener.sock], by simp [listener_eq_toHTTPFlg]⟩

/-- Witness of C2: the first call finds the address in use and fails, the
second one binds. -/
theorem Listener_binds_at_most_once_witness :
    ((ServerListener.http {}).Listener busyOnceEnv {}).2.2
        = .error "bind: address already in use"
      ∧ ∃ l, ((((ServerListener.http {}).Listener busyOnceEnv {}).1.Listener busyOnceEnv
            { listenCalls := [":0"] }).2.2 = .ok l
          ∧ l.sock = ⟨1, "127.0.0.1:8080"⟩
          ∧ (((ServerListener.http {}).Listener busyOnceEnv {}).1.Listener busyOnceEnv
            { listenCalls := [":0"] }).1.listener = some l) :=
  ⟨rfl, ((Listener_binds_at_most_once busyOnceEnv (.http {}) {}).2
    "bind: address already in use" rfl).2.2 { listenCalls := [":0"] } |>.2
    "127.0.0.1:8080" "127.0.0.1" 8080 rfl rfl⟩

/-- C3. A call of `Listener()` that binds (the once-guard is fresh) and
succeeds records as Host and Port what `SplitHostPort` reads from the address
of the listener it returns, whatever port was configured: the recorded port is
the port of the live socket, so it is not 0 when the socket's port is not, and
later calls keep the record. When the address of the new socket cannot be
parsed, the socket is closed and the call fails with Host and Port as they
were. -/
theorem Listener_records_bound_address (env : Env) (d : ServerListener) (w : Net)
    (hd : d.toHTTPFlg.listenOnce.done = false) :
    (∀ l, (d.Listener env w).2.2 = .ok l →
      SplitHostPort env l.Addr
          = .ok ((d.Listener env w).1.toHTTPFlg.Host, (d.Listener env w).1.toHTTPFlg.Port)
      ∧ (∀ hh p, SplitHostPort env l.Addr = .ok (hh, p) → p ≠ 0 →
          (d.Listener env w).1.toHTTPFlg.Port ≠ 0)
      ∧ ∀ w1 : Net, ((d.Listener env w).1.Listener env w1).1 = (d.Listener env w).1)
    ∧ (∀ a e,
        env.netListen w.listenCalls
          (JoinHostPort d.toHTTPFlg.Host (Itoa d.toHTTPFlg.Port)) = .ok a →
        SplitHostPort env a = .error e →
        (d.Listener env w).2.2 = .error e
        ∧ (⟨w.listenCalls.length, a⟩ : Sock) ∈ (d.Listener env w).2.1.closed
        ∧ (d.Listener env w).1.toHTTPFlg.Host = d.toHTTPFlg.Host
        ∧ (d.Listener env w).1.toHTTPFlg.Port = d.toHTTPFlg.Port
        ∧ (d.Listener env w).1.listener = none) := by
  constructor
  · intro l hr
    have hrec : SplitHostPort env l.Addr
        = .ok ((d.Listener env w).1.toHTTPFlg.Host, (d.Listener env w).1.toHTTPFlg.Port) := by
      rw [Listener_eq] at hr ⊢
      cases hn : env.netListen w.listenCalls
          (JoinHostPort d.toHTTPFlg.Host (Itoa d.toHTTPFlg.Port)) with
      | error e => rw [httpListener_listenFails env _ w e hd hn] at hr; simp at hr
      | ok a =>
        cases hs : SplitHostPort env a with
        | error e => rw [httpListener_splitFails env _ w a e hd hn hs] at hr; simp at hr
        | ok r =>
          obtain ⟨hh, p⟩ := r
          rw [httpListener_binds env _ w a hh p hd hn hs] at hr ⊢
          simp only [Except.ok.injEq] at hr
          subst hr
          by_cases hlim : d.toHTTPFlg.ListenLimit > 0 <;> simp [hlim, Listener.Addr, hs]
    refine ⟨hrec, ?_, ?_⟩
    · intro hh p hs hp
      rw [hrec] at hs
      simp only [Except.ok.injEq, Prod.mk.injEq] at hs
      rw [hs.2]; exact hp
    · intro w1
      rw [Listener_eq] at hr
      have h := httpListener_ok env d.toHTTPFlg w l hr
      have hd1 : (d.Listener env w).1.toHTTPFlg.listenOnce.done = true := by
        rw [Listener_eq]; simpa using h.1
      have hl : (d.Listener env w).1.listener = some l := by
        rw [listener_eq_toHTTPFlg, Listener_eq]; simpa using h.2
      rw [Listener_stored env _ w1 l hd1 hl]
  · intro a e hn hs
    rw [listener_eq_toHTTPFlg, Listener_eq, httpListener_splitFails env _ w a e hd hn hs]
    simp

/-- Witness of C3: a descriptor configured with port 0 records port 8080 of
the socket it was given. -/
theorem Listener_records_bound_address_witness :
    SplitHostPort freeEnv "127.0.0.1:8080"
      = .ok (((ServerListener.tls { Port := 0 }).Listener freeEnv {}).1.toHTTPFlg.Host,
          ((ServerListener.tls { Port := 0 }).Listener freeEnv {}).1.toHTTPFlg.Port)
    ∧ ((ServerListener.tls { Port := 0 }).Listener freeEnv {}).1.toHTTPFlg.Port = 8080 :=
  ⟨((Listener_records_bound_address freeEnv (.tls { Port := 0 }) {} rfl).1
    (.tcp ⟨0, "127.0.0.1:8080"⟩) rfl).1, rfl⟩

/-! ## The handler of the protocol server -/

/-- C4, the code at the failing input. A plain descriptor whose own Handler is
handler 1, served with the shared handler 2, yields a protocol server whose
handler is the shared handler 2, not the descriptor's; the TLS descriptor with
the same fields yields a server with the descriptor's handler 1. With a nil
descriptor Handler both yield the shared handler. -/
theorem Serve_plain_descriptor_handler_ignored :
    (((HTTPFlg.Serve freeEnv { Handler := Handler.user 1 }
        ⟨0, stdLogger, Handler.user 2, none, 0⟩ {}).2.2).toOption.map (·.Handler)
      = some (Handler.user 2))
    ∧ (((TLSFlg.Serve freeEnv { Handler := Handler.user 1, Cert := "c", CertKey := "k" }
        ⟨0, stdLogger, Handler.user 2, none, 0⟩ {}).2.2).toOption.map (·.Handler)
      = some (Handler.user 1))
    ∧ (((HTTPFlg.Serve freeEnv { Handler := Handler.nil }
        ⟨0, stdLogger, Handler.user 2, none, 0⟩ {}).2.2).toOption.map (·.Handler)
      = some (Handler.user 2))
    ∧ (((TLSFlg.Serve freeEnv { Handler := Handler.nil, Cert := "c", CertKey := "k" }
        ⟨0, stdLogger, Handler.user 2, none, 0⟩ {}).2.2).toOption.map (·.Handler)
      = some (Handler.user 2)) := by
  refine ⟨?_, ?_, ?_, ?_⟩ <;> rfl

/-! ## The certificate check of a TLS descriptor -/

/-- The result of `TLSFlg.Serve` after a successful bind with a readable CA
file: with both Cert and CertKey given, it is a load error or a server; else
it is decided by the certificate check on the configuration the hook left. -/
theorem tlsServe_noStaticPair (env : Env) (t : TLSFlg) (sc : ServerConfig) (w : Net)
    (l : Listener) (hbind : (t.Listener env w).2.2 = .ok l)
    (hca : t.CACert = "" ∨ ∃ c, env.readFile t.CACert = .ok c) :
    ((t.Cert ≠ "" ∧ t.CertKey ≠ "") →
      (∃ e, (t.Serve env sc w).2.2 = .error ("failed to load TLS certificate and key: " ++ e))
      ∨ ∃ srv, (t.Serve env sc w).2.2 = .ok srv)
    ∧ (¬ (t.Cert ≠ "" ∧ t.CertKey ≠ "") →
      ∃ srv, (t.Serve env sc w).2.2
        = if (runTLSHooks sc (caConfig env t defaultTLSConfig)).Certificates.length = 0
            ∧ (runTLSHooks sc (caConfig env t defaultTLSConfig)).GetCertificate = none then
            if t.Cert = "" then
              .error (missingFlag env (prefixer t.Prefix "tls-certificate"))
            else if t.CertKey = "" then
              .error (missingFlag env (prefixer t.Prefix "tls-key"))
            else .ok srv
          else .ok srv) := by
  obtain ⟨hh, p, lo, li, hfr⟩ := httpListener_frame env t.toHTTPFlg w
  have hL := tlsListener_eq env t w
  rw [hL] at hbind
  simp only at hbind
  have hca1 : t.CACert = "" ∨ (t.CACert ≠ "" ∧ ∃ c, env.readFile t.CACert = .ok c) := by
    by_cases h0 : t.CACert = ""
    · exact Or.inl h0
    · rcases hca with h | h
      · exact absurd h h0
      · exact Or.inr ⟨h0, h⟩
  constructor
  · intro hboth
    unfold TLSFlg.Serve
    rw [hL]
    simp only [hbind, hfr]
    rw [if_pos hboth]
    cases hload : env.loadX509KeyPair t.Cert t.CertKey with
    | error e => exact Or.inl ⟨e, rfl⟩
    | ok c =>
      right
      rcases hca1 with h0 | ⟨h0, ca, hread⟩
      · simp only [h0, ne_eq, not_true_eq_false, if_false, hboth.1, hboth.2]
        split_ifs <;> exact ⟨_, rfl⟩
      · simp only [if_pos h0, hread, hboth.1, hboth.2, if_false]
        split_ifs <;> exact ⟨_, rfl⟩
  · intro hno
    unfold TLSFlg.Serve
    rw [hL]
    simp only [hbind, hfr]
    rw [if_neg hno]
    rcases hca1 with h0 | ⟨h0, ca, hread⟩
    · simp only [h0, ne_eq, not_true_eq_false, if_false, runTLSHooks, missingFlag, caConfig]
      split_ifs <;> first | exact ⟨_, rfl⟩ | exact ⟨{}, rfl⟩
    · simp only [if_pos h0, hread, runTLSHooks, missingFlag, caConfig]
      split_ifs <;> first | exact ⟨_, rfl⟩ | exact ⟨{}, rfl⟩

/-- C10. For a TLS descriptor whose bind succeeds and whose CA file, if one is
configured, can be read, let `cfg` be the TLS configuration after the
`ConfigureTLS` hook has run. If Cert or CertKey is empty and `cfg` has no
certificate and no `GetCertificate` callback, `Serve` fails with the message
that the required flag was not specified, the flag being `tls-certificate`
when Cert is empty and `tls-key` when only CertKey is, with the descriptor's
Prefix and a dash in front unless the Prefix is empty. And `Serve` fails with
such a message only if Cert or CertKey is empty and `cfg` has no certificate
and no `GetCertificate` callback. -/
theorem Serve_missing_certificate_flag (env : Env) (t : TLSFlg) (sc : ServerConfig) (w : Net)
    (l : Listener) (hbind : (t.Listener env w).2.2 = .ok l)
    (hca : t.CACert = "" ∨ ∃ c, env.readFile t.CACert = .ok c) :
    ((t.Cert = "" ∨ t.CertKey = "") →
      (runTLSHooks sc (caConfig env t defaultTLSConfig)).Certificates.length = 0 →
      (runTLSHooks sc (caConfig env t defaultTLSConfig)).GetCertificate = none →
      (t.Serve env sc w).2.2
        = .error (missingFlag env
            (if t.Prefix = "" then (if t.Cert = "" then "tls-certificate" else "tls-key")
             else t.Prefix ++ "-" ++ (if t.Cert = "" then "tls-certificate" else "tls-key"))))
    ∧ (∀ flag, (t.Serve env sc w).2.2 = .error (missingFlag env flag) →
      (t.Cert = "" ∨ t.CertKey = "")
      ∧ (runTLSHooks sc (caConfig env t defaultTLSConfig)).Certificates.length = 0
      ∧ (runTLSHooks sc (caConfig env t defaultTLSConfig)).GetCertificate = none) := by
  have hres := tlsServe_noStaticPair env t sc w l hbind hca
  constructor
  · intro hempty hcert hget
    have hno : ¬ (t.Cert ≠ "" ∧ t.CertKey ≠ "") := by
      rcases hempty with h | h <;> simp [h]
    obtain ⟨srv, hs⟩ := hres.2 hno
    rw [hs, if_pos ⟨hcert, hget⟩]
    by_cases hc : t.Cert = ""
    · simp [hc, prefixer]
    · have hk : t.CertKey = "" := by
        rcases hempty with h | h
        · exact absurd h hc
        · exact h
      simp [hc, hk, prefixer]
  · intro flag hr
    by_cases hboth : t.Cert ≠ "" ∧ t.CertKey ≠ ""
    · exfalso
      rcases hres.1 hboth with ⟨e, he⟩ | ⟨srv, he⟩
      · rw [he] at hr
        simp only [Except.error.injEq] at hr
        exact load_ne_missingFlag env e flag hr
      · rw [he] at hr; simp at hr
    · have hempty : t.Cert = "" ∨ t.CertKey = "" := by
        by_cases h : t.Cert = ""
        · exact Or.inl h
        · exact Or.inr (by simpa [h] using hboth)
      refine ⟨hempty, ?_⟩
      obtain ⟨srv, hs⟩ := hres.2 hboth
      rw [hs] at hr
      by_contra hcon
      rw [if_neg hcon] at hr
      simp at hr

/-- Witness of C10: a TLS descriptor with prefix `admin`, no certificate, no
key and no hook. -/
theorem Serve_missing_certificate_flag_witness :
    (TLSFlg.Serve freeEnv { Prefix := "admin" } ⟨0, stdLogger, Handler.nil, none, 0⟩ {}).2.2
      = .error "the required flag \"admin-tls-certificate\" was not specified" :=
  (Serve_missing_certificate_flag freeEnv { Prefix := "admin" }
    ⟨0, stdLogger, Handler.nil, none, 0⟩ {} (.tcp ⟨0, "127.0.0.1:8080"⟩) rfl (Or.inl rfl)).1
    (Or.inl rfl) rfl rfl

/-! ## Loops that return at the first failure -/

section FailFast

variable {σ α β : Type} (step : σ → α → σ) (res : σ → α → Except String β)

theorem failFast_all (xs : List α) (w : σ) (acc : List β)
    (hok : ∀ i y, xs[i]? = some y → ∃ b, res ((xs.take i).foldl step w) y = .ok b) :
    ∃ bs, failFast step res xs w acc = (xs.foldl step w, acc ++ bs, none)
      ∧ bs.length = xs.length
      ∧ ∀ i y b, xs[i]? = some y → res ((xs.take i).foldl step w) y = .ok b → bs[i]? = some b := by
  induction xs generalizing w acc with
  | nil => exact ⟨[], by simp [failFast], rfl, by simp⟩
  | cons x xs ih =>
    obtain ⟨b0, hb0⟩ := hok 0 x (by simp)
    simp only [List.take_zero, List.foldl_nil] at hb0
    obtain ⟨bs, h1, h2, h3⟩ := ih (step w x) (acc ++ [b0]) (fun i y hy => by
      have := hok (i + 1) y (by simpa using hy)
      simpa using this)
    refine ⟨b0 :: bs, ?_, by simp [h2], ?_⟩
    · simp [failFast, hb0, h1]
    · intro i y b hy hr
      cases i with
      | zero =>
        simp only [List.getElem?_cons_zero, Option.some.injEq] at hy
        subst hy
        simp only [List.take_zero, List.foldl_nil] at hr
        rw [hb0] at hr
        simp only [Except.ok.injEq] at hr
        simp [hr]
      | succ i =>
        simp only [List.getElem?_cons_succ] at hy
        simp only [List.take_succ_cons, List.foldl_cons] at hr
        simpa using h3 i y b hy hr

theorem failFast_first_error (k : Nat) (xs : List α) (w : σ) (acc : List β) (x : α) (e : String)
    (hk : xs[k]? = some x)
    (hok : ∀ i, i < k → ∀ y, xs[i]? = some y → ∃ b, res ((xs.take i).foldl step w) y = .ok b)
    (hfail : res ((xs.take k).foldl step w) x = .error e) :
    ∃ bs, failFast step res xs w acc = ((xs.take (k + 1)).foldl step w, acc ++ bs, some e)
      ∧ bs.length = k
      ∧ ∀ i y b, xs[i]? = some y → res ((xs.take i).foldl step w) y = .ok b → i < k →
          bs[i]? = some b := by
  induction k generalizing xs w acc with
  | zero =>
    cases xs with
    | nil => simp at hk
    | cons y ys =>
      simp only [List.getElem?_cons_zero, Option.some.injEq] at hk
      subst hk
      simp only [List.take_zero, List.foldl_nil] at hfail
      exact ⟨[], by simp [failFast, hfail], rfl, by simp⟩
  | succ k ih =>
    cases xs with
    | nil => simp at hk
    | cons y ys =>
      simp only [List.getElem?_cons_succ] at hk
      obtain ⟨b0, hb0⟩ := hok 0 (by omega) y (by simp)
      simp only [List.take_zero, List.foldl_nil] at hb0
      obtain ⟨bs, h1, h2, h3⟩ := ih ys (step w y) (acc ++ [b0]) hk
        (fun i hi z hz => by
          have := hok (i + 1) (by omega) z (by simpa using hz)
          simpa using this)
        (by simpa using hfail)
      refine ⟨b0 :: bs, ?_, by simp [h2], ?_⟩
      · simp [failFast, hb0, h1]
      · intro i z b hz hr hi
        cases i with
        | zero =>
          simp only [List.getElem?_cons_zero, Option.some.injEq] at hz
          subst hz
          simp only [List.take_zero, List.foldl_nil] at hr
          rw [hb0] at hr
          simp only [Except.ok.injEq] at hr
          simp [hr]
        | succ i =>
          simp only [List.getElem?_cons_succ] at hz
          simp only [List.take_succ_cons, List.foldl_cons] at hr
          simpa using h3 i z b hz hr (by omega)

theorem failFast_none (xs : List α) (w : σ) (acc : List β)
    (h : (failFast step res xs w acc).2.2 = none) :
    ∀ i y, xs[i]? = some y → ∃ b, res ((xs.take i).foldl step w) y = .ok b := by
  induction xs generalizing w acc with
  | nil => simp
  | cons x xs ih =>
    intro i y hy
    cases hr : res w x with
    | error e => simp [failFast, hr] at h
    | ok b0 =>
      simp only [failFast, hr] at h
      cases i with
      | zero =>
        simp only [List.getElem?_cons_zero, Option.some.injEq] at hy
        subst hy
        exact ⟨b0, by simpa using hr⟩
      | succ i =>
        simp only [List.getElem?_cons_succ] at hy
        simpa using ih (step w x) (acc ++ [b0]) h i y hy

theorem failFast_append (xs ys : List α) (w : σ) (acc : List β) :
    failFast step res (xs ++ ys) w acc
      = match failFast step res xs w acc with
        | (w1, acc1, none) => failFast step res ys w1 acc1
        | (w1, acc1, some e) => (w1, acc1, some e) := by
  induction xs generalizing w acc with
  | nil => simp [failFast]
  | cons x xs ih =>
    cases hr : res w x with
    | error e => simp [failFast, hr]
    | ok b0 => simp [failFast, hr, ih]

end FailFast

/-! ## The loops of the manager as fail-fast loops -/

theorem Scheme_Listener (env : Env) (d : ServerListener) (w : Net) :
    (d.Listener env w).1.Scheme = d.Scheme := by
  cases d <;> rfl

theorem Scheme_Serve (env : Env) (d : ServerListener) (sc : ServerConfig) (w : Net) :
    (d.Serve env sc w).1.Scheme = d.Scheme := by
  cases d <;> rfl

theorem enabled_bindStep (env : Env) (s : defaultServer) (w : World) (q : Ptr) :
    s.enabled (bindStep env w q) = s.enabled w := by
  funext p
  simp only [defaultServer.enabled, bindStep]
  by_cases h : p = q
  · subst h; simp [Scheme_Listener]
  · simp [Function.update_noteq h]

theorem enabled_serveStep (env : Env) (s : defaultServer) (w : World) (x : Ptr × ServerConfig) :
    s.enabled (serveStep env w x) = s.enabled w := by
  funext p
  simp only [defaultServer.enabled, serveStep]
  by_cases h : p = x.1
  · subst h; simp [Scheme_Serve]
  · simp [Function.update_noteq h]

theorem enabled_foldl_bindStep (env : Env) (s : defaultServer) (qs : List Ptr) (w : World) :
    s.enabled (qs.foldl (bindStep env) w) = s.enabled w := by
  induction qs generalizing w with
  | nil => rfl
  | cons q qs ih => simp [ih, enabled_bindStep]

theorem listenLoop_eq (env : Env) (s : defaultServer) (ps : List Ptr) (w : World)
    (acc : List Listener) :
    s.listenLoop env ps w
      = ((failFast (bindStep env) (bindResult env) (ps.filter (s.enabled w)) w acc).1,
          (failFast (bindStep env) (bindResult env) (ps.filter (s.enabled w)) w acc).2.2) := by
  induction ps generalizing w acc with
  | nil => simp [defaultServer.listenLoop, failFast]
  | cons p ps ih =>
    by_cases hp : s.enabled w p = true
    · have hp1 : s.hasScheme (w.heap p).Scheme = true := hp
      simp only [defaultServer.listenLoop, hp1, List.filter_cons, hp, if_true, failFast,
        bindResult, Bool.not_true, Bool.false_eq_true, if_false]
      cases hr : ((w.heap p).Listener env w.net).2.2 with
      | error e => rfl
      | ok l =>
        simp only []
        have := ih (bindStep env w p) (acc ++ [l])
        rw [enabled_bindStep] at this
        exact this
    · have hp1 : s.hasScheme (w.heap p).Scheme = false := by simpa [defaultServer.enabled] using hp
      simp only [defaultServer.listenLoop, hp1, List.filter_cons, hp, Bool.not_false, if_true]
      exact ih w acc

theorem serveRegular_eq (env : Env) (s : defaultServer) (ps : List Ptr) (w : World)
    (servers : List HttpServer) :
    s.serveRegular env ps w servers
      = failFast (serveStep env) (serveResult env)
          ((ps.filter (s.enabled w)).map (fun p => (p, s.regularConfig))) w servers := by
  induction ps generalizing w servers with
  | nil => simp [defaultServer.serveRegular, failFast]
  | cons p ps ih =>
    by_cases hp : s.enabled w p = true
    · have hp1 : s.hasScheme (w.heap p).Scheme = true := hp
      simp only [defaultServer.serveRegular, hp1, List.filter_cons, hp, if_true, failFast,
        serveResult, List.map_cons]
      cases hr : ((w.heap p).Serve env s.regularConfig w.net).2.2 with
      | error e => rfl
      | ok hs =>
        simp only []
        have := ih (serveStep env w (p, s.regularConfig)) (servers ++ [hs])
        rw [enabled_serveStep] at this
        exact this
    · have hp1 : s.hasScheme (w.heap p).Scheme = false := by simpa [defaultServer.enabled] using hp
      simp only [defaultServer.serveRegular, hp1, List.filter_cons, hp]
      exact ih w servers

theorem serveSystem_eq (env : Env) (s : defaultServer) (ps : List Ptr) (w : World)
    (servers : List HttpServer) :
    s.serveSystem env ps w servers
      = failFast (serveStep env) (serveResult env)
          (ps.map (fun p => (p, s.systemConfig))) w servers := by
  induction ps generalizing w servers with
  | nil => simp [defaultServer.serveSystem, failFast]
  | cons p ps ih =>
    simp only [defaultServer.serveSystem, failFast, serveResult, List.map_cons]
    cases hr : ((w.heap p).Serve env s.systemConfig w.net).2.2 with
    | error e => rfl
    | ok hs => exact ih (serveStep env w (p, s.systemConfig)) (servers ++ [hs])

/-! ## Sockets stay apart -/

/-- The shapes a call of `Listener()` can take: answered from the store;
failed without a socket; failed on the address of a new socket, which it
closed; or bound a new socket. -/
theorem Listener_shapes (env : Env) (d : ServerListener) (w : Net) :
    (∃ l, d.listener = some l ∧ d.Listener env w = (d, w, .ok l))
    ∨ ((d.Listener env w).1.listener = none ∧ (d.Listener env w).2.1.closed = w.closed
        ∧ w.listenCalls.length ≤ (d.Listener env w).2.1.listenCalls.length)
    ∨ (∃ a, (d.Listener env w).1.listener = none
        ∧ (d.Listener env w).2.1.closed = w.closed ++ [⟨w.listenCalls.length, a⟩]
        ∧ (d.Listener env w).2.1.listenCalls.length = w.listenCalls.length + 1)
    ∨ (∃ l, (d.Listener env w).1.listener = some l
        ∧ l.sock.id = w.listenCalls.length
        ∧ (d.Listener env w).2.1.closed = w.closed
        ∧ (d.Listener env w).2.1.listenCalls.length = w.listenCalls.length + 1) := by
  by_cases hd : d.toHTTPFlg.listenOnce.done = true
  · cases hl : d.toHTTPFlg.listener with
    | none =>
      right; left
      rw [listener_eq_toHTTPFlg, Listener_eq, httpListener_unbound_none env _ w hd hl]
      simp [hl]
    | some l =>
      left
      exact ⟨l, by rw [listener_eq_toHTTPFlg, hl],
        Listener_stored env d w l hd (by rw [listener_eq_toHTTPFlg, hl])⟩
  · have hd : d.toHTTPFlg.listenOnce.done = false := by simpa using hd
    cases hn : env.netListen w.listenCalls
        (JoinHostPort d.toHTTPFlg.Host (Itoa d.toHTTPFlg.Port)) with
    | error e =>
      right; left
      rw [listener_eq_toHTTPFlg, Listener_eq, httpListener_listenFails env _ w e hd hn]
      simp
    | ok a =>
      cases hs : SplitHostPort env a with
      | error e =>
        right; right; left
        refine ⟨a, ?_⟩
        rw [listener_eq_toHTTPFlg, Listener_eq, httpListener_splitFails env _ w a e hd hn hs]
        simp
      | ok r =>
        obtain ⟨hh, p⟩ := r
        right; right; right
        rw [listener_eq_toHTTPFlg, Listener_eq, httpListener_binds env _ w a hh p hd hn hs]
        by_cases hlim : d.toHTTPFlg.ListenLimit > 0
        · exact ⟨(Listener.tcp ⟨w.listenCalls.length, a⟩).limited d.toHTTPFlg.ListenLimit,
            by simp [hlim], by simp [Listener.sock], by simp, by simp⟩
        · exact ⟨Listener.tcp ⟨w.listenCalls.length, a⟩,
            by simp [hlim], by simp [Listener.sock], by simp, by simp⟩

theorem bindStep_sound (env : Env) (w : World) (q : Ptr) (h : w.Sound) :
    (bindStep env w q).Sound := by
  obtain ⟨h1, h2⟩ := h
  have hheap : ∀ p, p ≠ q → (bindStep env w q).heap p = w.heap p := by
    intro p hp; simp [bindStep, Function.update_noteq hp]
  have hq : (bindStep env w q).heap q = ((w.heap q).Listener env w.net).1 := by
    simp [bindStep]
  have hnet : (bindStep env w q).net = ((w.heap q).Listener env w.net).2.1 := rfl
  rcases Listener_shapes env (w.heap q) w.net with
    ⟨l, hl, heq⟩ | ⟨hl, hc, hlen⟩ | ⟨a, hl, hc, hlen⟩ | ⟨l, hl, hid, hc, hlen⟩
  · have hw : (bindStep env w q).heap = w.heap := by
      funext p
      by_cases hp : p = q
      · subst hp; rw [hq, heq]
      · exact hheap p hp
    refine ⟨?_, ?_⟩
    · intro c hcm; rw [hnet, heq] at hcm ⊢; exact h1 c hcm
    · intro p l1 hl1; rw [hw] at hl1; rw [hnet, heq]; exact h2 p l1 hl1
  · refine ⟨?_, ?_⟩
    · intro c hcm
      rw [hnet, hc] at hcm; rw [hnet]
      exact lt_of_lt_of_le (h1 c hcm) hlen
    · intro p l1 hl1
      by_cases hp : p = q
      · subst hp; rw [hq, hl] at hl1; simp at hl1
      · rw [hheap p hp] at hl1
        rw [hnet, hc]
        exact ⟨lt_of_lt_of_le (h2 p l1 hl1).1 hlen, (h2 p l1 hl1).2⟩
  · refine ⟨?_, ?_⟩
    · intro c hcm
      rw [hnet, hc] at hcm; rw [hnet, hlen]
      rcases List.mem_append.1 hcm with hcm | hcm
      · exact Nat.lt_succ_of_lt (h1 c hcm)
      · simp only [List.mem_singleton] at hcm; subst hcm; simp
    · intro p l1 hl1
      by_cases hp : p = q
      · subst hp; rw [hq, hl] at hl1; simp at hl1
      · rw [hheap p hp] at hl1
        rw [hnet, hc, hlen]
        refine ⟨Nat.lt_succ_of_lt (h2 p l1 hl1).1, ?_⟩
        intro hm
        rcases List.mem_append.1 hm with hm | hm
        · exact (h2 p l1 hl1).2 hm
        · simp only [List.mem_singleton] at hm
          have := (h2 p l1 hl1).1
          rw [hm] at this
          simp at this
  · refine ⟨?_, ?_⟩
    · intro c hcm
      rw [hnet, hc] at hcm; rw [hnet, hlen]
      exact Nat.lt_succ_of_lt (h1 c hcm)
    · intro p l1 hl1
      rw [hnet, hc, hlen]
      by_cases hp : p = q
      · subst hp
        rw [hq, hl] at hl1
        simp only [Option.some.injEq] at hl1
        subst hl1
        refine ⟨by omega, ?_⟩
        intro hm
        have := h1 _ hm
        omega
      · rw [hheap p hp] at hl1
        exact ⟨Nat.lt_succ_of_lt (h2 p l1 hl1).1, (h2 p l1 hl1).2⟩

theorem foldl_bindStep_sound (env : Env) (qs : List Ptr) (w : World) (h : w.Sound) :
    (qs.foldl (bindStep env) w).Sound := by
  induction qs generalizing w with
  | nil => exact h
  | cons q qs ih => exact ih _ (bindStep_sound env w q h)

/-- A descriptor that is bound stays as it is under later `Listener()` calls
of the manager, on it or on other descriptors. -/
theorem bindStep_keeps (env : Env) (w : World) (q p : Ptr) (l : Listener)
    (hd : (w.heap p).toHTTPFlg.listenOnce.done = true) (hl : (w.heap p).listener = some l) :
    ((bindStep env w q).heap p).toHTTPFlg.listenOnce.done = true
      ∧ ((bindStep env w q).heap p).listener = some l := by
  by_cases hp : p = q
  · subst hp
    simp only [bindStep, Function.update_same]
    rw [Listener_stored env _ w.net l hd hl]
    exact ⟨hd, hl⟩
  · simp only [bindStep, Function.update_noteq hp]
    exact ⟨hd, hl⟩

theorem foldl_bindStep_keeps (env : Env) (qs : List Ptr) (w : World) (p : Ptr) (l : Listener)
    (hd : (w.heap p).toHTTPFlg.listenOnce.done = true) (hl : (w.heap p).listener = some l) :
    ((qs.foldl (bindStep env) w).heap p).toHTTPFlg.listenOnce.done = true
      ∧ ((qs.foldl (bindStep env) w).heap p).listener = some l := by
  induction qs generalizing w with
  | nil => exact ⟨hd, hl⟩
  | cons q qs ih =>
    obtain ⟨h1, h2⟩ := bindStep_keeps env w q p l hd hl
    exact ih _ h1 h2

theorem bindStep_stores (env : Env) (w : World) (q : Ptr) (l : Listener)
    (h : bindResult env w q = .ok l) :
    ((bindStep env w q).heap q).toHTTPFlg.listenOnce.done = true
      ∧ ((bindStep env w q).heap q).listener = some l := by
  simp only [bindResult] at h
  rw [Listener_eq] at h
  have hk := httpListener_ok env _ w.net l h
  simp only [bindStep, Function.update_same]
  rw [listener_eq_toHTTPFlg, Listener_eq]
  simpa using hk

theorem calls_foldl_bindStep (env : Env) (qs : List Ptr) (w : World) :
    (qs.foldl (bindStep env) w).calls = w.calls ++ qs.map Call.listener := by
  induction qs generalizing w with
  | nil => simp
  | cons q qs ih => simp [ih, bindStep]

theorem take_split {α : Type} (xs : List α) (i n : Nat) (x : α) (hx : xs[i]? = some x)
    (hi : i < n) : ∃ rest, xs.take n = xs.take i ++ x :: rest := by
  induction xs generalizing i n with
  | nil => simp at hx
  | cons y ys ih =>
    cases n with
    | zero => omega
    | succ n =>
      cases i with
      | zero =>
        simp only [List.getElem?_cons_zero, Option.some.injEq] at hx
        subst hx
        exact ⟨ys.take n, by simp⟩
      | succ i =>
        simp only [List.getElem?_cons_succ] at hx
        obtain ⟨rest, hr⟩ := ih i n hx (by omega)
        exact ⟨rest, by simp [hr]⟩

/-! ## Listen -/

theorem Listen_eq (env : Env) (s : defaultServer) (w : World) :
    s.Listen env w
      = match (failFast (bindStep env) (bindResult env) (s.listenTargets w) w []).2.2 with
        | some err =>
          (s, (failFast (bindStep env) (bindResult env) (s.listenTargets w) w []).1, some err)
        | none =>
          ({ s with listening := true },
            (failFast (bindStep env) (bindResult env) (s.listenTargets w) w []).1, none) := by
  simp only [defaultServer.Listen, defaultServer.listenTargets]
  rw [listenLoop_eq env s _ w []]
  cases h : (failFast (bindStep env) (bindResult env)
    (List.filter (s.enabled w) (s.opts.listeners ++ s.opts.systemListeners)) w []).2.2 <;> rfl

/-- C5, the code at the failing input. With no scheme enabled explicitly (so
only `http` is enabled), a regular plain descriptor 0 and a system TLS
descriptor 1: `Listen()` returns nil and sets `listening`, but it has called
`Listener()` on descriptor 0 only; the system descriptor has no listener and
its address was never handed to `net.Listen`. `Serve()` on the same manager
does start the system descriptor. -/
theorem Listen_skips_system_descriptor_of_disabled_scheme :
    (tlsSystemServer.Listen freeEnv tlsSystemWorld).2.2 = none
      ∧ (tlsSystemServer.Listen freeEnv tlsSystemWorld).1.listening = true
      ∧ (tlsSystemServer.Listen freeEnv tlsSystemWorld).2.1.calls.map Call.ptr = [0]
      ∧ ((tlsSystemServer.Listen freeEnv tlsSystemWorld).2.1.heap 1).listener = none
      ∧ (tlsSystemServer.Listen freeEnv tlsSystemWorld).2.1.net.listenCalls = ["localhost:8080"]
      ∧ ((tlsSystemServer.Serve freeEnv tlsSystemWorld none).w.calls.filter Call.isServe).map
          Call.ptr = [0, 1] := by
  refine ⟨?_, ?_, ?_, ?_, ?_, ?_⟩ <;> decide

/-- C6. From a world whose sockets are numbered soundly: if the first
descriptor whose `Listener()` fails during `Listen()` is at position `k` of
the iteration, `Listen()` returns that descriptor's error, has called
`Listener()` on the first `k + 1` descriptors of the iteration and on no
other, leaves `listening` as it was, and every descriptor bound before
position `k` still stores the listener it returned, whose socket is not
closed. `Listen()` returns nil exactly when no bind failed, and then
`listening` is true; from `listening` false it becomes true if and only if no
bind failed. -/
theorem Listen_stops_at_first_failure (env : Env) (s : defaultServer) (w : World)
    (hsound : w.Sound) :
    (∀ k p e, (s.listenTargets w)[k]? = some p →
      (∀ i, i < k → ∀ q, (s.listenTargets w)[i]? = some q →
        ∃ l, bindResult env (((s.listenTargets w).take i).foldl (bindStep env) w) q = .ok l) →
      bindResult env (((s.listenTargets w).take k).foldl (bindStep env) w) p = .error e →
      (s.Listen env w).2.2 = some e
      ∧ (s.Listen env w).2.1.calls
          = w.calls ++ ((s.listenTargets w).take (k + 1)).map Call.listener
      ∧ (s.Listen env w).1.listening = s.listening
      ∧ ∀ i, i < k → ∀ q l, (s.listenTargets w)[i]? = some q →
          bindResult env (((s.listenTargets w).take i).foldl (bindStep env) w) q = .ok l →
          ((s.Listen env w).2.1.heap q).listener = some l
            ∧ l.sock ∉ (s.Listen env w).2.1.net.closed)
    ∧ ((s.Listen env w).2.2 = none ↔
        ∀ i q, (s.listenTargets w)[i]? = some q →
          ∃ l, bindResult env (((s.listenTargets w).take i).foldl (bindStep env) w) q = .ok l)
    ∧ ((s.Listen env w).2.2 = none → (s.Listen env w).1.listening = true)
    ∧ (s.listening = false →
        ((s.Listen env w).1.listening = true ↔ (s.Listen env w).2.2 = none)) := by
  have hnone : (s.Listen env w).2.2
      = (failFast (bindStep env) (bindResult env) (s.listenTargets w) w []).2.2 := by
    rw [Listen_eq]
    cases h : (failFast (bindStep env) (bindResult env) (s.listenTargets w) w []).2.2 <;> rfl
  have hflag : (s.Listen env w).2.2 = none → (s.Listen env w).1.listening = true := by
    rw [Listen_eq]
    cases h : (failFast (bindStep env) (bindResult env) (s.listenTargets w) w []).2.2 <;> simp
  have hflag2 : ∀ e, (s.Listen env w).2.2 = some e → (s.Listen env w).1.listening = s.listening := by
    intro e
    rw [Listen_eq]
    cases h : (failFast (bindStep env) (bindResult env) (s.listenTargets w) w []).2.2 <;> simp
  refine ⟨?_, ?_, hflag, ?_⟩
  · intro k p e hk hok hfail
    obtain ⟨bs, h1, -, -⟩ := failFast_first_error (bindStep env) (bindResult env) k
      (s.listenTargets w) w [] p e hk hok hfail
    have hw : (s.Listen env w).2.1 = ((s.listenTargets w).take (k + 1)).foldl (bindStep env) w := by
      rw [Listen_eq, h1]
    have he : (s.Listen env w).2.2 = some e := by rw [hnone, h1]
    refine ⟨he, ?_, hflag2 e he, ?_⟩
    · rw [hw, calls_foldl_bindStep]
    · intro i hi q l hq hr
      obtain ⟨rest, hrest⟩ := take_split (s.listenTargets w) i (k + 1) q hq (by omega)
      have hst := bindStep_stores env _ q l hr
      have hkeep := foldl_bindStep_keeps env rest _ q l hst.1 hst.2
      have hfin : ((s.listenTargets w).take (k + 1)).foldl (bindStep env) w
          = rest.foldl (bindStep env)
              (bindStep env (((s.listenTargets w).take i).foldl (bindStep env) w) q) := by
        rw [hrest, List.foldl_append, List.foldl_cons]
      rw [hw, hfin]
      refine ⟨hkeep.2, ?_⟩
      have hs : (rest.foldl (bindStep env)
          (bindStep env (((s.listenTargets w).take i).foldl (bindStep env) w) q)).Sound := by
        rw [← hfin]; exact foldl_bindStep_sound env _ w hsound
      exact (hs.2 q l hkeep.2).2
  · rw [hnone]
    constructor
    · exact failFast_none (bindStep env) (bindResult env) (s.listenTargets w) w []
    · intro hall
      obtain ⟨bs, h1, -, -⟩ := failFast_all (bindStep env) (bindResult env)
        (s.listenTargets w) w [] hall
      rw [h1]
  · intro hl
    constructor
    · intro ht
      cases hr : (s.Listen env w).2.2 with
      | none => rfl
      | some e =>
        have := hflag2 e hr
        rw [ht, hl] at this
        simp at this
    · exact hflag

/-- Witness of C6: of two plain descriptors the first binds and the second
finds its address in use. -/
theorem Listen_stops_at_first_failure_witness :
    (twoPlainServer.Listen busyAfterFirstEnv twoPlainWorld).2.2
        = some "bind: address already in use"
      ∧ (twoPlainServer.Listen busyAfterFirstEnv twoPlainWorld).1.listening = false
      ∧ ((twoPlainServer.Listen busyAfterFirstEnv twoPlainWorld).2.1.heap 0).listener
          = some (.tcp ⟨0, "127.0.0.1:8080"⟩) := by
  have hsound : twoPlainWorld.Sound :=
    ⟨by simp [twoPlainWorld], by intro p l h; simp [twoPlainWorld, ServerListener.listener] at h⟩
  have h := (Listen_stops_at_first_failure busyAfterFirstEnv twoPlainServer twoPlainWorld
    hsound).1 1 1 "bind: address already in use" (by decide)
    (by
      intro i hi q hq
      obtain rfl : i = 0 := by omega
      obtain rfl : q = 0 := by
        have h0 : (twoPlainServer.listenTargets twoPlainWorld)[0]? = some 0 := by decide
        rw [h0] at hq
        simpa using hq.symm
      exact ⟨_, rfl⟩)
    rfl
  exact ⟨h.1, h.2.2.1, (h.2.2.2 0 (by omega) 0 _ (by decide) rfl).1⟩

/-! ## Serve -/

theorem failFast_world {σ α β : Type} (step : σ → α → σ) (res : σ → α → Except String β)
    (xs : List α) (w : σ) (acc : List β) :
    ∃ n, (failFast step res xs w acc).1 = (xs.take n).foldl step w := by
  induction xs generalizing w acc with
  | nil => exact ⟨0, rfl⟩
  | cons x xs ih =>
    cases hr : res w x with
    | error e => exact ⟨1, by simp [failFast, hr]⟩
    | ok b =>
      obtain ⟨n, hn⟩ := ih (step w x) (acc ++ [b])
      exact ⟨n + 1, by simp [failFast, hr, hn]⟩

theorem Listen_world (env : Env) (s : defaultServer) (w : World) :
    ∃ n, (s.Listen env w).2.1 = ((s.listenTargets w).take n).foldl (bindStep env) w := by
  obtain ⟨n, hn⟩ := failFast_world (bindStep env) (bindResult env) (s.listenTargets w) w []
  refine ⟨n, ?_⟩
  rw [Listen_eq, ← hn]
  cases h : (failFast (bindStep env) (bindResult env) (s.listenTargets w) w []).2.2 <;> rfl

theorem Listen_opts (env : Env) (s : defaultServer) (w : World) :
    (s.Listen env w).1 = s ∨ (s.Listen env w).1 = { s with listening := true } := by
  rw [Listen_eq]
  cases h : (failFast (bindStep env) (bindResult env) (s.listenTargets w) w []).2.2
  · exact Or.inr rfl
  · exact Or.inl rfl

theorem Listener_tasks (env : Env) (d : ServerListener) (w : Net) :
    (d.Listener env w).2.1.tasks = w.tasks := by
  rw [Listener_eq]
  by_cases hd : d.toHTTPFlg.listenOnce.done = true
  · cases hl : d.toHTTPFlg.listener with
    | none => rw [httpListener_unbound_none env _ w hd hl]
    | some l => rw [httpListener_bound env _ w l hd hl]
  · have hd : d.toHTTPFlg.listenOnce.done = false := by simpa using hd
    cases hn : env.netListen w.listenCalls
        (JoinHostPort d.toHTTPFlg.Host (Itoa d.toHTTPFlg.Port)) with
    | error e => rw [httpListener_listenFails env _ w e hd hn]
    | ok a =>
      cases hs : SplitHostPort env a with
      | error e => rw [httpListener_splitFails env _ w a e hd hn hs]
      | ok r =>
        obtain ⟨hh, p⟩ := r
        rw [httpListener_binds env _ w a hh p hd hn hs]

theorem tasks_foldl_bindStep (env : Env) (qs : List Ptr) (w : World) :
    (qs.foldl (bindStep env) w).net.tasks = w.net.tasks
      ∧ (qs.foldl (bindStep env) w).spawned = w.spawned := by
  induction qs generalizing w with
  | nil => exact ⟨rfl, rfl⟩
  | cons q qs ih =>
    rw [List.foldl_cons, (ih _).1, (ih _).2]
    exact ⟨Listener_tasks env _ _, rfl⟩

theorem filter_isServe_listener (cs : List Call) (qs : List Ptr) :
    (cs ++ qs.map Call.listener).filter Call.isServe = cs.filter Call.isServe := by
  induction qs with
  | nil => simp
  | cons q qs ih =>
    rw [List.filter_append] at ih ⊢
    simp only [List.map_cons, List.filter_cons, Call.isServe, Bool.false_eq_true, if_false]
    exact ih

theorem calls_foldl_serveStep (env : Env) (xs : List (Ptr × ServerConfig)) (w : World) :
    (xs.foldl (serveStep env) w).calls = w.calls ++ xs.map (fun x => Call.serve x.1 x.2) := by
  induction xs generalizing w with
  | nil => simp
  | cons x xs ih => simp [ih, serveStep]

/-- `Serve()` when the manager is listening or `Listen()` succeeds: the two
loops are one fail-fast pass over the serve plan. -/
theorem Serve_eq (env : Env) (s : defaultServer) (w : World) (waitErr : Option String)
    (hl : s.listening = true ∨ (s.Listen env w).2.2 = none) :
    (s.Serve env w waitErr).w
        = (failFast (serveStep env) (serveResult env) (s.servePlan w) (s.serveStart env w) []).1
      ∧ (s.Serve env w waitErr).servers
        = (failFast (serveStep env) (serveResult env) (s.servePlan w)
            (s.serveStart env w) []).2.1
      ∧ (s.Serve env w waitErr).err
        = match (failFast (serveStep env) (serveResult env) (s.servePlan w)
            (s.serveStart env w) []).2.2 with
          | some e => some e
          | none => waitErr := by
  -- the manager and the world after the listening step
  have key : ∃ s1 w1, (if !s.listening then s.Listen env w else (s, w, none)) = (s1, w1, none)
      ∧ s1.opts = s.opts ∧ s1.regularConfig = s.regularConfig
      ∧ s1.systemConfig = s.systemConfig ∧ s1.enabled = s.enabled
      ∧ s.enabled w1 = s.enabled w
      ∧ w1 = (if s.listening then w else (s.Listen env w).2.1) := by
    by_cases hlis : s.listening = true
    · exact ⟨s, w, by simp [hlis], rfl, rfl, rfl, rfl, rfl, by simp [hlis]⟩
    · have hnone : (s.Listen env w).2.2 = none := by
        rcases hl with h | h
        · exact absurd h hlis
        · exact h
      have hlis : s.listening = false := by simpa using hlis
      obtain ⟨n, hn⟩ := Listen_world env s w
      refine ⟨(s.Listen env w).1, (s.Listen env w).2.1, ?_, ?_, ?_, ?_, ?_, ?_, by simp [hlis]⟩
      · simp only [hlis, Bool.not_false, if_true]
        rw [← hnone]
      · rcases Listen_opts env s w with h | h <;> rw [h]
      · rcases Listen_opts env s w with h | h
        · rw [h]
        · rw [h]; rfl
      · rcases Listen_opts env s w with h | h
        · rw [h]
        · rw [h]; rfl
      · rcases Listen_opts env s w with h | h
        · rw [h]
        · rw [h]; rfl
      · rw [hn, enabled_foldl_bindStep]
  obtain ⟨s1, w1, hk, hopts, hrc, hsc, hen, henw, hw1⟩ := key
  have hplanR : s1.serveRegular env s1.opts.listeners
      { w1 with signalNotified := true,
                spawned := w1.spawned ++ [Spawn.handleInterrupt, Spawn.handleShutdown] } []
      = failFast (serveStep env) (serveResult env)
          ((s.opts.listeners.filter (s.enabled w)).map (fun p => (p, s.regularConfig)))
          (s.serveStart env w) [] := by
    rw [serveRegular_eq, hopts, hrc, hen]
    have hen2 : ∀ w2 : World, w2.heap = w1.heap → s.enabled w2 = s.enabled w := by
      intro w2 h2
      rw [← henw]
      funext p
      simp [defaultServer.enabled, h2]
    rw [hen2]
    · simp only [defaultServer.serveStart, hw1]
    · rfl
  have happ := failFast_append (serveStep env) (serveResult env)
    ((s.opts.listeners.filter (s.enabled w)).map (fun p => (p, s.regularConfig)))
    (s.opts.systemListeners.map (fun p => (p, s.systemConfig))) (s.serveStart env w) []
  simp only [defaultServer.Serve, hk, hplanR, defaultServer.servePlan, happ]
  rcases hR : failFast (serveStep env) (serveResult env)
    ((s.opts.listeners.filter (s.enabled w)).map (fun p => (p, s.regularConfig)))
    (s.serveStart env w) [] with ⟨w3, servers, _ | e⟩
  · simp only [serveSystem_eq, hopts, hsc]
    rcases hS : failFast (serveStep env) (serveResult env)
      (s.opts.systemListeners.map (fun p => (p, s.systemConfig))) w3 servers
      with ⟨w4, servers4, _ | e⟩ <;> simp
  · simp

/-- C7. When the manager is listening or `Listen()` succeeds, and every
descriptor's `Serve` succeeds, the handles `Serve()` collects are, position by
position, the handles returned by the calls of the serve plan: one per regular
descriptor whose scheme is enabled, in registration order, each called with
the regular configuration (whose handler is the shared regular handler), then
one per system descriptor, in registration order, each called with the system
configuration (whose handler is the shared system handler). No other `Serve`
call is made, and `Serve()` returns what the wait on the group returns. -/
theorem Serve_collects_handles_in_order (env : Env) (s : defaultServer) (w : World)
    (waitErr : Option String)
    (hl : s.listening = true ∨ (s.Listen env w).2.2 = none)
    (hok : ∀ i x, (s.servePlan w)[i]? = some x →
      ∃ hs, serveResult env (((s.servePlan w).take i).foldl (serveStep env)
        (s.serveStart env w)) x = .ok hs) :
    s.servePlan w
        = (s.opts.listeners.filter (fun p => s.hasScheme (w.heap p).Scheme)).map
            (fun p => (p, s.regularConfig))
          ++ s.opts.systemListeners.map (fun p => (p, s.systemConfig))
      ∧ s.regularConfig.Handler = s.opts.handler
      ∧ s.systemConfig.Handler = s.opts.systemHandler
      ∧ (s.Serve env w waitErr).servers.length = (s.servePlan w).length
      ∧ (∀ i x hs, (s.servePlan w)[i]? = some x →
          serveResult env (((s.servePlan w).take i).foldl (serveStep env)
            (s.serveStart env w)) x = .ok hs →
          (s.Serve env w waitErr).servers[i]? = some hs)
      ∧ (s.Serve env w waitErr).w.calls
          = (s.serveStart env w).calls ++ (s.servePlan w).map (fun x => Call.serve x.1 x.2)
      ∧ (s.Serve env w waitErr).err = waitErr := by
  obtain ⟨hw, hs, he⟩ := Serve_eq env s w waitErr hl
  obtain ⟨bs, h1, h2, h3⟩ := failFast_all (serveStep env) (serveResult env) (s.servePlan w)
    (s.serveStart env w) [] hok
  rw [h1] at hw hs he
  simp only [List.nil_append] at hs
  refine ⟨rfl, rfl, rfl, ?_, ?_, ?_, he⟩
  · rw [hs, h2]
  · intro i x b hx hr
    rw [hs]
    exact h3 i x b hx hr
  · rw [hw, calls_foldl_serveStep]

/-- Witness of C7: a regular plain descriptor and a system TLS descriptor are
both started, in this order. -/
theorem Serve_collects_handles_in_order_witness :
    (tlsSystemServer.Serve freeEnv tlsSystemWorld none).servers.length = 2
      ∧ ((tlsSystemServer.Serve freeEnv tlsSystemWorld none).w.calls.filter Call.isServe).map
          Call.ptr = [0, 1] := by
  have h := Serve_collects_handles_in_order freeEnv tlsSystemServer tlsSystemWorld none
    (Or.inr (by decide))
    (by
      intro i x hx
      have hlen : i < (tlsSystemServer.servePlan tlsSystemWorld).length := by
        by_contra hcon
        rw [List.getElem?_eq_none (by omega)] at hx
        simp at hx
      have h2 : (tlsSystemServer.servePlan tlsSystemWorld).length = 2 := by decide
      rw [h2] at hlen
      interval_cases i
      · have h0 : (tlsSystemServer.servePlan tlsSystemWorld)[0]?
            = some (0, tlsSystemServer.regularConfig) := rfl
        rw [h0] at hx
        simp only [Option.some.injEq] at hx
        subst hx
        exact ⟨_, rfl⟩
      · have h1 : (tlsSystemServer.servePlan tlsSystemWorld)[1]?
            = some (1, tlsSystemServer.systemConfig) := rfl
        rw [h1] at hx
        simp only [Option.some.injEq] at hx
        subst hx
        exact ⟨_, rfl⟩)
  refine ⟨by rw [h.2.2.2.1]; decide, by decide⟩

/-- C8. `Serve()` is fail-fast during startup. If the manager is not
listening and `Listen()` fails, `Serve()` returns that error with no handle
collected, and leaves the world as `Listen()` left it: no `Serve` of a
descriptor was called, no task was registered and no goroutine started. If the
descriptor at position `k` of the serve plan (enabled regular descriptors,
then system descriptors) is the first whose `Serve` fails, `Serve()` returns
that descriptor's error, has called `Serve` on the first `k + 1` descriptors
of the plan and on no other, and holds the `k` handles of the descriptors
before it. -/
theorem Serve_fails_fast (env : Env) (s : defaultServer) (w : World)
    (waitErr : Option String) :
    (∀ e, s.listening = false → (s.Listen env w).2.2 = some e →
      (s.Serve env w waitErr).err = some e
      ∧ (s.Serve env w waitErr).servers = []
      ∧ (s.Serve env w waitErr).w = (s.Listen env w).2.1
      ∧ (s.Serve env w waitErr).w.calls.filter Call.isServe = w.calls.filter Call.isServe
      ∧ (s.Serve env w waitErr).w.net.tasks = w.net.tasks
      ∧ (s.Serve env w waitErr).w.spawned = w.spawned)
    ∧ (∀ k x e, (s.listening = true ∨ (s.Listen env w).2.2 = none) →
      (s.servePlan w)[k]? = some x →
      (∀ i, i < k → ∀ y, (s.servePlan w)[i]? = some y →
        ∃ hs, serveResult env (((s.servePlan w).take i).foldl (serveStep env)
          (s.serveStart env w)) y = .ok hs) →
      serveResult env (((s.servePlan w).take k).foldl (serveStep env)
        (s.serveStart env w)) x = .error e →
      (s.Serve env w waitErr).err = some e
      ∧ (s.Serve env w waitErr).w.calls
          = (s.serveStart env w).calls
            ++ ((s.servePlan w).take (k + 1)).map (fun x => Call.serve x.1 x.2)
      ∧ (s.Serve env w waitErr).servers.length = k
      ∧ ∀ i y hs, (s.servePlan w)[i]? = some y →
          serveResult env (((s.servePlan w).take i).foldl (serveStep env)
            (s.serveStart env w)) y = .ok hs → i < k →
          (s.Serve env w waitErr).servers[i]? = some hs) := by
  constructor
  · intro e hlis herr
    have hS : s.Serve env w waitErr
        = ⟨(s.Listen env w).1, (s.Listen env w).2.1, [], some e⟩ := by
      simp only [defaultServer.Serve, hlis, Bool.not_false, if_true]
      rcases hL : s.Listen env w with ⟨s1, w1, r⟩
      rw [hL] at herr
      simp only at herr
      subst herr
      rfl
    obtain ⟨n, hn⟩ := Listen_world env s w
    rw [hS]
    refine ⟨rfl, rfl, rfl, ?_, ?_, ?_⟩
    · simp only [hn, calls_foldl_bindStep, filter_isServe_listener]
    · simp only [hn, (tasks_foldl_bindStep env _ w).1]
    · simp only [hn, (tasks_foldl_bindStep env _ w).2]
  · intro k x e hl hk hok hfail
    obtain ⟨hw, hs, he⟩ := Serve_eq env s w waitErr hl
    obtain ⟨bs, h1, h2, h3⟩ := failFast_first_error (serveStep env) (serveResult env) k
      (s.servePlan w) (s.serveStart env w) [] x e hk hok hfail
    rw [h1] at hw hs he
    simp only [List.nil_append] at hs
    refine ⟨he, ?_, ?_, ?_⟩
    · rw [hw, calls_foldl_serveStep]
    · rw [hs, h2]
    · intro i y b hy hr hi
      rw [hs]
      exact h3 i y b hy hr hi

/-- Witness of C8: two plain descriptors, the manager already listening; the
first is started and the second finds its address in use. -/
theorem Serve_fails_fast_witness :
    ({ twoPlainServer with listening := true }.Serve busyAfterFirstEnv twoPlainWorld none).err
        = some "bind: address already in use"
      ∧ ({ twoPlainServer with listening := true }.Serve busyAfterFirstEnv twoPlainWorld
          none).servers.length = 1 := by
  have h := (Serve_fails_fast busyAfterFirstEnv { twoPlainServer with listening := true }
    twoPlainWorld none).2 1 (1, twoPlainServer.regularConfig) "bind: address already in use"
    (Or.inl rfl) rfl
    (by
      intro i hi y hy
      obtain rfl : i = 0 := by omega
      have h0 : (({ twoPlainServer with listening := true } : defaultServer).servePlan
          twoPlainWorld)[0]? = some (0, twoPlainServer.regularConfig) := rfl
      rw [h0] at hy
      simp only [Option.some.injEq] at hy
      subst hy
      exact ⟨_, rfl⟩)
    rfl
  exact ⟨h.1, h.2.2.1⟩

/-! ## The shutdown coordinator -/

theorem errgroupWait_eq_none (first : Nat → Nat) (results : List (Option String)) :
    errgroupWait first results = none ↔ ∀ r ∈ results, r = none := by
  simp only [errgroupWait]
  constructor
  · intro h
    by_contra hcon
    have hne : results.filterMap id ≠ [] := by
      intro h0
      rw [List.filterMap_eq_nil_iff] at h0
      exact hcon (fun r hr => by simpa using h0 r hr)
    have hpos : 0 < (results.filterMap id).length := List.length_pos.2 hne
    have hlt : first (results.filterMap id).length % (results.filterMap id).length
        < (results.filterMap id).length := Nat.mod_lt _ hpos
    rw [List.getElem?_eq_getElem hlt] at h
    simp at h
  · intro h
    have h0 : results.filterMap id = [] := by
      rw [List.filterMap_eq_nil_iff]
      intro r hr
      simpa using h r hr
    rw [h0]
    rfl

theorem errgroupWait_mem (first : Nat → Nat) (results : List (Option String)) (e : String)
    (h : errgroupWait first results = some e) : some e ∈ results := by
  simp only [errgroupWait] at h
  have := List.getElem?_mem h
  simpa using this

theorem results_none_iff (servers : List HttpServer)
    (srvShutdown : Nat → HttpServer → Option String) :
    (∀ r ∈ servers.enum.map (fun x => srvShutdown x.1 x.2), r = none)
      ↔ ∀ i srv, servers[i]? = some srv → srvShutdown i srv = none := by
  constructor
  · intro h i srv hi
    apply h
    rw [List.mem_map]
    exact ⟨(i, srv), List.mk_mem_enum_iff_getElem?.2 hi, rfl⟩
  · intro h r hr
    rw [List.mem_map] at hr
    obtain ⟨⟨i, srv⟩, hm, rfl⟩ := hr
    exact h i srv (List.mk_mem_enum_iff_getElem?.1 hm)

/-- C9 as the code has it. Once the shutdown trigger has fired, with a
callback registered: `handleShutdown` invokes the callback exactly once and
returns nil if and only if every server's `Shutdown` returned nil. If some
server's `Shutdown` returned an error, the callback is not invoked, one of the
servers' errors is logged through `Fatalf`, and `handleShutdown` returns that
error when the logger's `Fatalf` returns; with a logger whose `Fatalf` ends
the process, `handleShutdown` does not return. -/
theorem handleShutdown_callback (s : defaultServer) (w : World) (servers : List HttpServer)
    (srvShutdown : Nat → HttpServer → Option String) (first : Nat → Nat) (handlers : List Nat)
    (hfired : s.shutdown = Chan.closed) (hcb : s.opts.onShutdown = some handlers) :
    (((s.handleShutdown w servers srvShutdown first).2 = .returned none
        ∧ (s.handleShutdown w servers srvShutdown first).1.onShutdownCalls
            = w.onShutdownCalls + 1)
      ↔ ∀ i srv, servers[i]? = some srv → srvShutdown i srv = none)
    ∧ ((∃ i srv e, servers[i]? = some srv ∧ srvShutdown i srv = some e) →
      (s.handleShutdown w servers srvShutdown first).1.onShutdownCalls = w.onShutdownCalls
      ∧ ∃ e, (∃ i srv, servers[i]? = some srv ∧ srvShutdown i srv = some e)
        ∧ (s.handleShutdown w servers srvShutdown first).1.net.logs
            = w.net.logs ++ [⟨s.opts.logger, true, "HTTP server Shutdown: " ++ e⟩]
        ∧ (s.handleShutdown w servers srvShutdown first).2
            = if s.opts.logger.fatalfExits then .exited 1 else .returned (some e)) := by
  have hiff := (errgroupWait_eq_none first (servers.enum.map (fun x => srvShutdown x.1 x.2))).trans
    (results_none_iff servers srvShutdown)
  cases hwait : errgroupWait first (servers.enum.map (fun x => srvShutdown x.1 x.2)) with
  | none =>
    have hall := hiff.1 hwait
    have hres : s.handleShutdown w servers srvShutdown first
        = ({ w with
              srvShutdowns := w.srvShutdowns ++ servers.map (fun x => (x, shutdownTimeout))
              onShutdownCalls := w.onShutdownCalls + 1
              handlersRun := w.handlersRun ++ handlers }, .returned none) := by
      simp only [defaultServer.handleShutdown, hfired, hwait, hcb]
    rw [hres]
    refine ⟨⟨fun _ => hall, fun _ => ⟨rfl, rfl⟩⟩, ?_⟩
    rintro ⟨i, srv, e, hi, he⟩
    rw [hall i srv hi] at he
    simp at he
  | some e =>
    have hmem := errgroupWait_mem first _ e hwait
    rw [List.mem_map] at hmem
    obtain ⟨⟨i, srv⟩, hm, he⟩ := hmem
    have hi : servers[i]? = some srv := List.mk_mem_enum_iff_getElem?.1 hm
    have hnot : ¬ ∀ i srv, servers[i]? = some srv → srvShutdown i srv = none := by
      intro hall
      have := hall i srv hi
      simp only at he
      rw [this] at he
      simp at he
    have hres : s.handleShutdown w servers srvShutdown first
        = ({ w with
              srvShutdowns := w.srvShutdowns ++ servers.map (fun x => (x, shutdownTimeout))
              net := { w.net with
                logs := w.net.logs ++ [⟨s.opts.logger, true, "HTTP server Shutdown: " ++ e⟩] } },
            if s.opts.logger.fatalfExits then .exited 1 else .returned (some e)) := by
      simp only [defaultServer.handleShutdown, hfired, hwait]
      split_ifs <;> rfl
    rw [hres]
    refine ⟨⟨fun h => ?_, fun hall => absurd hall hnot⟩, fun _ => ⟨rfl, e, ⟨i, srv, hi, he⟩, rfl, rfl⟩⟩
    exfalso
    have h1 := h.1
    simp only at h1
    split_ifs at h1
    simp at h1

/-- Witness of C9: two servers that shut down cleanly; the callback runs once
and `handleShutdown` returns nil. -/
theorem handleShutdown_callback_witness :
    (firedServer.handleShutdown tlsSystemWorld [{}, {}] (fun _ _ => none) id).2 = .returned none
      ∧ (firedServer.handleShutdown tlsSystemWorld [{}, {}]
          (fun _ _ => none) id).1.onShutdownCalls = 1 :=
  (handleShutdown_callback firedServer tlsSystemWorld [{}, {}] (fun _ _ => none) id [] rfl
    rfl).1.2 (fun _ _ _ => rfl)

/-- Counterexample to C9 as stated. With the default logger, whose `Fatalf`
ends the process, and one server whose `Shutdown` returns an error,
`handleShutdown` logs the error through `Fatalf` and the process exits with
status 1: it returns no error. -/
theorem handleShutdown_exits_on_error :
    (firedServer.handleShutdown tlsSystemWorld [{}]
        (fun _ _ => some "context deadline exceeded") id).2 = .exited 1
      ∧ (firedServer.handleShutdown tlsSystemWorld [{}]
        (fun _ _ => some "context deadline exceeded") id).1.net.logs
          = [⟨stdLogger, true, "HTTP server Shutdown: context deadline exceeded"⟩]
      ∧ ¬ ∃ e, (firedServer.handleShutdown tlsSystemWorld [{}]
        (fun _ _ => some "context deadline exceeded") id).2 = .returned (some e) := by
  refine ⟨by decide, by decide, ?_⟩
  rintro ⟨e, he⟩
  have h1 : (firedServer.handleShutdown tlsSystemWorld [{}]
      (fun _ _ => some "context deadline exceeded") id).2 = .exited 1 := by decide
  rw [h1] at he
  simp at he

/-! ## Shutdown is a one-shot trigger -/

theorem Shutdown_of_fresh (s : defaultServer) (h0 : s.shuttingDown = 0)
    (hc : s.shutdown = Chan.opened) :
    s.Shutdown = ({ s with shuttingDown := 1, shutdown := Chan.closed }, .returned none) := by
  simp [defaultServer.Shutdown, h0, hc]

theorem Shutdown_of_fired (s : defaultServer) (h1 : s.shuttingDown ≠ 0) :
    s.Shutdown = (s, .returned none) := by
  simp [defaultServer.Shutdown, h1]

theorem shutdownTimes_of_fired (s : defaultServer) (h1 : s.shuttingDown ≠ 0) (n : Nat) :
    s.shutdownTimes n = (s, .returned (List.replicate n none)) := by
  induction n with
  | zero => rfl
  | succ n ih => simp [defaultServer.shutdownTimes, Shutdown_of_fired s h1, ih, List.replicate_succ]

theorem closeCount_of_fired (s : defaultServer) (h1 : s.shuttingDown ≠ 0) (n : Nat) :
    s.closeCount n = 0 := by
  induction n with
  | zero => rfl
  | succ n ih =>
    simp only [defaultServer.closeCount, Shutdown_of_fired s h1, ih]
    by_cases h : s.shutdown = Chan.opened <;> simp [h]

/-- C1. On a manager whose shutdown trigger has not fired (`shuttingDown` is 0
and the channel is open), `N ≥ 1` calls of `Shutdown()` in sequence all return
nil, exactly one of them closes the channel, namely the first, which moves
`shuttingDown` from 0 to 1, and every later call leaves the manager as the
first call left it. -/
theorem Shutdown_idempotent (s : defaultServer) (h0 : s.shuttingDown = 0)
    (hc : s.shutdown = Chan.opened) (N : Nat) (hN : 1 ≤ N) :
    s.shutdownTimes N
        = ({ s with shuttingDown := 1, shutdown := Chan.closed }, .returned (List.replicate N none))
      ∧ s.closeCount N = 1
      ∧ s.Shutdown = ({ s with shuttingDown := 1, shutdown := Chan.closed }, .returned none)
      ∧ (∀ k, 1 ≤ k → (s.shutdownTimes k).1 = (s.shutdownTimes 1).1)
      ∧ (∀ k, (s.Shutdown.1.shutdownTimes k).1 = s.Shutdown.1
          ∧ s.Shutdown.1.closeCount k = 0) := by
  have hs := Shutdown_of_fresh s h0 hc
  have h1 : ({ s with shuttingDown := 1, shutdown := Chan.closed } : defaultServer).shuttingDown ≠ 0 := by
    simp
  have key : ∀ n, s.shutdownTimes (n + 1)
      = ({ s with shuttingDown := 1, shutdown := Chan.closed },
          .returned (List.replicate (n + 1) none)) := by
    intro n
    simp [defaultServer.shutdownTimes, hs, shutdownTimes_of_fired _ h1, List.replicate_succ]
  obtain ⟨n, rfl⟩ : ∃ n, N = n + 1 := ⟨N - 1, by omega⟩
  refine ⟨key n, ?_, hs, ?_, ?_⟩
  · simp [defaultServer.closeCount, hs, hc, closeCount_of_fired _ h1]
  · intro k hk
    obtain ⟨m, rfl⟩ : ∃ m, k = m + 1 := ⟨k - 1, by omega⟩
    rw [key m, key 0]
  · intro k
    rw [hs]
    exact ⟨by rw [shutdownTimes_of_fired _ h1], closeCount_of_fired _ h1 k⟩

/-- Witness of C1: three calls on a new manager. -/
theorem Shutdown_idempotent_witness :
    (({ opts := {} } : defaultServer).shutdownTimes 3).2 = .returned [none, none, none]
      ∧ ({ opts := {} } : defaultServer).closeCount 3 = 1 :=
  ⟨by rw [(Shutdown_idempotent { opts := {} } rfl rfl 3 (by decide)).1]; rfl,
    (Shutdown_idempotent { opts := {} } rfl rfl 3 (by decide)).2.1⟩

/-! ## Options -/

/-- C14, the code at the failing input. `WithSystemListeners(5, 6)` applied to
options with no system listener leaves the system listener list `[5]`: the
extra listener 6 is dropped. Applied to options that already have system
listener 4, it also drops that one. The sibling `WithSystem` keeps every
listener it is given. -/
theorem WithSystemListeners_drops_extra :
    (WithSystemListeners 5 [6] {}).systemListeners = [5]
      ∧ 6 ∉ (WithSystemListeners 5 [6] {}).systemListeners
      ∧ (WithSystemListeners 5 [6] { systemListeners := [4] }).systemListeners = [5]
      ∧ (WithSystem okHandler 5 [6] {}).systemListeners = [5, 6]
      ∧ (newDefaultWithOptions {} [WithSystemListeners 5 [6]]).systemListeners = [5] := by
  refine ⟨?_, ?_, ?_, ?_, ?_⟩ <;> decide

/-- No option constructor other than `EnableHSTS` touches the HSTS
configuration. -/
theorem hsts_toOption_of_not (c : OptionCall) (o : options) (h : c.isEnableHSTS = false) :
    (c.toOption o).hsts = o.hsts := by
  cases c <;> simp [OptionCall.isEnableHSTS] at h <;>
    simp [OptionCall.toOption, LogsWith, EnablesSchemes, OnShutdown, WithListeners,
      WithExtraListeners, WithSystemListeners, HandlesSystemWith, WithSystem, Hooks,
      HandlesRequestsWith]
  split_ifs <;> rfl

theorem hsts_foldl_of_not (cs : List OptionCall) (o : options)
    (h : ∀ c ∈ cs, c.isEnableHSTS = false) :
    ((cs.map OptionCall.toOption).foldl (fun o apply => apply o) o).hsts = o.hsts := by
  induction cs generalizing o with
  | nil => rfl
  | cons c cs ih =>
    simp only [List.map_cons, List.foldl_cons]
    rw [ih _ (fun c1 hc1 => h c1 (List.mem_cons_of_mem _ hc1))]
    exact hsts_toOption_of_not c o (h c (List.mem_cons_self _ _))

theorem New_handler (g : Globals) (opts : List ServerOption) :
    (New g opts).opts.handler
      = match (newDefaultWithOptions g opts).hsts with
        | some c => Handler.hsts (newDefaultWithOptions g opts).handler c.MaxAge c.SendPreload
        | none => (newDefaultWithOptions g opts).handler := by
  simp only [New]
  cases (newDefaultWithOptions g opts).hsts <;> rfl

/-- C16. `EnableHSTS(0, sendPreload)` configures a max-age of 126 days, which
is 10,886,400 seconds, and `EnableHSTS(maxAge, sendPreload)` with a max-age
other than 0 configures that max-age; the preload flag is the one given. When
an `EnableHSTS` call is among the options of `New` (the last one counts),
`New` wraps the regular handler in the HSTS handler with these values; when
none is, `New` leaves the regular handler as the options set it. -/
theorem EnableHSTS_configures (g : Globals) (maxAge : Duration) (sendPreload : Bool)
    (o : options) (pre post : List OptionCall) :
    (EnableHSTS 0 sendPreload o).hsts = some ⟨10886400 * Second, sendPreload⟩
      ∧ Hour * 24 * 126 = 126 * (24 * Hour)
      ∧ (maxAge ≠ 0 → (EnableHSTS maxAge sendPreload o).hsts = some ⟨maxAge, sendPreload⟩)
      ∧ ((∀ c ∈ post, c.isEnableHSTS = false) →
          (New g ((pre ++ OptionCall.EnableHSTS maxAge sendPreload :: post).map
              OptionCall.toOption)).opts.handler
            = Handler.hsts
                (newDefaultWithOptions g
                  ((pre ++ OptionCall.EnableHSTS maxAge sendPreload :: post).map
                    OptionCall.toOption)).handler
                (if maxAge = 0 then 10886400 * Second else maxAge) sendPreload)
      ∧ ((∀ c ∈ pre, c.isEnableHSTS = false) →
          (New g (pre.map OptionCall.toOption)).opts.handler
              = (newDefaultWithOptions g (pre.map OptionCall.toOption)).handler
            ∧ (New g (pre.map OptionCall.toOption)).opts.hsts = none) := by
  have hdays : Hour * 24 * 126 = 10886400 * Second := by decide
  refine ⟨?_, by decide, ?_, ?_, ?_⟩
  · have h0 : (EnableHSTS 0 sendPreload o).hsts = some ⟨Hour * 24 * 126, sendPreload⟩ := rfl
    rw [h0, hdays]
  · intro h
    simp only [EnableHSTS, if_neg h]
  · intro hpost
    have hh : (newDefaultWithOptions g
        ((pre ++ OptionCall.EnableHSTS maxAge sendPreload :: post).map
          OptionCall.toOption)).hsts
        = some ⟨if maxAge = 0 then 10886400 * Second else maxAge, sendPreload⟩ := by
      simp only [newDefaultWithOptions, List.map_append, List.map_cons, List.foldl_append,
        List.foldl_cons]
      rw [hsts_foldl_of_not post _ hpost]
      simp only [OptionCall.toOption, EnableHSTS, hdays]
    rw [New_handler, hh]
  · intro hpre
    have hh : (newDefaultWithOptions g (pre.map OptionCall.toOption)).hsts = none := by
      simp only [newDefaultWithOptions]
      rw [hsts_foldl_of_not pre _ hpre]
    refine ⟨by rw [New_handler, hh], ?_⟩
    simp only [New, hh]

theorem ite_fill {α : Type} [DecidableEq α] (z a v : α) :
    (if (if a = z then v else a) = z then v else (if a = z then v else a))
      = if a = z then v else a := by
  by_cases h : a = z
  · simp only [h, if_true]
    by_cases hv : v = z <;> simp [hv]
  · simp [h]

/-- `ApplyDefaults` with non-nil values, field by field. -/
theorem ApplyDefaults_some (t : TLSFlg) (values : HTTPFlg) :
    t.ApplyDefaults (some values)
      = { t with
          Host := if t.Host = "" then values.Host else t.Host
          ListenLimit := if t.ListenLimit = 0 then values.ListenLimit else t.ListenLimit
          KeepAlive := if t.KeepAlive = 0 then values.KeepAlive else t.KeepAlive
          ReadTimeout := if t.ReadTimeout = 0 then values.ReadTimeout else t.ReadTimeout
          WriteTimeout := if t.WriteTimeout = 0 then values.WriteTimeout else t.WriteTimeout } := by
  unfold TLSFlg.ApplyDefaults
  by_cases h1 : t.Host = "" <;> by_cases h2 : t.ListenLimit = 0 <;>
    by_cases h3 : t.KeepAlive = 0 <;> by_cases h4 : t.ReadTimeout = 0 <;>
    by_cases h5 : t.WriteTimeout = 0 <;> simp only [h1, h2, h3, h4, h5, if_true, if_false]

/-- C17. `ApplyDefaults(values)` with non-nil values sets each of Host,
ListenLimit, KeepAlive, ReadTimeout and WriteTimeout to the field of `values`
when it was the zero value and leaves it as it was otherwise; Port, Prefix,
Cert, CertKey and CACert stay as they were; with nil values nothing changes;
and applying it twice with the same values equals applying it once. -/
theorem ApplyDefaults_fills_zero_fields (t : TLSFlg) (values : HTTPFlg) :
    (t.ApplyDefaults (some values)).Host = (if t.Host = "" then values.Host else t.Host)
      ∧ (t.ApplyDefaults (some values)).ListenLimit
          = (if t.ListenLimit = 0 then values.ListenLimit else t.ListenLimit)
      ∧ (t.ApplyDefaults (some values)).KeepAlive
          = (if t.KeepAlive = 0 then values.KeepAlive else t.KeepAlive)
      ∧ (t.ApplyDefaults (some values)).ReadTimeout
          = (if t.ReadTimeout = 0 then values.ReadTimeout else t.ReadTimeout)
      ∧ (t.ApplyDefaults (some values)).WriteTimeout
          = (if t.WriteTimeout = 0 then values.WriteTimeout else t.WriteTimeout)
      ∧ (t.ApplyDefaults (some values)).Port = t.Port
      ∧ (t.ApplyDefaults (some values)).Prefix = t.Prefix
      ∧ (t.ApplyDefaults (some values)).Cert = t.Cert
      ∧ (t.ApplyDefaults (some values)).CertKey = t.CertKey
      ∧ (t.ApplyDefaults (some values)).CACert = t.CACert
      ∧ t.ApplyDefaults none = t
      ∧ (t.ApplyDefaults (some values)).ApplyDefaults (some values)
          = t.ApplyDefaults (some values) := by
  refine ⟨?_, ?_, ?_, ?_, ?_, ?_, ?_, ?_, ?_, ?_, rfl, ?_⟩
  any_goals rw [ApplyDefaults_some]
  simp only [ApplyDefaults_some, ite_fill]

/-! ## The shutdown grace period -/

theorem httpServe_idle (env : Env) (h : HTTPFlg) (sc : ServerConfig) (n : Net) (c : Duration)
    (hcb : sc.Callbacks = none) :
    (h.Serve env { sc with CleanupTimeout := c } n).2.2
      = ((h.Serve env { sc with CleanupTimeout := 0 } n).2.2).map
          (fun srv => { srv with IdleTimeout := if c > 0 then c else 0 }) := by
  rcases hL : h.Listener env n with ⟨h1, w1, r⟩
  cases r with
  | error e => simp [HTTPFlg.Serve, hL, Except.map]
  | ok l =>
    by_cases hc : c > 0 <;> by_cases hk : h1.KeepAlive > 0 <;>
      by_cases hh : h1.Handler = Handler.nil <;>
      simp [HTTPFlg.Serve, hL, Except.map, hcb, hc, hk, hh]

theorem tlsServe_idle (env : Env) (t : TLSFlg) (sc : ServerConfig) (n : Net) (c : Duration)
    (hcb : sc.Callbacks = none) :
    (t.Serve env { sc with CleanupTimeout := c } n).2.2
      = ((t.Serve env { sc with CleanupTimeout := 0 } n).2.2).map
          (fun srv => { srv with IdleTimeout := if c > 0 then c else 0 }) := by
  rcases hL : t.Listener env n with ⟨t1, w1, r⟩
  cases r with
  | error e => simp [TLSFlg.Serve, hL, Except.map]
  | ok l =>
    simp only [TLSFlg.Serve, hL, hcb]
    by_cases hc : c > 0 <;> by_cases hh : t1.Handler = Handler.nil <;>
      simp only [hc, hh, if_true, if_false, lt_irrefl, ne_eq, not_true_eq_false,
        not_false_eq_true] <;>
      (repeat' split) <;> simp_all [Except.map]

/-- C15. The deadline handed to the `Shutdown` of every started server is the
timeout of one context, 15 seconds (15,000,000,000 ns), whatever the cleanup
timeout of the manager and however many servers there are: `handleShutdown`
does the same for every value of `CleanupTimeout`, and there is one deadline
for all servers. The cleanup timeout only sets the idle timeout of the
protocol servers, and only when positive. -/
theorem shutdown_grace_is_fifteen_seconds (env : Env) (s : defaultServer) (w : World)
    (servers : List HttpServer) (srvShutdown : Nat → HttpServer → Option String)
    (first : Nat → Nat) (c : Duration) (d : ServerListener) (sc : ServerConfig) (n : Net) :
    ({ s with CleanupTimeout := c } : defaultServer).handleShutdown w servers srvShutdown first
        = s.handleShutdown w servers srvShutdown first
      ∧ (s.shutdown = Chan.closed →
          (s.handleShutdown w servers srvShutdown first).1.srvShutdowns
            = w.srvShutdowns ++ servers.map (fun x => (x, 15000000000)))
      ∧ shutdownTimeout = 15 * Second
      ∧ (sc.Callbacks = none →
          (d.Serve env { sc with CleanupTimeout := c } n).2.2
            = ((d.Serve env { sc with CleanupTimeout := 0 } n).2.2).map
                (fun srv => { srv with IdleTimeout := if c > 0 then c else 0 })) := by
  refine ⟨rfl, ?_, rfl, ?_⟩
  · intro hfired
    have h15 : shutdownTimeout = 15000000000 := by decide
    simp only [defaultServer.handleShutdown, hfired, h15]
    split
    · split_ifs <;> rfl
    · split <;> rfl
  · intro hcb
    cases d with
    | http h => exact httpServe_idle env h sc n c hcb
    | tls t => exact tlsServe_idle env t sc n c hcb

/-! ## The composite hook -/

theorem configureTLSLoop_eq (hs : List Hook) (i : Nat) (cfg : TLSConfig)
    (log : List (Nat × TLSConfig)) :
    configureTLSLoop hs i cfg log
      = (hs.foldl (fun c h => h.ConfigureTLS c) cfg,
          log ++ (List.range hs.length).map
            (fun k => (i + k, (hs.take k).foldl (fun c h => h.ConfigureTLS c) cfg))) := by
  induction hs generalizing i cfg log with
  | nil => simp [configureTLSLoop]
  | cons h hs ih =>
    simp only [configureTLSLoop, ih, List.foldl_cons, List.length_cons, List.range_succ_eq_map,
      List.map_cons, List.map_map, List.append_assoc, List.singleton_append, List.take_zero,
      List.foldl_nil, Nat.add_zero]
    congr 2
    congr 1
    apply List.map_congr_left
    intro k _
    simp only [Function.comp, List.take_succ_cons, List.foldl_cons]
    congr 1
    omega

theorem configureListenerLoop_eq (hs : List Hook) (i : Nat) (srv : HttpServer)
    (scheme addr : String) (log : List (Nat × HttpServer × String × String)) :
    configureListenerLoop hs i srv scheme addr log
      = (hs.foldl (fun x h => h.ConfigureListener x scheme addr) srv,
          log ++ (List.range hs.length).map
            (fun k => (i + k,
              (hs.take k).foldl (fun x h => h.ConfigureListener x scheme addr) srv,
              scheme, addr))) := by
  induction hs generalizing i srv log with
  | nil => simp [configureListenerLoop]
  | cons h hs ih =>
    simp only [configureListenerLoop, ih, List.foldl_cons, List.length_cons,
      List.range_succ_eq_map, List.map_cons, List.map_map, List.append_assoc,
      List.singleton_append, List.take_zero, List.foldl_nil, Nat.add_zero]
    congr 2
    congr 1
    apply List.map_congr_left
    intro k _
    simp only [Function.comp, List.take_succ_cons, List.foldl_cons]
    congr 1
    omega

/-- C11. The hook `Hooks(h1, ..., hn)` registers is the composite of
`h1, ..., hn`. Its `ConfigureTLS(cfg)` invokes the members at positions
0, 1, ..., n-1, each exactly once and in this order, each on the configuration
as the members before it left it, and the configuration after is the left fold
of the members' adjustments over `cfg`. Its `ConfigureListener` does the same
on the server, handing every member the same scheme and address. For two
members, what the first one sets in a field the second one leaves alone is
still there at the end, next to what the second one did. -/
theorem Hooks_composite_runs_members_in_order (hook : Hook) (extra : List Hook) (o : options)
    (cfg : TLSConfig) (srv : HttpServer) (scheme addr : String) :
    (Hooks hook extra o).callbacks = some (compositeHook.toHook ⟨hook :: extra⟩)
      ∧ (compositeHook.toHook ⟨hook :: extra⟩).ConfigureTLS cfg
          = (hook :: extra).foldl (fun c h => h.ConfigureTLS c) cfg
      ∧ (configureTLSLoop (hook :: extra) 0 cfg []).2
          = (List.range (hook :: extra).length).map
              (fun k => (k, ((hook :: extra).take k).foldl (fun c h => h.ConfigureTLS c) cfg))
      ∧ ((configureTLSLoop (hook :: extra) 0 cfg []).2.map Prod.fst
          = List.range (hook :: extra).length)
      ∧ (compositeHook.toHook ⟨hook :: extra⟩).ConfigureListener srv scheme addr
          = (hook :: extra).foldl (fun x h => h.ConfigureListener x scheme addr) srv
      ∧ (configureListenerLoop (hook :: extra) 0 srv scheme addr []).2
          = (List.range (hook :: extra).length).map
              (fun k => (k,
                ((hook :: extra).take k).foldl (fun x h => h.ConfigureListener x scheme addr) srv,
                scheme, addr))
      ∧ (∀ a b : Hook, (compositeHook.toHook ⟨[a, b]⟩).ConfigureTLS cfg
            = b.ConfigureTLS (a.ConfigureTLS cfg)
          ∧ ∀ (α : Type) (f : TLSConfig → α), (∀ c, f (b.ConfigureTLS c) = f c) →
              f ((compositeHook.toHook ⟨[a, b]⟩).ConfigureTLS cfg) = f (a.ConfigureTLS cfg)) := by
  have hT : ∀ hs : List Hook, (compositeHook.toHook ⟨hs⟩).ConfigureTLS cfg
      = hs.foldl (fun c h => h.ConfigureTLS c) cfg := by
    intro hs
    simp only [compositeHook.toHook, compositeHook.ConfigureTLS, configureTLSLoop_eq]
  refine ⟨rfl, hT _, ?_, ?_, ?_, ?_, ?_⟩
  · rw [configureTLSLoop_eq]
    simp
  · rw [configureTLSLoop_eq]
    simp only [List.nil_append, List.map_map, Nat.zero_add]
    have hid : (Prod.fst ∘ fun k => (k, List.foldl (fun c h => h.ConfigureTLS c) cfg
        (List.take k (hook :: extra)))) = (id : Nat → Nat) := rfl
    rw [hid, List.map_id]
  · simp only [compositeHook.toHook, compositeHook.ConfigureListener, configureListenerLoop_eq]
  · rw [configureListenerLoop_eq]
    simp
  · intro a b
    refine ⟨by rw [hT]; rfl, ?_⟩
    intro α f hf
    rw [hT]
    exact hf _

/-! ## The interrupt handler -/

theorem interruptStep_skips (r : InterruptState) (sig : Nat)
    (h : r.s.interrupted = true) : interruptStep r sig = r := by
  unfold interruptStep
  cases r.panicked <;> simp [h]

theorem foldl_interruptStep_skips (signals : List Nat) (r : InterruptState)
    (h : r.s.interrupted = true) : signals.foldl interruptStep r = r := by
  induction signals with
  | nil => rfl
  | cons sig more ih => rw [List.foldl_cons, interruptStep_skips r sig h, ih]

/-- The first signal on a manager that was not interrupted: the handler logs,
sets the flag and calls `Shutdown()`, which returns nil. -/
theorem interruptStep_first (s : defaultServer) (w : World) (sig : Nat)
    (hint : s.interrupted = false) (htrig : s.shuttingDown = 0 → s.shutdown = Chan.opened) :
    interruptStep { s := s, w := w } sig
      = { s := ({ s with interrupted := true } : defaultServer).Shutdown.1
          w := { w with net := { w.net with
            logs := w.net.logs ++ [⟨s.opts.logger, false, "Shutting down... "⟩] } }
          shutdownCalls := 1 }
      ∧ ({ s with interrupted := true } : defaultServer).Shutdown.1.interrupted = true
      ∧ ({ s with interrupted := true } : defaultServer).Shutdown.1.shuttingDown ≠ 0
      ∧ (s.shuttingDown = 0 →
          ({ s with interrupted := true } : defaultServer).Shutdown.1.shutdown = Chan.closed) := by
  by_cases h0 : s.shuttingDown = 0
  · have hc := htrig h0
    have hS : ({ s with interrupted := true } : defaultServer).Shutdown
        = ({ s with interrupted := true, shuttingDown := 1, shutdown := Chan.closed },
            .returned none) := by
      simp [defaultServer.Shutdown, h0, hc]
    refine ⟨?_, ?_, ?_, ?_⟩
    · simp only [interruptStep, hint, hS]
      rfl
    · rw [hS]
    · rw [hS]; simp
    · intro _; rw [hS]
  · have hS : ({ s with interrupted := true } : defaultServer).Shutdown
        = ({ s with interrupted := true }, .returned none) := by
      simp [defaultServer.Shutdown, h0]
    refine ⟨?_, ?_, ?_, ?_⟩
    · simp only [interruptStep, hint, hS]
      rfl
    · rw [hS]
    · rw [hS]; exact h0
    · intro h; exact absurd h h0

/-- C12. On a manager that was not interrupted before, the interrupt handler
calls `Shutdown()` for the first signal it receives and for no other: after
the first signal the `interrupted` flag is true and stays true, a later signal
changes nothing (no log line, no call), so after any sequence of signals the
handler has called `Shutdown()` min(1, number of signals) times and has
logged once if there was a signal. -/
theorem handleInterrupt_first_signal_only (s : defaultServer) (w : World) (signals : List Nat)
    (hint : s.interrupted = false) (htrig : s.shuttingDown = 0 → s.shutdown = Chan.opened) :
    (handleInterrupt {} s w signals).shutdownCalls = min 1 signals.length
      ∧ (handleInterrupt {} s w signals).panicked = none
      ∧ (signals ≠ [] → (handleInterrupt {} s w signals).s.interrupted = true
          ∧ (handleInterrupt {} s w signals).s.shuttingDown ≠ 0)
      ∧ (handleInterrupt {} s w signals).w.net.logs
          = w.net.logs ++ (if signals = [] then []
              else [⟨s.opts.logger, false, "Shutting down... "⟩])
      ∧ (∀ sig more, handleInterrupt {} s w (sig :: more) = handleInterrupt {} s w [sig]) := by
  have hone : ∀ sig more, handleInterrupt {} s w (sig :: more)
      = { s := ({ s with interrupted := true } : defaultServer).Shutdown.1
          w := { w with net := { w.net with
            logs := w.net.logs ++ [⟨s.opts.logger, false, "Shutting down... "⟩] } }
          shutdownCalls := 1 } := by
    intro sig more
    obtain ⟨h1, h2, -, -⟩ := interruptStep_first s w sig hint htrig
    have hdone : ({} : Once).done = false := rfl
    simp only [handleInterrupt, hdone, Bool.false_eq_true, if_false, List.foldl_cons]
    rw [h1]
    exact foldl_interruptStep_skips more _ h2
  cases signals with
  | nil =>
    refine ⟨rfl, rfl, fun h => absurd rfl h, by simp [handleInterrupt], ?_⟩
    intro sig more
    rw [hone sig more, hone sig []]
  | cons sig more =>
    obtain ⟨-, h2, h3, -⟩ := interruptStep_first s w sig hint htrig
    rw [hone sig more]
    refine ⟨by simp, rfl, fun _ => ⟨h2, h3⟩, by simp, ?_⟩
    intro sig1 more1
    rw [hone sig1 more1, hone sig1 []]

/-- Witness of C12: three signals on a new manager. -/
theorem handleInterrupt_first_signal_only_witness :
    (handleInterrupt {} (New {} []) tlsSystemWorld [2, 15, 2]).shutdownCalls = 1
      ∧ (handleInterrupt {} (New {} []) tlsSystemWorld [2, 15, 2]).s.interrupted = true := by
  have h := handleInterrupt_first_signal_only (New {} []) tlsSystemWorld [2, 15, 2] rfl
    (fun _ => rfl)
  exact ⟨h.1, (h.2.2.1 (by simp)).1⟩

/-! ## Which descriptors Serve starts, and with which hook -/

theorem failFast_cases {σ α β : Type} (step : σ → α → σ) (res : σ → α → Except String β)
    (xs : List α) (w : σ) (acc : List β) :
    (∃ bs, failFast step res xs w acc = (xs.foldl step w, acc ++ bs, none)
        ∧ bs.length = xs.length)
      ∨ (∃ k e bs, k < xs.length
        ∧ failFast step res xs w acc = ((xs.take (k + 1)).foldl step w, acc ++ bs, some e)
        ∧ bs.length = k) := by
  induction xs generalizing w acc with
  | nil => exact Or.inl ⟨[], by simp [failFast], rfl⟩
  | cons x xs ih =>
    cases hr : res w x with
    | error e => exact Or.inr ⟨0, e, [], by simp, by simp [failFast, hr], rfl⟩
    | ok b =>
      rcases ih (step w x) (acc ++ [b]) with ⟨bs, h1, h2⟩ | ⟨k, e, bs, hk, h1, h2⟩
      · exact Or.inl ⟨b :: bs, by simp [failFast, hr, h1], by simp [h2]⟩
      · exact Or.inr ⟨k + 1, e, b :: bs, by simp [hk], by simp [failFast, hr, h1],
          by simp [h2]⟩

theorem filter_isServe_serve (xs : List (Ptr × ServerConfig)) :
    (xs.map (fun x => Call.serve x.1 x.2)).filter Call.isServe
      = xs.map (fun x => Call.serve x.1 x.2) := by
  induction xs with
  | nil => rfl
  | cons x xs ih => simp [Call.isServe, ih]

theorem serveStart_calls (env : Env) (s : defaultServer) (w : World) :
    (s.serveStart env w).calls.filter Call.isServe = w.calls.filter Call.isServe := by
  by_cases hlis : s.listening = true
  · simp [defaultServer.serveStart, hlis]
  · obtain ⟨n, hn⟩ := Listen_world env s w
    simp only [defaultServer.serveStart, hlis, Bool.false_eq_true, if_false]
    rw [hn, calls_foldl_bindStep, filter_isServe_listener]

/-- `Serve()` when the manager is not listening and `Listen()` fails. -/
theorem Serve_of_Listen_error (env : Env) (s : defaultServer) (w : World)
    (waitErr : Option String) (e : String) (hlis : s.listening = false)
    (herr : (s.Listen env w).2.2 = some e) :
    s.Serve env w waitErr = ⟨(s.Listen env w).1, (s.Listen env w).2.1, [], some e⟩ := by
  simp only [defaultServer.Serve, hlis, Bool.not_false, if_true]
  rcases hL : s.Listen env w with ⟨s1, w1, r⟩
  rw [hL] at herr
  simp only at herr
  subst herr
  rfl

/-- The `Serve` calls `Serve()` makes are the calls of the first `k` entries
of the serve plan, for some `k`; when it has collected a handle for every
entry of the plan, they are the calls of the whole plan. -/
theorem Serve_calls (env : Env) (s : defaultServer) (w : World) (waitErr : Option String) :
    (∃ k, (s.Serve env w waitErr).w.calls.filter Call.isServe
        = w.calls.filter Call.isServe
          ++ ((s.servePlan w).take k).map (fun x => Call.serve x.1 x.2))
      ∧ ((s.Serve env w waitErr).servers.length = (s.servePlan w).length →
          (s.Serve env w waitErr).w.calls.filter Call.isServe
            = w.calls.filter Call.isServe
              ++ (s.servePlan w).map (fun x => Call.serve x.1 x.2)) := by
  by_cases hl : s.listening = true ∨ (s.Listen env w).2.2 = none
  · obtain ⟨hw, hs, -⟩ := Serve_eq env s w waitErr hl
    rcases failFast_cases (serveStep env) (serveResult env) (s.servePlan w)
      (s.serveStart env w) [] with ⟨bs, h1, h2⟩ | ⟨k, e, bs, hk, h1, h2⟩
    · rw [h1] at hw hs
      have hall : (s.Serve env w waitErr).w.calls.filter Call.isServe
          = w.calls.filter Call.isServe
            ++ (s.servePlan w).map (fun x => Call.serve x.1 x.2) := by
        rw [hw, calls_foldl_serveStep, List.filter_append, serveStart_calls,
          filter_isServe_serve]
      exact ⟨⟨(s.servePlan w).length, by rw [List.take_length]; exact hall⟩, fun _ => hall⟩
    · rw [h1] at hw hs
      simp only [List.nil_append] at hs
      refine ⟨⟨k + 1, ?_⟩, ?_⟩
      · rw [hw, calls_foldl_serveStep, List.filter_append, serveStart_calls,
          filter_isServe_serve]
      · intro hlen
        rw [hs, h2] at hlen
        omega
  · have hlis : s.listening = false := by
      cases h : s.listening
      · rfl
      · exact absurd (Or.inl h) hl
    obtain ⟨e, he⟩ : ∃ e, (s.Listen env w).2.2 = some e := by
      cases h : (s.Listen env w).2.2 with
      | none => exact absurd (Or.inr h) hl
      | some e => exact ⟨e, rfl⟩
    obtain ⟨n, hn⟩ := Listen_world env s w
    have hcalls : (s.Serve env w waitErr).w.calls.filter Call.isServe
        = w.calls.filter Call.isServe := by
      rw [Serve_of_Listen_error env s w waitErr e hlis he]
      simp only [hn, calls_foldl_bindStep, filter_isServe_listener]
    refine ⟨⟨0, by simp [hcalls]⟩, ?_⟩
    intro hlen
    rw [Serve_of_Listen_error env s w waitErr e hlis he] at hlen
    simp only [List.length_nil] at hlen
    have hnil : s.servePlan w = [] := List.length_eq_zero.1 hlen.symm
    rw [hcalls, hnil]
    simp

/-- C18. The configuration `Serve()` hands to every system descriptor has no
hook, whatever hook is registered, and the one it hands to every enabled
regular descriptor carries the registered hook: the `Serve` calls it makes are
calls of entries of the serve plan, whose regular entries have the regular
configuration and whose system entries have the system configuration. This
holds in particular for the composite hook that `Hooks(...)` registers. A
system descriptor is therefore served the same whatever the hook is: no
`ConfigureTLS` or `ConfigureListener` of a hook runs for it. -/
theorem system_listeners_get_no_hook (env : Env) (s : defaultServer) (w : World)
    (waitErr : Option String) (d : ServerListener) (n : Net) (cb : Option Hook)
    (hook : Hook) (extra : List Hook) (g : Globals) (opts : List ServerOption) :
    s.systemConfig.Callbacks = none
      ∧ s.regularConfig.Callbacks = s.opts.callbacks
      ∧ s.servePlan w
          = (s.opts.listeners.filter (fun p => s.hasScheme (w.heap p).Scheme)).map
              (fun p => (p, s.regularConfig))
            ++ s.opts.systemListeners.map (fun p => (p, s.systemConfig))
      ∧ (∃ k, (s.Serve env w waitErr).w.calls.filter Call.isServe
          = w.calls.filter Call.isServe
            ++ ((s.servePlan w).take k).map (fun x => Call.serve x.1 x.2))
      ∧ ({ s with opts := { s.opts with callbacks := cb } } : defaultServer).systemConfig
          = s.systemConfig
      ∧ d.Serve env
            ({ s with opts := { s.opts with callbacks := cb } } : defaultServer).systemConfig n
          = d.Serve env s.systemConfig n
      ∧ (New g (opts ++ [Hooks hook extra])).regularConfig.Callbacks
          = some (compositeHook.toHook ⟨hook :: extra⟩)
      ∧ (New g (opts ++ [Hooks hook extra])).systemConfig.Callbacks = none := by
  refine ⟨rfl, rfl, rfl, (Serve_calls env s w waitErr).1, rfl, rfl, ?_, rfl⟩
  have hcb : (newDefaultWithOptions g (opts ++ [Hooks hook extra])).callbacks
      = some (compositeHook.toHook ⟨hook :: extra⟩) := by
    simp only [newDefaultWithOptions, List.foldl_append, List.foldl_cons, List.foldl_nil]
    rfl
  simp only [defaultServer.regularConfig, New]
  cases hh : (newDefaultWithOptions g (opts ++ [Hooks hook extra])).hsts <;> simp [hcb]

/-! ## The enabled schemes -/

theorem foldl_update_true (l : List String) (m : String → Bool) (x : String) :
    (l.foldl (fun m v => Function.update m v true) m) x = true ↔ x ∈ l ∨ m x = true := by
  induction l generalizing m with
  | nil => simp
  | cons v l ih =>
    rw [List.foldl_cons, ih]
    by_cases hx : x = v
    · subst hx; simp
    · simp [Function.update_noteq hx, hx]

theorem tls_scheme_ne_http (t : TLSFlg) : (ServerListener.tls t).Scheme ≠ "http" := by
  have h : (ServerListener.tls t).Scheme = "https" := rfl
  rw [h]
  decide

theorem hasScheme_iff (s : defaultServer) (x : String) :
    s.hasScheme x = true
      ↔ if s.opts.EnabledListeners = [] then x = "http" else x ∈ s.opts.EnabledListeners := by
  simp only [defaultServer.hasScheme, foldl_update_true]
  by_cases h : s.opts.EnabledListeners = []
  · simp [h, defaultSchemes, SchemeHTTP]
  · have hlen : ¬ s.opts.EnabledListeners.length = 0 := by
      simpa [List.length_eq_zero] using h
    simp [h, hlen]

theorem enabled_default (s : defaultServer) (w : World) (h : s.opts.EnabledListeners = []) :
    s.enabled w = fun p => decide ((w.heap p).Scheme = "http") := by
  funext p
  rw [Bool.eq_iff_iff]
  simp only [defaultServer.enabled, hasScheme_iff, h, if_true, decide_eq_true_eq]

theorem Listen_calls (env : Env) (s : defaultServer) (w : World) :
    (∃ k, (s.Listen env w).2.1.calls
        = w.calls ++ ((s.listenTargets w).take k).map Call.listener)
      ∧ ((s.Listen env w).2.2 = none →
          (s.Listen env w).2.1.calls = w.calls ++ (s.listenTargets w).map Call.listener) := by
  have hnone : (s.Listen env w).2.2
      = (failFast (bindStep env) (bindResult env) (s.listenTargets w) w []).2.2 := by
    rw [Listen_eq]
    cases h : (failFast (bindStep env) (bindResult env) (s.listenTargets w) w []).2.2 <;> rfl
  have hw : (s.Listen env w).2.1
      = (failFast (bindStep env) (bindResult env) (s.listenTargets w) w []).1 := by
    rw [Listen_eq]
    cases h : (failFast (bindStep env) (bindResult env) (s.listenTargets w) w []).2.2 <;> rfl
  constructor
  · obtain ⟨n, hn⟩ := Listen_world env s w
    exact ⟨n, by rw [hn, calls_foldl_bindStep]⟩
  · intro h
    rw [hnone] at h
    obtain ⟨bs, h1, -, -⟩ := failFast_all (bindStep env) (bindResult env) (s.listenTargets w) w []
      (failFast_none (bindStep env) (bindResult env) (s.listenTargets w) w [] h)
    rw [hw, h1, calls_foldl_bindStep]

/-- The calls `Serve()` has made before it starts the descriptors are those of
`Listen()`, if it called it: `Listener()` calls on the first `n` descriptors
of the iteration of `Listen()`, for some `n`. -/
theorem serveStart_calls_shape (env : Env) (s : defaultServer) (w : World) :
    ∃ n, (s.serveStart env w).calls
      = w.calls ++ ((s.listenTargets w).take n).map Call.listener := by
  by_cases hlis : s.listening = true
  · exact ⟨0, by simp [defaultServer.serveStart, hlis]⟩
  · obtain ⟨n, hn⟩ := Listen_world env s w
    refine ⟨n, ?_⟩
    simp only [defaultServer.serveStart, hlis, Bool.false_eq_true, if_false]
    rw [hn, calls_foldl_bindStep]

/-- Every call `Serve()` makes, in every run: `Listener()` calls on the first
`n` descriptors of the iteration of `Listen()`, then `Serve` calls on the
first `k` entries of the serve plan. -/
theorem Serve_calls_shape (env : Env) (s : defaultServer) (w : World)
    (waitErr : Option String) :
    ∃ n k, (s.Serve env w waitErr).w.calls
      = w.calls ++ (((s.listenTargets w).take n).map Call.listener
          ++ ((s.servePlan w).take k).map (fun x => Call.serve x.1 x.2)) := by
  by_cases hl : s.listening = true ∨ (s.Listen env w).2.2 = none
  · obtain ⟨hw, -, -⟩ := Serve_eq env s w waitErr hl
    obtain ⟨k, hk⟩ := failFast_world (serveStep env) (serveResult env) (s.servePlan w)
      (s.serveStart env w) []
    obtain ⟨n, hn⟩ := serveStart_calls_shape env s w
    exact ⟨n, k, by rw [hw, hk, calls_foldl_serveStep, hn, List.append_assoc]⟩
  · have hlis : s.listening = false := by
      cases h : s.listening
      · rfl
      · exact absurd (Or.inl h) hl
    obtain ⟨e, he⟩ : ∃ e, (s.Listen env w).2.2 = some e := by
      cases h : (s.Listen env w).2.2 with
      | none => exact absurd (Or.inr h) hl
      | some e => exact ⟨e, rfl⟩
    obtain ⟨n, hn⟩ := Listen_world env s w
    refine ⟨n, 0, ?_⟩
    rw [Serve_of_Listen_error env s w waitErr e hlis he]
    simp only [hn, calls_foldl_bindStep, List.take_zero, List.map_nil, List.append_nil]

/-- `Serve()` when `Listen()` has succeeded and every `Serve` of the plan
succeeds: it returns what the wait on the group returns, holds one handle per
entry of the plan, and has called `Serve` on the whole plan. -/
theorem Serve_success (env : Env) (s : defaultServer) (w : World) (waitErr : Option String)
    (hl : s.listening = true ∨ (s.Listen env w).2.2 = none)
    (hok : ∀ i x, (s.servePlan w)[i]? = some x →
      ∃ hs, serveResult env (((s.servePlan w).take i).foldl (serveStep env)
        (s.serveStart env w)) x = .ok hs) :
    (s.Serve env w waitErr).err = waitErr
      ∧ (s.Serve env w waitErr).servers.length = (s.servePlan w).length
      ∧ ∃ n, (s.Serve env w waitErr).w.calls
          = w.calls ++ (((s.listenTargets w).take n).map Call.listener
              ++ (s.servePlan w).map (fun x => Call.serve x.1 x.2)) := by
  obtain ⟨hw, hs, he⟩ := Serve_eq env s w waitErr hl
  obtain ⟨bs, h1, h2, -⟩ := failFast_all (serveStep env) (serveResult env) (s.servePlan w)
    (s.serveStart env w) [] hok
  rw [h1] at hw hs he
  simp only [List.nil_append] at hs
  obtain ⟨n, hn⟩ := serveStart_calls_shape env s w
  exact ⟨he, by rw [hs, h2], n, by rw [hw, calls_foldl_serveStep, hn, List.append_assoc]⟩

/-- `Listen()` when every bind of its iteration succeeds: it returns nil, sets
`listening`, has called `Listener()` on the whole iteration, and every
descriptor of the iteration stores a listener afterwards. -/
theorem Listen_success (env : Env) (s : defaultServer) (w : World)
    (hok : ∀ i q, (s.listenTargets w)[i]? = some q →
      ∃ l, bindResult env (((s.listenTargets w).take i).foldl (bindStep env) w) q = .ok l) :
    (s.Listen env w).2.2 = none
      ∧ (s.Listen env w).1.listening = true
      ∧ (s.Listen env w).2.1.calls = w.calls ++ (s.listenTargets w).map Call.listener
      ∧ ∀ p ∈ s.listenTargets w, ∃ l, ((s.Listen env w).2.1.heap p).listener = some l := by
  obtain ⟨bs, h1, -, -⟩ := failFast_all (bindStep env) (bindResult env) (s.listenTargets w) w []
    hok
  have hL : s.Listen env w
      = ({ s with listening := true }, (s.listenTargets w).foldl (bindStep env) w, none) := by
    rw [Listen_eq, h1]
  rw [hL]
  refine ⟨rfl, rfl, calls_foldl_bindStep env _ w, ?_⟩
  intro p hp
  obtain ⟨i, hi⟩ := List.mem_iff_getElem?.1 hp
  obtain ⟨l, hl⟩ := hok i p hi
  have hlt : i < (s.listenTargets w).length := (List.getElem?_eq_some.1 hi).1
  obtain ⟨rest, hrest⟩ := take_split (s.listenTargets w) i (s.listenTargets w).length p hi hlt
  rw [List.take_length] at hrest
  have hst := bindStep_stores env _ p l hl
  have hkeep := foldl_bindStep_keeps env rest _ p l hst.1 hst.2
  refine ⟨l, ?_⟩
  have hfin : (s.listenTargets w).foldl (bindStep env) w
      = rest.foldl (bindStep env)
          (bindStep env (((s.listenTargets w).take i).foldl (bindStep env) w) p) := by
    conv_lhs => rw [hrest]
    rw [List.foldl_append, List.foldl_cons]
  show (((s.listenTargets w).foldl (bindStep env) w).heap p).listener = some l
  rw [hfin]
  exact hkeep.2

/-- C19. `hasScheme(x)` is true exactly when `x` occurs in the options'
`EnabledListeners`, if that list is not empty, and exactly when `x` is `http`
if it is empty. So with no scheme enabled explicitly, the descriptors
`Listen()` iterates over without skipping are the plain ones, and the regular
descriptors in the serve plan are the plain ones. In every run, no call that
`Listen()` or `Serve()` makes is a `Listener()` call on a TLS descriptor, and
`Serve()` makes no `Serve` call on a TLS descriptor that is not also a system
descriptor. When every bind of the plain descriptors succeeds, `Listen()`
returns nil, whatever the skipped TLS descriptors would do, and has called
`Listener()` on every regular plain descriptor, which stores a listener
afterwards. When `Listen()` has succeeded and every `Serve` of the plan
succeeds, `Serve()` has no startup error (it returns what the wait on the
group returns), holds one handle per entry of the plan, and has called `Serve`
with the regular configuration on every regular plain descriptor. -/
theorem hasScheme_default_is_http (env : Env) (s : defaultServer) (w : World)
    (waitErr : Option String) :
    (∀ x, s.hasScheme x = true
        ↔ if s.opts.EnabledListeners = [] then x = "http" else x ∈ s.opts.EnabledListeners)
      ∧ (s.opts.EnabledListeners = [] →
        s.listenTargets w
            = (s.opts.listeners ++ s.opts.systemListeners).filter
                (fun p => decide ((w.heap p).Scheme = "http"))
          ∧ s.servePlan w
            = (s.opts.listeners.filter (fun p => decide ((w.heap p).Scheme = "http"))).map
                (fun p => (p, s.regularConfig))
              ++ s.opts.systemListeners.map (fun p => (p, s.systemConfig))
          ∧ (∀ p t, w.heap p = ServerListener.tls t →
              p ∉ s.listenTargets w
              ∧ (p ∉ s.opts.systemListeners → ∀ sc, (p, sc) ∉ s.servePlan w))
          ∧ (∀ p h, w.heap p = ServerListener.http h → p ∈ s.opts.listeners →
              p ∈ s.listenTargets w ∧ (p, s.regularConfig) ∈ s.servePlan w)
          ∧ (∀ p t, w.heap p = ServerListener.tls t →
              Call.listener p ∉ (s.Listen env w).2.1.calls.drop w.calls.length
              ∧ Call.listener p ∉ (s.Serve env w waitErr).w.calls.drop w.calls.length
              ∧ (p ∉ s.opts.systemListeners →
                  ∀ sc, Call.serve p sc
                    ∉ (s.Serve env w waitErr).w.calls.drop w.calls.length))
          ∧ ((∀ i q, (s.listenTargets w)[i]? = some q →
                ∃ l, bindResult env (((s.listenTargets w).take i).foldl (bindStep env) w) q
                  = .ok l) →
              (s.Listen env w).2.2 = none
              ∧ (s.Listen env w).1.listening = true
              ∧ (s.Listen env w).2.1.calls.drop w.calls.length
                  = (s.listenTargets w).map Call.listener
              ∧ ∀ p h, w.heap p = ServerListener.http h → p ∈ s.opts.listeners →
                  Call.listener p ∈ (s.Listen env w).2.1.calls.drop w.calls.length
                  ∧ ∃ l, ((s.Listen env w).2.1.heap p).listener = some l)
          ∧ ((s.listening = true ∨ (s.Listen env w).2.2 = none) →
              (∀ i x, (s.servePlan w)[i]? = some x →
                ∃ hs, serveResult env (((s.servePlan w).take i).foldl (serveStep env)
                  (s.serveStart env w)) x = .ok hs) →
              (s.Serve env w waitErr).err = waitErr
              ∧ (s.Serve env w waitErr).servers.length = (s.servePlan w).length
              ∧ ((s.Serve env w waitErr).w.calls.drop w.calls.length).filter Call.isServe
                  = (s.servePlan w).map (fun x => Call.serve x.1 x.2)
              ∧ ∀ p h, w.heap p = ServerListener.http h → p ∈ s.opts.listeners →
                  Call.serve p s.regularConfig
                    ∈ (s.Serve env w waitErr).w.calls.drop w.calls.length)) := by
  refine ⟨hasScheme_iff s, ?_⟩
  intro hempty
  have hen := enabled_default s w hempty
  have hT : s.listenTargets w
      = (s.opts.listeners ++ s.opts.systemListeners).filter
          (fun p => decide ((w.heap p).Scheme = "http")) := by
    simp only [defaultServer.listenTargets, hen]
  have hP : s.servePlan w
      = (s.opts.listeners.filter (fun p => decide ((w.heap p).Scheme = "http"))).map
          (fun p => (p, s.regularConfig))
        ++ s.opts.systemListeners.map (fun p => (p, s.systemConfig)) := by
    simp only [defaultServer.servePlan, hen]
  have hskip : ∀ p t, w.heap p = ServerListener.tls t →
      p ∉ s.listenTargets w
      ∧ (p ∉ s.opts.systemListeners → ∀ sc, (p, sc) ∉ s.servePlan w) := by
    intro p t hp
    have hsch : (w.heap p).Scheme ≠ "http" := by
      rw [hp]; exact tls_scheme_ne_http t
    refine ⟨?_, ?_⟩
    · rw [hT]
      simp [hsch]
    · intro hsys sc
      rw [hP]
      simp only [List.mem_append, List.mem_map, List.mem_filter, decide_eq_true_eq, Prod.mk.injEq,
        not_or, not_exists, not_and]
      refine ⟨?_, ?_⟩
      · intro q hq hqp _
        rw [hqp] at hq
        exact absurd hq.2 hsch
      · intro q hq hqp _
        rw [hqp] at hq
        exact absurd hq hsys
  have hin : ∀ p h, w.heap p = ServerListener.http h → p ∈ s.opts.listeners →
      p ∈ s.listenTargets w ∧ (p, s.regularConfig) ∈ s.servePlan w := by
    intro p h hp hmem
    have hsch : (w.heap p).Scheme = "http" := by
      rw [hp]; rfl
    refine ⟨?_, ?_⟩
    · rw [hT]
      simp [hsch, hmem]
    · rw [hP]
      simp only [List.mem_append, List.mem_map, List.mem_filter, decide_eq_true_eq, Prod.mk.injEq]
      exact Or.inl ⟨p, ⟨hmem, hsch⟩, rfl, trivial⟩
  have hmemL : ∀ (p : Ptr) (qs : List Ptr), Call.listener p ∈ qs.map Call.listener → p ∈ qs := by
    intro p qs hm
    rw [List.mem_map] at hm
    obtain ⟨q, hq, he⟩ := hm
    injection he with he
    rw [← he]; exact hq
  have hmemS : ∀ (p : Ptr) (sc : ServerConfig) (xs : List (Ptr × ServerConfig)),
      Call.serve p sc ∈ xs.map (fun x => Call.serve x.1 x.2) → (p, sc) ∈ xs := by
    intro p sc xs hm
    rw [List.mem_map] at hm
    obtain ⟨x, hx, he⟩ := hm
    injection he with he1 he2
    have : x = (p, sc) := Prod.ext he1 he2
    rw [← this]; exact hx
  have hLS : ∀ (p : Ptr) (xs : List (Ptr × ServerConfig)),
      Call.listener p ∉ xs.map (fun x => Call.serve x.1 x.2) := by
    intro p xs hm
    rw [List.mem_map] at hm
    obtain ⟨x, -, he⟩ := hm
    cases he
  have hSL : ∀ (p : Ptr) (sc : ServerConfig) (qs : List Ptr),
      Call.serve p sc ∉ qs.map Call.listener := by
    intro p sc qs hm
    rw [List.mem_map] at hm
    obtain ⟨q, -, he⟩ := hm
    cases he
  refine ⟨hT, hP, hskip, hin, ?_, ?_, ?_⟩
  · intro p t hp
    obtain ⟨hnt, hnp⟩ := hskip p t hp
    obtain ⟨n, hn⟩ := (Listen_calls env s w).1
    obtain ⟨n1, k, hnk⟩ := Serve_calls_shape env s w waitErr
    rw [hn, hnk, List.drop_left, List.drop_left]
    refine ⟨?_, ?_, ?_⟩
    · intro hm
      exact hnt (List.mem_of_mem_take (hmemL p _ hm))
    · intro hm
      rcases List.mem_append.1 hm with h | h
      · exact hnt (List.mem_of_mem_take (hmemL p _ h))
      · exact hLS p _ h
    · intro hsys sc hm
      rcases List.mem_append.1 hm with h | h
      · exact hSL p sc _ h
      · exact hnp hsys sc (List.mem_of_mem_take (hmemS p sc _ h))
  · intro hok
    obtain ⟨h1, h2, h3, h4⟩ := Listen_success env s w hok
    have hdrop : (s.Listen env w).2.1.calls.drop w.calls.length
        = (s.listenTargets w).map Call.listener := by
      rw [h3, List.drop_left]
    refine ⟨h1, h2, hdrop, ?_⟩
    intro p h hp hmem
    have hpt := (hin p h hp hmem).1
    exact ⟨by rw [hdrop]; exact List.mem_map_of_mem _ hpt, h4 p hpt⟩
  · intro hl hok
    obtain ⟨h1, h2, n, h3⟩ := Serve_success env s w waitErr hl hok
    have hdrop : (s.Serve env w waitErr).w.calls.drop w.calls.length
        = ((s.listenTargets w).take n).map Call.listener
          ++ (s.servePlan w).map (fun x => Call.serve x.1 x.2) := by
      rw [h3, List.drop_left]
    refine ⟨h1, h2, ?_, ?_⟩
    · rw [hdrop, List.filter_append, filter_isServe_serve]
      have := filter_isServe_listener [] ((s.listenTargets w).take n)
      simp only [List.nil_append, List.filter_nil] at this
      rw [this, List.nil_append]
    · intro p h hp hmem
      rw [hdrop]
      apply List.mem_append_right
      exact List.mem_map_of_mem (fun x => Call.serve x.1 x.2) (hin p h hp hmem).2

/-- Witness of C19: a regular plain descriptor and a regular TLS descriptor
with no scheme enabled explicitly; only the plain one is started, and there is
no error. -/
theorem hasScheme_default_is_http_witness :
    (mixedServer.Serve freeEnv tlsSystemWorld none).err = none
      ∧ (mixedServer.Serve freeEnv tlsSystemWorld none).servers.length = 1
      ∧ ((mixedServer.Serve freeEnv tlsSystemWorld none).w.calls.drop
          tlsSystemWorld.calls.length).filter Call.isServe
          = [Call.serve 0 mixedServer.regularConfig] := by
  have h := ((hasScheme_default_is_http freeEnv mixedServer tlsSystemWorld none).2
    rfl).2.2.2.2.2.2 (Or.inr (by decide))
    (by
      intro i x hx
      have h0 : mixedServer.servePlan tlsSystemWorld = [(0, mixedServer.regularConfig)] := rfl
      rw [h0] at hx
      cases i with
      | zero =>
        simp only [List.getElem?_cons_zero, Option.some.injEq] at hx
        subst hx
        exact ⟨_, rfl⟩
      | succ i => simp at hx)
  exact ⟨h.1, h.2.1, h.2.2.1⟩

/-! ## Concurrent calls of Shutdown -/

/-- The two atomic steps of one caller, taken one after the other, are
`Shutdown()`. -/
theorem stepCaller_twice_eq_Shutdown (s : defaultServer) (w : World) :
    (((Race.init s w 1).stepCaller 0).stepCaller 0).s = s.Shutdown.1 := by
  by_cases h0 : s.shuttingDown = 0
  · cases hc : s.shutdown <;>
      simp [Race.init, Race.stepCaller, defaultServer.Shutdown, h0, hc]
  · simp [Race.init, Race.stepCaller, defaultServer.Shutdown, h0]

theorem count_set_of_getElem? (l : List CallerPc) (i : Nat) (old new x : CallerPc)
    (h : l[i]? = some old) :
    (l.set i new).count x + (if old = x then 1 else 0)
      = l.count x + (if new = x then 1 else 0) := by
  obtain ⟨hi, hget⟩ := List.getElem?_eq_some.1 h
  rw [List.count_set new x l i hi, hget]
  simp only [beq_iff_eq]
  have hpos : (if old = x then 1 else 0) ≤ l.count x := by
    by_cases hox : old = x
    · subst hox
      simp only [if_true]
      exact List.count_pos_iff.2 (List.getElem?_mem h)
    · simp [hox]
  split_ifs at hpos ⊢ <;> omega

theorem not_mem_set (l : List CallerPc) (i : Nat) (new x : CallerPc) (hx : x ∉ l)
    (hne : new ≠ x) : x ∉ l.set i new := by
  intro hm
  rcases List.mem_or_eq_of_mem_set hm with h | h
  · exact hx h
  · exact hne h.symm

theorem stepCaller_inv (r : Race) (i : Nat) (h : r.Inv) : (r.stepCaller i).Inv := by
  obtain ⟨hp, hph⟩ := h
  cases hpc : r.callers[i]? with
  | none => simpa [Race.stepCaller, hpc] using (⟨hp, hph⟩ : r.Inv)
  | some pc =>
    cases pc with
    | start =>
      have hcount := count_set_of_getElem? r.callers i CallerPc.start
      by_cases h0 : r.s.shuttingDown = 0
      · simp only [Race.stepCaller, hpc, h0, if_true]
        rcases hph with ⟨-, hall, hcl, hop⟩ | ⟨hne, -⟩ | ⟨hne, -⟩
        · refine ⟨not_mem_set _ _ _ _ hp (by decide), Or.inr (Or.inl ⟨by simp, ?_, hcl, hop⟩)⟩
          have hz : r.callers.count CallerPc.won = 0 := by
            rw [List.count_eq_zero]
            intro hm
            have := hall _ hm
            simp at this
          have := hcount CallerPc.won CallerPc.won hpc
          simp only [hz] at this
          simpa using this
        · exact absurd h0 hne
        · exact absurd h0 hne
      · simp only [Race.stepCaller, hpc, h0, if_false]
        have hc := hcount CallerPc.returned CallerPc.won hpc
        simp only [reduceCtorEq, if_false, Nat.add_zero] at hc
        refine ⟨not_mem_set _ _ _ _ hp (by decide), ?_⟩
        rcases hph with ⟨hz, -⟩ | ⟨hne, hw, hcl, hop⟩ | ⟨hne, hw, hcl, hop⟩
        · exact absurd hz h0
        · exact Or.inr (Or.inl ⟨hne, by rw [hc]; exact hw, hcl, hop⟩)
        · exact Or.inr (Or.inr ⟨hne, by rw [hc]; exact hw, hcl, hop⟩)
    | won =>
      have hmem : CallerPc.won ∈ r.callers := List.getElem?_mem hpc
      rcases hph with ⟨-, hall, -⟩ | ⟨hne, hw, hcl, hop⟩ | ⟨-, hw, -⟩
      · have := hall _ hmem
        simp at this
      · simp only [Race.stepCaller, hpc, hop]
        have hc := count_set_of_getElem? r.callers i CallerPc.won CallerPc.returned
          CallerPc.won hpc
        simp only [reduceCtorEq, if_false, if_true, Nat.add_zero] at hc
        refine ⟨not_mem_set _ _ _ _ hp (by decide), Or.inr (Or.inr ⟨hne, ?_, ?_, rfl⟩)⟩
        · show (r.callers.set i CallerPc.returned).count CallerPc.won = 0
          omega
        · show r.closes + 1 = 1
          omega
      · rw [List.count_eq_zero] at hw
        exact absurd hmem hw
    | returned => simpa [Race.stepCaller, hpc] using (⟨hp, hph⟩ : r.Inv)
    | panicked => simpa [Race.stepCaller, hpc] using (⟨hp, hph⟩ : r.Inv)

theorem stepCaller_frame (r : Race) (i : Nat) :
    (r.stepCaller i).w = r.w ∧ (r.stepCaller i).coordinator = r.coordinator
      ∧ (r.stepCaller i).callers.length = r.callers.length := by
  cases hpc : r.callers[i]? with
  | none => simp [Race.stepCaller, hpc]
  | some pc =>
    cases pc with
    | start => by_cases h0 : r.s.shuttingDown = 0 <;> simp [Race.stepCaller, hpc, h0]
    | won => cases hc : r.s.shutdown <;> simp [Race.stepCaller, hpc, hc]
    | returned => simp [Race.stepCaller, hpc]
    | panicked => simp [Race.stepCaller, hpc]

theorem handleShutdown_calls_le (s : defaultServer) (w : World) (servers : List HttpServer)
    (srvShutdown : Nat → HttpServer → Option String) (first : Nat → Nat) :
    (s.handleShutdown w servers srvShutdown first).1.onShutdownCalls ≤ w.onShutdownCalls + 1
      ∧ ((s.handleShutdown w servers srvShutdown first).2 = .blocked →
          (s.handleShutdown w servers srvShutdown first).1 = w) := by
  unfold defaultServer.handleShutdown
  cases s.shutdown with
  | opened => simp
  | closed =>
    simp only
    split
    · split_ifs <;> simp
    · split <;> simp

theorem stepCoordinator_frame (r : Race) (servers : List HttpServer)
    (srvShutdown : Nat → HttpServer → Option String) (first : Nat → Nat) :
    (r.stepCoordinator servers srvShutdown first).s = r.s
      ∧ (r.stepCoordinator servers srvShutdown first).callers = r.callers
      ∧ (r.stepCoordinator servers srvShutdown first).closes = r.closes := by
  unfold Race.stepCoordinator
  cases r.coordinator with
  | some e => simp
  | none =>
    simp only
    rcases r.s.handleShutdown r.w servers srvShutdown first with ⟨w1, e⟩
    cases e <;> simp

theorem stepCoordinator_coordInv (c0 : Nat) (r : Race) (servers : List HttpServer)
    (srvShutdown : Nat → HttpServer → Option String) (first : Nat → Nat)
    (h : r.CoordInv c0) : (r.stepCoordinator servers srvShutdown first).CoordInv c0 := by
  unfold Race.stepCoordinator
  cases hco : r.coordinator with
  | some e => simpa [hco] using h
  | none =>
    have hle := (handleShutdown_calls_le r.s r.w servers srvShutdown first).1
    have hc0 := h.1 hco
    simp only
    rcases hr : r.s.handleShutdown r.w servers srvShutdown first with ⟨w1, e⟩
    rw [hr] at hle
    simp only at hle
    cases e with
    | blocked => simpa [hco] using h
    | returned a => exact ⟨by simp, by simp only; omega⟩
    | panicked m => exact ⟨by simp, by simp only; omega⟩
    | exited c => exact ⟨by simp, by simp only; omega⟩

theorem run_inv (servers : List HttpServer) (srvShutdown : Nat → HttpServer → Option String)
    (first : Nat → Nat) (c0 : Nat) (turns : List Turn) (r : Race)
    (h : r.Inv) (hc : r.CoordInv c0) :
    (Race.run servers srvShutdown first r turns).Inv
      ∧ (Race.run servers srvShutdown first r turns).CoordInv c0
      ∧ (Race.run servers srvShutdown first r turns).callers.length = r.callers.length := by
  induction turns generalizing r with
  | nil => exact ⟨h, hc, rfl⟩
  | cons t turns ih =>
    simp only [Race.run, List.foldl_cons]
    cases t with
    | caller i =>
      obtain ⟨hw, hco, hlen⟩ := stepCaller_frame r i
      have hc1 : (r.stepCaller i).CoordInv c0 := by
        unfold Race.CoordInv
        rw [hw, hco]
        exact hc
      have := ih (r.stepCaller i) (stepCaller_inv r i h) hc1
      rw [hlen] at this
      exact this
    | coordinator =>
      obtain ⟨hs, hcal, hcl⟩ := stepCoordinator_frame r servers srvShutdown first
      have h1 : (r.stepCoordinator servers srvShutdown first).Inv := by
        unfold Race.Inv
        rw [hs, hcal, hcl]
        exact h
      have := ih _ h1 (stepCoordinator_coordInv c0 r servers srvShutdown first hc)
      rw [hcal] at this
      exact this

theorem stepCaller_callers (r : Race) (i : Nat) :
    (r.stepCaller i).callers = r.callers
      ∨ ∃ x, (r.stepCaller i).callers = r.callers.set i x := by
  cases hpc : r.callers[i]? with
  | none => simp [Race.stepCaller, hpc]
  | some pc =>
    cases pc with
    | start =>
      by_cases h0 : r.s.shuttingDown = 0
      · exact Or.inr ⟨CallerPc.won, by simp [Race.stepCaller, hpc, h0]⟩
      · exact Or.inr ⟨CallerPc.returned, by simp [Race.stepCaller, hpc, h0]⟩
    | won =>
      cases hc : r.s.shutdown with
      | opened => exact Or.inr ⟨CallerPc.returned, by simp [Race.stepCaller, hpc, hc]⟩
      | closed => exact Or.inr ⟨CallerPc.panicked, by simp [Race.stepCaller, hpc, hc]⟩
    | returned => simp [Race.stepCaller, hpc]
    | panicked => simp [Race.stepCaller, hpc]

/-- A step of caller `i` leaves the other callers where they are. -/
theorem stepCaller_other (r : Race) (i j : Nat) (hj : j ≠ i) :
    (r.stepCaller i).rankAt j = r.rankAt j := by
  rcases stepCaller_callers r i with h | ⟨x, h⟩
  · simp only [Race.rankAt, h]
  · simp only [Race.rankAt, h, List.getElem?_set_ne (Ne.symm hj)]

/-- A step of caller `i` moves caller `i` on, unless it has ended. -/
theorem stepCaller_rank (r : Race) (i : Nat) (hi : i < r.callers.length) :
    min 2 (r.rankAt i + 1) ≤ (r.stepCaller i).rankAt i := by
  obtain ⟨pc, hpc⟩ : ∃ pc, r.callers[i]? = some pc :=
    ⟨r.callers[i], List.getElem?_eq_getElem hi⟩
  have hset : ∀ x : CallerPc, (r.callers.set i x)[i]? = some x := by
    intro x
    rw [List.getElem?_set_eq_of_lt x hi]
  cases pc with
  | start =>
    by_cases h0 : r.s.shuttingDown = 0
    · simp only [Race.stepCaller, hpc, h0, if_true, Race.rankAt, hset]
      simp [CallerPc.rank]
    · simp only [Race.stepCaller, hpc, h0, if_false, Race.rankAt, hset]
      simp [CallerPc.rank]
  | won =>
    cases hc : r.s.shutdown with
    | opened =>
      simp only [Race.stepCaller, hpc, hc, Race.rankAt, hset]
      simp [CallerPc.rank]
    | closed =>
      simp only [Race.stepCaller, hpc, hc, Race.rankAt, hset]
      simp [CallerPc.rank]
  | returned =>
    simp only [Race.stepCaller, hpc, Race.rankAt]
    simp [CallerPc.rank]
  | panicked =>
    simp only [Race.stepCaller, hpc, Race.rankAt]
    simp [CallerPc.rank]

/-- After an interleaving, caller `i` is at least as far as the number of its
own turns, up to 2: every caller ends after two turns of its own, whatever the
others do. -/
theorem run_rank (servers : List HttpServer) (srvShutdown : Nat → HttpServer → Option String)
    (first : Nat → Nat) (i : Nat) (turns : List Turn) (r : Race) (hi : i < r.callers.length) :
    min 2 (r.rankAt i + turns.count (Turn.caller i))
      ≤ (Race.run servers srvShutdown first r turns).rankAt i := by
  induction turns generalizing r with
  | nil => simp [Race.run]
  | cons t turns ih =>
    simp only [Race.run, List.foldl_cons]
    cases t with
    | caller j =>
      have hlen := (stepCaller_frame r j).2.2
      have := ih (r.stepCaller j) (by rw [hlen]; exact hi)
      simp only [Race.run, Race.step] at this ⊢
      by_cases hj : j = i
      · subst hj
        have hstep := stepCaller_rank r j hi
        rw [List.count_cons_self]
        omega
      · have hstep := stepCaller_other r j i (Ne.symm hj)
        rw [List.count_cons_of_ne (by intro h; injection h with h1; exact hj h1.symm)]
        omega
    | coordinator =>
      have hcal := (stepCoordinator_frame r servers srvShutdown first).2.1
      have hr : (r.stepCoordinator servers srvShutdown first).rankAt i = r.rankAt i := by
        simp only [Race.rankAt, hcal]
      have := ih (r.stepCoordinator servers srvShutdown first) (by rw [hcal]; exact hi)
      simp only [Race.run, Race.step] at this ⊢
      rw [List.count_cons_of_ne (by intro h; cases h)]
      omega

/-- C13. `N ≥ 1` goroutines call `Shutdown()` on a manager whose trigger has
not fired, while the coordinator `handleShutdown` waits for it. Under every
interleaving of their atomic steps (the compare-and-swap and the `close` of
each caller, the run of the coordinator once the channel is closed): the
channel is closed at most once and no caller panics on closing it again, the
post-shutdown callback is invoked at most once, and once every caller has
returned the channel has been closed exactly once. Every caller returns after
two steps of its own, so in every interleaving that gives each caller its two
steps all `N` calls return and the trigger has fired exactly once. -/
theorem concurrent_Shutdown_fires_once (s : defaultServer) (w : World) (N : Nat) (hN : 1 ≤ N)
    (h0 : s.shuttingDown = 0) (hc : s.shutdown = Chan.opened) (servers : List HttpServer)
    (srvShutdown : Nat → HttpServer → Option String) (first : Nat → Nat)
    (turns : List Turn) :
    (Race.run servers srvShutdown first (Race.init s w N) turns).closes ≤ 1
      ∧ CallerPc.panicked ∉ (Race.run servers srvShutdown first (Race.init s w N) turns).callers
      ∧ (Race.run servers srvShutdown first (Race.init s w N) turns).w.onShutdownCalls
          ≤ w.onShutdownCalls + 1
      ∧ ((Race.run servers srvShutdown first (Race.init s w N) turns).closes = 1
          ↔ (Race.run servers srvShutdown first (Race.init s w N) turns).s.shutdown
              = Chan.closed)
      ∧ ((∀ pc ∈ (Race.run servers srvShutdown first (Race.init s w N) turns).callers,
            pc = CallerPc.returned) →
          (Race.run servers srvShutdown first (Race.init s w N) turns).closes = 1)
      ∧ ((∀ i, i < N → 2 ≤ turns.count (Turn.caller i)) →
          (Race.run servers srvShutdown first (Race.init s w N) turns).callers
              = List.replicate N CallerPc.returned
            ∧ (Race.run servers srvShutdown first (Race.init s w N) turns).closes = 1
            ∧ (Race.run servers srvShutdown first (Race.init s w N) turns).s.shutdown
                = Chan.closed) := by
  have hinit : (Race.init s w N).Inv := by
    refine ⟨?_, Or.inl ⟨h0, ?_, rfl, hc⟩⟩
    · simp [Race.init, List.mem_replicate]
    · intro pc hpc
      simp only [Race.init, List.mem_replicate] at hpc
      exact hpc.2
  have hcinit : (Race.init s w N).CoordInv w.onShutdownCalls :=
    ⟨fun _ => rfl, Nat.le_succ _⟩
  obtain ⟨⟨hp, hph⟩, hco, hlen⟩ :=
    run_inv servers srvShutdown first w.onShutdownCalls turns (Race.init s w N) hinit hcinit
  have hlenN : (Race.run servers srvShutdown first (Race.init s w N) turns).callers.length
      = N := by
    rw [hlen]; simp [Race.init]
  have hall : (∀ pc ∈ (Race.run servers srvShutdown first (Race.init s w N) turns).callers,
      pc = CallerPc.returned) →
      (Race.run servers srvShutdown first (Race.init s w N) turns).closes = 1 := by
    intro hret
    obtain ⟨pc0, hpc0⟩ : ∃ pc,
        (Race.run servers srvShutdown first (Race.init s w N) turns).callers[0]? = some pc :=
      ⟨_, List.getElem?_eq_getElem (by rw [hlenN]; omega)⟩
    have hm0 := List.getElem?_mem hpc0
    rcases hph with ⟨-, hst, -⟩ | ⟨-, hw, -⟩ | ⟨-, -, hcl, -⟩
    · have h1 := hst _ hm0
      have h2 := hret _ hm0
      rw [h1] at h2
      simp at h2
    · have hm : CallerPc.won
          ∈ (Race.run servers srvShutdown first (Race.init s w N) turns).callers := by
        rw [← List.count_pos_iff, hw]
        exact Nat.one_pos
      have := hret _ hm
      simp at this
    · exact hcl
  have hiff : (Race.run servers srvShutdown first (Race.init s w N) turns).closes = 1
      ↔ (Race.run servers srvShutdown first (Race.init s w N) turns).s.shutdown
          = Chan.closed := by
    rcases hph with ⟨-, -, hcl, hop⟩ | ⟨-, -, hcl, hop⟩ | ⟨-, -, hcl, hop⟩
    · rw [hcl, hop]; simp
    · rw [hcl, hop]; simp
    · rw [hcl, hop]; simp
  refine ⟨?_, hp, hco.2, hiff, hall, ?_⟩
  · rcases hph with ⟨-, -, hcl, -⟩ | ⟨-, -, hcl, -⟩ | ⟨-, -, hcl, -⟩ <;> omega
  · intro hfair
    have hret : ∀ pc ∈ (Race.run servers srvShutdown first (Race.init s w N) turns).callers,
        pc = CallerPc.returned := by
      intro pc hpc
      obtain ⟨i, hi⟩ := List.mem_iff_getElem?.1 hpc
      have hiN : i < N := by
        rw [← hlenN]
        exact (List.getElem?_eq_some.1 hi).1
      have hrank := run_rank servers srvShutdown first i turns (Race.init s w N)
        (by simp [Race.init]; exact hiN)
      have h2 := hfair i hiN
      have hr : 2 ≤ pc.rank := by
        simp only [Race.rankAt, hi] at hrank
        omega
      cases pc with
      | start => simp [CallerPc.rank] at hr
      | won => simp [CallerPc.rank] at hr
      | returned => rfl
      | panicked => exact absurd hpc hp
    have hcl := hall hret
    exact ⟨List.eq_replicate_iff.2 ⟨hlenN, hret⟩, hcl, hiff.1 hcl⟩

/-- Witness of C13: two callers and the coordinator, interleaved; both calls
return, the channel is closed once and the callback runs once. -/
theorem concurrent_Shutdown_fires_once_witness :
    (Race.run [] (fun _ _ => none) id (Race.init (New {} []) tlsSystemWorld 2)
        [.caller 0, .caller 1, .coordinator, .caller 1, .caller 0, .coordinator]).closes = 1
      ∧ (Race.run [] (fun _ _ => none) id (Race.init (New {} []) tlsSystemWorld 2)
        [.caller 0, .caller 1, .coordinator, .caller 1, .caller 0,
          .coordinator]).w.onShutdownCalls = 1 := by
  have h := (concurrent_Shutdown_fires_once (New {} []) tlsSystemWorld 2 (by decide) rfl rfl []
    (fun _ _ => none) id
    [.caller 0, .caller 1, .coordinator, .caller 1, .caller 0, .coordinator]).2.2.2.2.2
    (by
      intro i hi
      interval_cases i <;> decide)
  exact ⟨h.2.1, by decide⟩

end srv

end GoSrv
